import Mathlib

/-!
# jsontype: the resolver (dispatch engine), its keys, and the roots

A shallow embedding of `jsontype/Resolver.hpp`: the trie of `Key_node`s, the
registration `add`, the exact lookup `invoke`, the document walk
`scan` / `do_scan` and the text entry point; of the composition of keys of
`jsontype/Key.hpp`; and of `jsontype/Root.hpp` with
`jsontype/detail/Value_traits.hpp`: the schemas made of `Object`, `Array` and
`Value_field`, the constructors of `Generic_root` with `build` and
`structure_check`, `find` by name tag and by key, and `get` / `set` through
proxies; followed by the properties proved about them.

Conventions of the embedding.

* A rapidjson value is a `Json`; an object is its member list in document order.
* `std::unordered_map<Key_type, std::unique_ptr<Key_node>>` is an association
  list read through `Umap.find` (first binding of a key); `emplace` never
  replaces a binding, and mutation through the iterator it returns is
  `Umap.modify`.
* A handler type `F` is called through `Callable.call`; the forwarded argument
  pack `fargs...` is one value of type `A`, the result type
  `std::result_of_t<F(Fargs...)>` is `R` (`Unit` for `void`), and `R{}` is
  `default`. A handler may have side effects: it maps the state `σ` of the
  program before the call to the state after it, and every function that can
  reach a handler call passes the state along. What a call of a handler can
  change is part of that state, the data members of the handler object
  included: `func_` is called through the `unique_ptr` that owns its node, so
  its call operator need not be `const`. The `F` in a node is what the calls
  leave as it is.
* A template parameter pack of tags is given by the names of its tags; the
  packs handed to `add` and `invoke` have a first element `T` and a rest `Ts`.
* A C++ call of the resolver either returns, throws, fails an `assert` of
  rapidjson, or does not compile: `Outcome`.
* A schema `Root<Payloads...>` is the list of its payloads, and a name tag is
  given by its `name()`. A call into `Root.hpp` completes, throws
  `Bad_structure`, fails an `assert`, or does not compile: `Result`.
* A reference into the document (`json_handle->value`, the `json_` of a proxy)
  is the path of the member names that the `FindMember` calls went through,
  each name standing for the first member of that name.
* Numbers are integers: floating-point values, and with them the fields of
  type `float` and `double`, are not part of the embedding, nor are the
  strings of wide characters of `std::wstring` fields.
-/

namespace jsontype

/-! ## Documents -/

/-- A rapidjson value. The members of an object are kept in document order,
each under the name that `member.name.GetString()` denotes. -/
inductive Json where
  | null
  | bool (b : Bool)
  | number (i : Int)
  | string (s : String)
  | array (elems : List Json)
  | object (members : List (String × Json))

/-- The rapidjson test `IsObject()`. -/
def Json.IsObject : Json → Bool
  | .object _ => true
  | _ => false

/-! ## Outcomes and handlers -/

/-- What a call of the library does: it returns a value, throws
`std::out_of_range` or `std::runtime_error` (with the message), fails an
`assert` of rapidjson, or is a call whose template instantiation is
ill-formed. -/
inductive Outcome (R : Type) where
  | returned (value : R)
  | out_of_range (what : String)
  | runtime_error (what : String)
  | assertion_failed
  | ill_formed
  deriving DecidableEq, Repr

/-- A handler type `F` that can be called with the argument pack `A` in a
program whose state is a `σ`, giving `std::result_of_t<F(Fargs...)>`:
`call f x s` is the value of the expression `f(x...)` evaluated in state `s`,
with the state it leaves. -/
class Callable (F : Type) (A : Type) (σ : Type) (R : outParam Type) where
  call : F → A → σ → R × σ

/-- Functions of the arguments and the state (function pointers, lambdas,
`std::function`) are called by application. -/
instance instCallableFun {A σ R : Type} : Callable (A → σ → R × σ) A σ R :=
  ⟨fun f x s => f x s⟩

/-- The functor of `TEST(RESOLVER, FUNC_ARGS)`: `int operator()(int i) { return i * 2; }`. -/
structure Work where
  deriving DecidableEq, Inhabited

instance instCallableWork {σ : Type} : Callable Work Int σ Int := ⟨fun _ i s => (i * 2, s)⟩

/-- A type used as a template argument: a class with a static `name()` (as made
by `JSONTYPE_MAKE_TAG`), or a type without one (`int`, a reference, ...). -/
inductive Ty where
  | tag (name : String)
  | other (spelling : String)
  deriving DecidableEq, Repr

/-- The value of `T::name()` when that expression is well-formed. -/
def Ty.name : Ty → Option String
  | .tag n => some n
  | .other _ => none

/-- The names `T::name()` of a whole pack, when every one is well-formed. -/
def Ty.names : List Ty → Option (List String)
  | [] => some []
  | T :: Ts =>
    match T.name, Ty.names Ts with
    | some n, some ns => some (n :: ns)
    | _, _ => none

/-- The pack `Key<K...>::Args` of a key with at least one tag, by the names of
its tags: `T` is the first tag and `Ts` the remaining ones. (Neither
`add` nor `invoke` has an overload for the empty pack.) -/
structure Key where
  T : String
  Ts : List String
  deriving DecidableEq, Repr

/-- The segment names of a key, in order. -/
def Key.Args (k : Key) : List String := k.T :: k.Ts

/-! ## The children map -/

/-- The map `children_` of a node. -/
abbrev Umap (V : Type) := List (String × V)

namespace Umap

/-- The lookup `children_.find(k)`: `none` is `children_.cend()`. -/
def find {V : Type} (k : String) : Umap V → Option V
  | [] => none
  | (k', v) :: rest => if k' = k then some v else find k rest

/-- The insertion `children_.emplace(k, v)`: inserts only when `k` has no binding. -/
def emplace {V : Type} (k : String) (v : V) (m : Umap V) : Umap V :=
  match find k m with
  | some _ => m
  | none => (k, v) :: m

/-- Mutation of the value bound to `k`, through the iterator `pair.first->second`. -/
def modify {V : Type} (k : String) (g : V → V) : Umap V → Umap V
  | [] => []
  | (k', v) :: rest => if k' = k then (k', g v) :: rest else (k', v) :: modify k g rest

end Umap

/-! ## The trie -/

namespace detail

/-- The class `Key_node<Document, F>`: its three data members. -/
inductive Key_node (F : Type) where
  | mk (activable_ : Bool) (func_ : F) (children_ : List (String × Key_node F))

namespace Key_node

variable {F A σ R : Type}

/-- Data member `activable_`. -/
def activable_ : Key_node F → Bool
  | .mk a _ _ => a

/-- Data member `func_`. -/
def func_ : Key_node F → F
  | .mk _ f _ => f

/-- Data member `children_`. -/
def children_ : Key_node F → Umap (Key_node F)
  | .mk _ _ c => c

/-- The defaulted constructor `Key_node()`, as run by `std::make_unique`:
not activable, value-initialised handler, no children. -/
def new [Inhabited F] : Key_node F := .mk false default []

/-- The method `Key_node::activate`. -/
def activate (n : Key_node F) (func : F) : Key_node F :=
  .mk true func n.children_

/-- The two overloads of `Key_node::add<T, Ts...>`: `Ts` empty activates the
child, `Ts` non-empty recurses into it. -/
def add [Inhabited F] (n : Key_node F) (T : String) (Ts : List String) (f : F) : Key_node F :=
  match Ts with
  | [] =>
    .mk n.activable_ n.func_
      (Umap.modify T (fun child => child.activate f) (Umap.emplace T new n.children_))
  | T' :: Ts' =>
    .mk n.activable_ n.func_
      (Umap.modify T (fun child => child.add T' Ts' f) (Umap.emplace T new n.children_))

/-- The two defined overloads of `Key_node::invoke<T, Ts...>`, run in state `s`:
the outcome and the state afterwards. -/
def invoke [Callable F A σ R] (n : Key_node F) (T : String) (Ts : List String) (fargs : A)
    (s : σ) : Outcome R × σ :=
  match Ts with
  | [] =>
    match Umap.find T n.children_ with
    | none => (.out_of_range "Key not found!", s)
    | some child =>
      if !child.activable_ then (.out_of_range "Key not found!", s)
      else
        let c := Callable.call child.func_ fargs s
        (.returned c.1, c.2)
  | T' :: Ts' =>
    match Umap.find T n.children_ with
    | none => (.out_of_range "Key not found!", s)
    | some child => child.invoke T' Ts' fargs s

mutual
/-- The value-returning overload of `Key_node::do_scan`, run in state `s`, on a
`ref` that is an object: the returned value, the flag `found` after the call,
and the state afterwards. On a `ref` that is not an object `ref.GetObject()`
fails its assertion; no call of the embedding gets there, since the loop
checks `IsObject()` before it recurses and `scan` ends with the failed
assertion before it calls `do_scan`. -/
def do_scan [Callable F A σ R] [Inhabited R] (n : Key_node F) (ref : Json) (found : Bool)
    (fargs : A) (s : σ) : R × Bool × σ :=
  match ref with
  | .object members => do_scan_loop n members found fargs s
  | _ => (default, found, s)
termination_by structural ref
/-- The loop `for (auto& member : ref.GetObject())` of the value-returning
`do_scan`, from the members still to visit. -/
def do_scan_loop [Callable F A σ R] [Inhabited R] (n : Key_node F)
    (members : List (String × Json)) (found : Bool) (fargs : A) (s : σ) : R × Bool × σ :=
  match members with
  | [] => (default, found, s)
  | (name, value) :: rest =>
    match Umap.find name n.children_ with
    | none => do_scan_loop n rest found fargs s
    | some child =>
      if value.IsObject then
        let r := do_scan child value false fargs s
        if r.2.1 then (r.1, true, r.2.2)
        else if child.activable_ then
          let c := Callable.call child.func_ fargs r.2.2
          (c.1, true, c.2)
        else do_scan_loop n rest found fargs r.2.2
      else if child.activable_ then
        let c := Callable.call child.func_ fargs s
        (c.1, true, c.2)
      else do_scan_loop n rest found fargs s
termination_by structural members
end

mutual
/-- The `void` overload of `Key_node::do_scan`, run in state `s`, on a `ref`
that is an object: the flag `found` after the call and the state afterwards.
On a `ref` that is not an object `ref.GetObject()` fails its assertion; no
call of the embedding gets there (see `do_scan`). -/
def do_scan_void [Callable F A σ Unit] (n : Key_node F) (ref : Json) (found : Bool)
    (fargs : A) (s : σ) : Bool × σ :=
  match ref with
  | .object members => do_scan_void_loop n members found fargs s
  | _ => (found, s)
termination_by structural ref
/-- The loop of the `void` overload of `do_scan`, from the members still to visit. -/
def do_scan_void_loop [Callable F A σ Unit] (n : Key_node F)
    (members : List (String × Json)) (found : Bool) (fargs : A) (s : σ) : Bool × σ :=
  match members with
  | [] => (found, s)
  | (name, value) :: rest =>
    match Umap.find name n.children_ with
    | none => do_scan_void_loop n rest found fargs s
    | some child =>
      if value.IsObject then
        let r := do_scan_void child value false fargs s
        if r.1 then (true, r.2)
        else if child.activable_ then (true, (Callable.call child.func_ fargs r.2).2)
        else do_scan_void_loop n rest found fargs r.2
      else if child.activable_ then (true, (Callable.call child.func_ fargs s).2)
      else do_scan_void_loop n rest found fargs s
termination_by structural members
end

/-- The value-returning overload of `Key_node::scan`. It hands the document
to `do_scan` unchecked, whose first step is `doc.GetObject()`: rapidjson
asserts there that the document is an object. -/
def scan [Callable F A σ R] [Inhabited R] (n : Key_node F) (doc : Json) (fargs : A) (s : σ) :
    Outcome R × σ :=
  match doc with
  | .object members =>
    let r := do_scan n (.object members) false fargs s
    if !r.2.1 then (.out_of_range "No matching key found!", r.2.2) else (.returned r.1, r.2.2)
  | _ => (.assertion_failed, s)

/-- The `void` overload of `Key_node::scan`; the document that is not an object
fails the assertion of `GetObject()` as in the other overload. -/
def scan_void [Callable F A σ Unit] (n : Key_node F) (doc : Json) (fargs : A) (s : σ) :
    Outcome Unit × σ :=
  match doc with
  | .object members =>
    let r := do_scan_void n (.object members) false fargs s
    if !r.1 then (.out_of_range "No matching key found!", r.2) else (.returned (), r.2)
  | _ => (.assertion_failed, s)

end Key_node

end detail

open detail

/-! ## The resolver -/

/-- The class `Generic_resolver<Document, F>`: it owns the root node. -/
structure Generic_resolver (F : Type) where
  root_ : Key_node F

namespace Generic_resolver

variable {F A σ R : Type}

/-- A default-constructed resolver: the root is `Key_node()`. -/
def empty [Inhabited F] : Generic_resolver F := ⟨Key_node.new⟩

/-- The method `Generic_resolver::add(Key&&, const Func& f)`: `root_.add<Args...>(f)`. -/
def add [Inhabited F] (r : Generic_resolver F) (key : Key) (f : F) : Generic_resolver F :=
  ⟨r.root_.add key.T key.Ts f⟩

/-- The call `add(key)` with the default argument `f = Func()`. -/
def add_default [Inhabited F] (r : Generic_resolver F) (key : Key) : Generic_resolver F :=
  r.add key default

/-- The method `Generic_resolver::invoke(Key&&, Fargs&&... ar)`:
`root_.invoke<Fargs..., Args...>(ar...)`. The explicit template arguments are
the types `Fargs` of the call-site arguments followed by the tags of the key;
`Key_node::invoke` takes the first of them as `T` and the rest as `Ts`, and
calls `name()` on each, so the call is ill-formed unless all have one. A call
`r.invoke(key, ar...)` is given by the types `Fargs` of its arguments and by
their values `ar`; the call without arguments is `invoke key [] ()`. -/
def invoke [Callable F A σ R] (r : Generic_resolver F) (key : Key) (Fargs : List Ty) (ar : A)
    (s : σ) : Outcome R × σ :=
  match Ty.names (Fargs ++ key.Args.map Ty.tag) with
  | some (T :: Ts) => r.root_.invoke T Ts ar s
  | _ => (.ill_formed, s)

/-- The method `Generic_resolver::scan(const Document& doc, Fargs&&...)` for a
value-returning handler. -/
def scan [Callable F A σ R] [Inhabited R] (r : Generic_resolver F) (doc : Json) (fargs : A)
    (s : σ) : Outcome R × σ :=
  r.root_.scan doc fargs s

/-- The method `Generic_resolver::scan(const Document& doc, Fargs&&...)` for a
handler returning `void`. -/
def scan_void [Callable F A σ Unit] (r : Generic_resolver F) (doc : Json) (fargs : A)
    (s : σ) : Outcome Unit × σ :=
  r.root_.scan_void doc fargs s

end Generic_resolver

/-! ## Vocabulary of the properties -/

namespace detail.Key_node

variable {F A σ R : Type}

/-- The node reached from `n` by following a path of segment names through
`children_`, when every segment is found. -/
def node_at (n : Key_node F) : List String → Option (Key_node F)
  | [] => some n
  | seg :: rest =>
    match Umap.find seg n.children_ with
    | none => none
    | some child => node_at child rest

/-- The flag and the handler stored in the node at a path, when the node exists. -/
def flags (n : Key_node F) (path : List String) : Option (Bool × F) :=
  (node_at n path).map (fun c => (c.activable_, c.func_))

/-- The handler bound at a path: `func_` of the node there, when that node
exists and is activable. -/
def bound (n : Key_node F) (path : List String) : Option F :=
  match node_at n path with
  | some c => if c.activable_ then some c.func_ else none
  | none => none

mutual
/-- The node that the walk of `do_scan` stops at, by its path from `n`: the same
traversal as `do_scan`, recording the member names instead of calling
`func_`. `none` when the walk ends with `found` unset. -/
def select (n : Key_node F) (ref : Json) : Option (List String) :=
  match ref with
  | .object members => select_loop n members
  | _ => none
termination_by structural ref
/-- The loop of `select`, from the members still to visit. -/
def select_loop (n : Key_node F) (members : List (String × Json)) : Option (List String) :=
  match members with
  | [] => none
  | (name, value) :: rest =>
    match Umap.find name n.children_ with
    | none => select_loop n rest
    | some child =>
      if value.IsObject then
        match select child value with
        | some path => some (name :: path)
        | none => if child.activable_ then some [name] else select_loop n rest
      else if child.activable_ then some [name]
      else select_loop n rest
termination_by structural members
end

/-- A member of a scanned object is a dead end for the value-returning
`do_scan` at node `n`: its name is not a child of `n`, or it is a child that
is not activable and whose value is not an object or is an object on which the
recursive `do_scan` leaves `found_child` unset. -/
def dead_end [Callable F A σ R] [Inhabited R] (n : Key_node F) (fargs : A) (s : σ)
    (member : String × Json) : Prop :=
  match Umap.find member.1 n.children_ with
  | none => True
  | some child =>
    child.activable_ = false ∧
      (member.2.IsObject = false ∨
        (do_scan child member.2 false fargs s : R × Bool × σ).2.1 = false)

/-- A member of a scanned object succeeds for the value-returning `do_scan` at
node `n`: its name is a child of `n`, and the recursive `do_scan` on its
object value sets `found_child` or the child is activable. -/
def succeeds [Callable F A σ R] [Inhabited R] (n : Key_node F) (fargs : A) (s : σ)
    (member : String × Json) : Prop :=
  match Umap.find member.1 n.children_ with
  | none => False
  | some child =>
    (member.2.IsObject = true ∧
        (do_scan child member.2 false fargs s : R × Bool × σ).2.1 = true) ∨
      child.activable_ = true

end detail.Key_node

/-- A path of member names is present in a value: the empty path in every
value, and `seg :: rest` in an object that has a member named `seg` in whose
value `rest` is present. -/
def present : List String → Json → Bool
  | [], _ => true
  | seg :: rest, .object members => members.any (fun m => m.1 == seg && present rest m.2)
  | _ :: _, _ => false

/-- The single-chain document `{s1:{s2:...{sn: v}...}}` around a value `v`. -/
def chain : List String → Json → Json
  | [], v => v
  | seg :: rest, v => .object [(seg, chain rest v)]

mutual
/-- In every object of the value, the member names are pairwise distinct. -/
def Json.distinct_names : Json → Bool
  | .object members =>
    decide ((members.map Prod.fst).Nodup) && Json.distinct_names_members members
  | .array elems => Json.distinct_names_elems elems
  | _ => true
/-- Every member value of the list has distinct member names in every object. -/
def Json.distinct_names_members : List (String × Json) → Bool
  | [] => true
  | (_, value) :: rest => value.distinct_names && Json.distinct_names_members rest
/-- Every element of the list has distinct member names in every object. -/
def Json.distinct_names_elems : List Json → Bool
  | [] => true
  | value :: rest => value.distinct_names && Json.distinct_names_elems rest
end

namespace Generic_resolver

variable {F A σ R : Type}

/-- The resolver obtained from a default-constructed one by a sequence of
`add` calls, in order. -/
def build [Inhabited F] (adds : List (Key × F)) : Generic_resolver F :=
  adds.foldl (fun r a => r.add a.1 a.2) empty

/-- The handler registered for a path by a sequence of `add` calls: the one
given by the last call with that path. -/
def registered (adds : List (Key × F)) (path : List String) : Option F :=
  adds.foldl (fun acc a => if a.1.Args = path then some a.2 else acc) none

end Generic_resolver

/-! ## The text entry point -/

namespace Generic_resolver

variable {F A σ R : Type}

/-- The method `Generic_resolver::scan(const String_type& str, Fargs&&...)` for a
value-returning handler. The parser belongs to rapidjson: `Parse str` is the
value of `doc` after `Document doc; doc.Parse(str);`. -/
def scan_text [Callable F A σ R] [Inhabited R] (Parse : String → Json)
    (r : Generic_resolver F) (str : String) (fargs : A) (s : σ) : Outcome R × σ :=
  let doc := Parse str
  if !doc.IsObject then (.runtime_error ("Cannot parse string as json: " ++ str), s)
  else r.scan doc fargs s

/-- The method `Generic_resolver::scan(const String_type& str, Fargs&&...)` for a
handler returning `void`. -/
def scan_text_void [Callable F A σ Unit] (Parse : String → Json)
    (r : Generic_resolver F) (str : String) (fargs : A) (s : σ) : Outcome Unit × σ :=
  let doc := Parse str
  if !doc.IsObject then (.runtime_error ("Cannot parse string as json: " ++ str), s)
  else r.scan_void doc fargs s

end Generic_resolver

mutual
/-- The value with every part that is not an object replaced by `null`: what
is left is the nesting of objects and the member names. -/
def Json.skeleton : Json → Json
  | .object members => .object (Json.skeleton_members members)
  | _ => .null
/-- The members with each value replaced by its skeleton. -/
def Json.skeleton_members : List (String × Json) → List (String × Json)
  | [] => []
  | (name, value) :: rest => (name, value.skeleton) :: Json.skeleton_members rest
end

/-! ## Keys (`Key.hpp`) -/

/-- A type given as a template argument of `Key`: a tag class or another plain
type, a `Key<...>`, or a `detail::Pack<...>`. -/
inductive TArg where
  | plain (t : Ty)
  | key (args : List TArg)
  | pack (args : List TArg)

/-- The member `T::type`: a tag class inherits it from `Tag<T>` and it is the
tag itself; no other type here has it. -/
def TArg.type : TArg → Option TArg
  | .plain (.tag n) => some (.plain (.tag n))
  | _ => none

/-- The test `std::is_base_of<Tag<T>, T>::value` of `is_all_tags`. -/
def TArg.is_tag : TArg → Bool
  | .plain (.tag _) => true
  | _ => false

/-- The function `detail::is_all_tags<T...>()`. -/
def is_all_tags (ts : List TArg) : Bool :=
  ts.all TArg.is_tag

/-- The type `Pack<...>` that `static_assert(is_all_tags<...>())` lets through. -/
def checked_pack (ts : List TArg) : Option (List TArg) :=
  if is_all_tags ts then some ts else none

mutual
/-- The member `Args` of a type, when the type is a `Key<...>`: the arguments
of the `detail::Pack` it names, or `none` when the instantiation is ill-formed. -/
def TArg.Args : TArg → Option (List TArg)
  | .key ks => Key_Args ks
  | _ => none
/-- The member `Key<K...>::Args`, by the primary template and its six partial
specialisations: the arguments of the `detail::Pack` it names, or `none` when
the instantiation is ill-formed (a failed `static_assert`, a missing
`T::type`, or two specialisations that match and are not ordered). -/
def Key_Args : List TArg → Option (List TArg)
  | [.key k1, .key k2] => some (k1 ++ k2)
  | [.pack k1, .pack k2] => some (k1 ++ k2)
  | [.key _, .pack _] => none
  | [.pack _, .key _] => none
  | [.plain t, .key k] =>
    match TArg.type (.plain t), TArg.Args (.key k) with
    | some t', some ks => checked_pack (t' :: ks)
    | _, _ => none
  | [.plain t, .pack ks] =>
    if is_all_tags (.plain t :: ks) then
      match TArg.type (.plain t) with
      | some t' => some (t' :: ks)
      | none => none
    else none
  | [.key k, .plain t] =>
    match TArg.Args (.key k), TArg.type (.plain t) with
    | some ks, some t' => checked_pack (ks ++ [t'])
    | _, _ => none
  | [.pack ks, .plain t] =>
    if is_all_tags (ks ++ [.plain t]) then
      match TArg.type (.plain t) with
      | some t' => some (ks ++ [t'])
      | none => none
    else none
  | ks => checked_pack ks
end

/-- The type of the expression `x + y` for operands of types `x` and `y`, by
the three overloads of `operator+` of `Key.hpp`; `none` when no overload
applies, `T::type` is missing, or the `Key` returned cannot be instantiated. -/
def TArg.plus (x y : TArg) : Option TArg :=
  let result : Option TArg :=
    match x, y with
    | .key k1, .key k2 => some (.key [.key k1, .key k2])
    | .key k, t =>
      match t.type with
      | some t' => some (.key [.key k, t'])
      | none => none
    | t, .key k =>
      match t.type with
      | some t' => some (.key [t', .key k])
      | none => none
    | _, _ => none
  match result with
  | some k => if (TArg.Args k).isSome then some k else none
  | none => none

/-- The tag class made by `JSONTYPE_MAKE_TAG(name)`, as a template argument. -/
def tag_arg (name : String) : TArg := .plain (.tag name)

/-- The flat key `Key<a1, ..., an>` over the tags with the given names. -/
def flat_key (names : List String) : TArg := .key (names.map tag_arg)

/-! ## Keys handed to the resolver -/

/-- A template argument as the resolver sees it: a plain type is itself, and a
`Key<...>` or a `detail::Pack<...>` is a type without `name()`. -/
def TArg.toTy : TArg → Ty
  | .plain t => t
  | .key _ => .other "Key"
  | .pack _ => .other "Pack"

namespace Generic_resolver

variable {F A σ R : Type}

/-- The method `Generic_resolver::add(Key&&, const Func& f)` called with an
object of the type `k`: `root_.add<Args...>(f)` for `Args = k::Args`. `none`
when the call is ill-formed: `k` has no well-formed `Args`, the pack is empty,
or an element of the pack has no `name()`. -/
def add_key [Inhabited F] (r : Generic_resolver F) (k : TArg) (f : F) :
    Option (Generic_resolver F) :=
  match k.Args with
  | none => none
  | some args =>
    match Ty.names (args.map TArg.toTy) with
    | some (T :: Ts) => some (r.add ⟨T, Ts⟩ f)
    | _ => none

/-- The method `Generic_resolver::invoke(Key&&, Fargs&&... ar)` called with an
object of the type `k`: `root_.invoke<Fargs..., Args...>(ar...)` for
`Args = k::Args`. -/
def invoke_key [Callable F A σ R] (r : Generic_resolver F) (k : TArg) (Fargs : List Ty)
    (ar : A) (s : σ) : Outcome R × σ :=
  match k.Args with
  | none => (.ill_formed, s)
  | some args =>
    match Ty.names (Fargs ++ args.map TArg.toTy) with
    | some (T :: Ts) => r.root_.invoke T Ts ar s
    | _ => (.ill_formed, s)

end Generic_resolver

mutual
/-- How deep objects are nested in a value: `0` for a value that is not an
object, one more than its deepest member value for an object. -/
def Json.depth : Json → Nat
  | .object members => Json.depth_members members + 1
  | _ => 0
/-- The largest depth among the member values. -/
def Json.depth_members : List (String × Json) → Nat
  | [] => 0
  | (_, value) :: rest => max value.depth (Json.depth_members rest)
end

/-- What a call does once the trie and the input have fixed what is to be
done: the handler `f` found is called with the arguments in the current
state, and a failure is reported with the state as it is. -/
def Outcome.apply {F A σ R : Type} [Callable F A σ R] (o : Outcome F) (x : A) (s : σ) :
    Outcome R × σ :=
  match o with
  | .returned f => (.returned (Callable.call f x s).1, (Callable.call f x s).2)
  | .out_of_range what => (.out_of_range what, s)
  | .runtime_error what => (.runtime_error what, s)
  | .assertion_failed => (.assertion_failed, s)
  | .ill_formed => (.ill_formed, s)

/-! ## Values of fields (`detail/Value_traits.hpp`) -/

/-- The value types `T` of `Value_field<Name_tag, T>` that hold a boolean, an
integer or a narrow string; `c_string` is `const char*`. The traits of `float`,
`double` and `std::wstring` are left out: a `Json` has no floating-point
number and no wide text. -/
inductive Value_type where
  | bool
  | int
  | unsigned
  | int64_t
  | uint64_t
  | string
  | c_string
  deriving DecidableEq, Repr

/-- A C++ value of one of the value types, or the argument of a call of `set`:
a `bool`, a value of an integer type, a `std::string`, or a `const char*` that
points to the characters of `s` (read up to the first NUL). -/
inductive Cpp_value where
  | bool (b : Bool)
  | integer (i : Int)
  | string (s : String)
  | c_string (s : String)
  deriving DecidableEq, Repr

/-- The text that a `const char*` to the characters of `s` denotes: it ends
before the first NUL character. -/
def c_str (s : String) : String := ⟨s.data.takeWhile (fun c => c ≠ Char.ofNat 0)⟩

/-- The value `v` is a value of the type `T`: integers within the range of the
machine type (`int` and `unsigned` of 32 bits), a `std::string` of any
characters, a `const char*` text without a NUL character. -/
def Value_type.admits : Value_type → Cpp_value → Bool
  | .bool, .bool _ => true
  | .int, .integer i => decide (-(2 : Int) ^ 31 ≤ i ∧ i < (2 : Int) ^ 31)
  | .unsigned, .integer i => decide (0 ≤ i ∧ i < (2 : Int) ^ 32)
  | .int64_t, .integer i => decide (-(2 : Int) ^ 63 ≤ i ∧ i < (2 : Int) ^ 63)
  | .uint64_t, .integer i => decide (0 ≤ i ∧ i < (2 : Int) ^ 64)
  | .string, .string _ => true
  | .c_string, .c_string s => decide (c_str s = s)
  | _, _ => false

/-- The value of the signed integer type of `w` bits that an integer is
converted to: the value congruent to it modulo `2 ^ w` (what the compilers do;
the rule of the language since C++20). -/
def wrap_signed (w : Nat) (i : Int) : Int :=
  (i + (2 : Int) ^ (w - 1)) % (2 : Int) ^ w - (2 : Int) ^ (w - 1)

/-- The value of the unsigned integer type of `w` bits that an integer is
converted to: the value congruent to it modulo `2 ^ w`. -/
def wrap_unsigned (w : Nat) (i : Int) : Int := i % (2 : Int) ^ w

/-- The implicit conversion of the argument of a call `set(val)` to the
parameter type `Param_type` of the field (`T`, or `const std::string&`):
`none` when the language has no such conversion and the call is ill-formed.
The arithmetic types convert into each other, integers modulo the width of
the target and to `bool` by comparison with zero; a `const char*` converts to
`std::string`, and as a pointer that is not null to `true`; nothing else
converts from or to a string. (An argument that is the literal `0` is a null
pointer constant and is not meant by `integer 0`.) -/
def Value_type.convert : Value_type → Cpp_value → Option Cpp_value
  | .bool, .bool b => some (.bool b)
  | .bool, .integer i => some (.bool (decide (i ≠ 0)))
  | .bool, .c_string _ => some (.bool true)
  | .int, .bool b => some (.integer (if b then 1 else 0))
  | .int, .integer i => some (.integer (wrap_signed 32 i))
  | .unsigned, .bool b => some (.integer (if b then 1 else 0))
  | .unsigned, .integer i => some (.integer (wrap_unsigned 32 i))
  | .int64_t, .bool b => some (.integer (if b then 1 else 0))
  | .int64_t, .integer i => some (.integer (wrap_signed 64 i))
  | .uint64_t, .bool b => some (.integer (if b then 1 else 0))
  | .uint64_t, .integer i => some (.integer (wrap_unsigned 64 i))
  | .string, .string s => some (.string s)
  | .string, .c_string s => some (.string (c_str s))
  | .c_string, .c_string s => some (.c_string (c_str s))
  | _, _ => none

/-- The rapidjson test `IsArray()`. -/
def Json.IsArray : Json → Bool
  | .array _ => true
  | _ => false

/-- The rapidjson test `IsBool()`. -/
def Json.IsBool : Json → Bool
  | .bool _ => true
  | _ => false

/-- The rapidjson test `IsString()`. -/
def Json.IsString : Json → Bool
  | .string _ => true
  | _ => false

/-- The rapidjson test `IsInt()`: an integer that fits `int`. -/
def Json.IsInt : Json → Bool
  | .number i => decide (-(2 : Int) ^ 31 ≤ i ∧ i < (2 : Int) ^ 31)
  | _ => false

/-- The rapidjson test `IsUint()`: an integer that fits `unsigned`. -/
def Json.IsUint : Json → Bool
  | .number i => decide (0 ≤ i ∧ i < (2 : Int) ^ 32)
  | _ => false

/-- The rapidjson test `IsInt64()`: an integer that fits `int64_t`. -/
def Json.IsInt64 : Json → Bool
  | .number i => decide (-(2 : Int) ^ 63 ≤ i ∧ i < (2 : Int) ^ 63)
  | _ => false

/-- The rapidjson test `IsUint64()`: an integer that fits `uint64_t`. -/
def Json.IsUint64 : Json → Bool
  | .number i => decide (0 ≤ i ∧ i < (2 : Int) ^ 64)
  | _ => false

/-- What a call into `Root.hpp` does: it completes with a value, throws
`Bad_structure` (with the message), fails an `assert` of the library or of
rapidjson, or does not compile. -/
inductive Result (α : Type) where
  | done (value : α)
  | Bad_structure (what : String)
  | assertion_failed
  | ill_formed
  deriving DecidableEq, Repr

/-- Sequencing: the next statement runs when the previous one completed. -/
def Result.bind {α β : Type} (x : Result α) (next : α → Result β) : Result β :=
  match x with
  | .done value => next value
  | .Bad_structure what => .Bad_structure what
  | .assertion_failed => .assertion_failed
  | .ill_formed => .ill_formed

/-- The value of a completed call seen through `g`. -/
def Result.map {α β : Type} (g : α → β) (x : Result α) : Result β :=
  x.bind (fun value => .done (g value))

namespace detail.Value_traits

/-- The member `Value_traits<T>::default_value()`. -/
def default_value : Value_type → Cpp_value
  | .bool => .bool false
  | .int => .integer 0
  | .unsigned => .integer 0
  | .int64_t => .integer 0
  | .uint64_t => .integer 0
  | .string => .string ""
  | .c_string => .c_string ""

/-- The rapidjson value made from a C++ value (`SetBool`, `SetInt`, `SetUint`,
`SetInt64`, `SetUint64`, `SetString` with the length of the `std::string`, and
the constructors of `GenericValue` that `AddMember` uses);
`SetString(const char*, alloc)` copies the characters up to the first NUL. -/
def stored : Cpp_value → Json
  | .bool b => .bool b
  | .integer i => .number i
  | .string s => .string s
  | .c_string s => .string (c_str s)

/-- The member `Value_traits<T>::set(ref, alloc, value)` as
`Value_field_proxy::set(Param_type val)` calls it with its argument: the new
value of `ref`. The argument of the call is converted to the parameter type,
and the converted value is stored; the call is ill-formed when there is no
conversion. -/
def set (T : Value_type) (value : Cpp_value) : Result Json :=
  match T.convert value with
  | some v => .done (stored v)
  | none => .ill_formed

/-- The member `Value_traits<T>::check(ref)`. -/
def check : Value_type → Json → Bool
  | .bool, ref => ref.IsBool
  | .int, ref => ref.IsInt
  | .unsigned, ref => ref.IsUint
  | .int64_t, ref => ref.IsInt64
  | .uint64_t, ref => ref.IsUint64
  | .string, ref => ref.IsString
  | .c_string, ref => ref.IsString

/-- The member `Value_traits<T>::get(ref)`: `GetBool()`, `GetInt()`, ... assert
the type of the value; `GetString()` is a `const char*`, from which the
`std::string` returned by `Value_traits<std::string>::get` is made. -/
def get : Value_type → Json → Result Cpp_value
  | .bool, .bool b => .done (.bool b)
  | .int, .number i => if (Json.number i).IsInt then .done (.integer i) else .assertion_failed
  | .unsigned, .number i =>
    if (Json.number i).IsUint then .done (.integer i) else .assertion_failed
  | .int64_t, .number i =>
    if (Json.number i).IsInt64 then .done (.integer i) else .assertion_failed
  | .uint64_t, .number i =>
    if (Json.number i).IsUint64 then .done (.integer i) else .assertion_failed
  | .string, .string s => .done (.string (c_str s))
  | .c_string, .string s => .done (.c_string (c_str s))
  | _, _ => .assertion_failed

end detail.Value_traits

/-! ## Members of rapidjson objects -/

/-- The call `ref.FindMember(name)` with a `const Ch*` name: the value of the
first member whose name is `name`, `none` for `MemberEnd()`; rapidjson asserts
that `ref` is an object. -/
def Json.FindMember (name : String) : Json → Result (Option Json)
  | .object members => .done (Umap.find name members)
  | _ => .assertion_failed

/-- The call `ref.AddMember(StringRef(name), value, alloc)`: the member is put
after the others, whatever their names; rapidjson asserts that `ref` is an
object. -/
def Json.AddMember (ref : Json) (name : String) (value : Json) : Result Json :=
  match ref with
  | .object members => .done (.object (members ++ [(name, value)]))
  | _ => .assertion_failed

/-- The members after `g` has run on the value of the first member named
`name`; no such member is `json_handle == ref.MemberEnd()`, and the `assert`
fails. -/
def members_at (name : String) (g : Json → Result Json) :
    List (String × Json) → Result (List (String × Json))
  | [] => .assertion_failed
  | (n, v) :: rest =>
    if n = name then (g v).map (fun v' => (n, v') :: rest)
    else (members_at name g rest).map (fun rest' => (n, v) :: rest')

/-- The statements `auto json_handle = ref.FindMember(name);
assert(json_handle != ref.MemberEnd()); g(json_handle->value);`: the value of
`ref` after `g` has worked on the member in place. -/
def Json.at_member (name : String) (g : Json → Result Json) : Json → Result Json
  | .object members => (members_at name g members).map Json.object
  | _ => .assertion_failed

/-- The value reached from `v` through the first member of each name of the
path, as a chain of `FindMember` reaches it. -/
def Json.at_path : List String → Json → Option Json
  | [], v => some v
  | seg :: rest, .object members =>
    match Umap.find seg members with
    | some value => Json.at_path rest value
    | none => none
  | _ :: _, _ => none

/-- The document after `g` has run on the value at the path; the assertions of
the `FindMember` chain fail when the path is not there. -/
def Json.at_path_do (g : Json → Result Json) : List String → Json → Result Json
  | [], v => g v
  | seg :: rest, v => v.at_member seg (Json.at_path_do g rest)

/-! ## Schemas (`Root.hpp`) -/

/-- The payload types of a schema: `Object<Name_tag, Payloads...>`,
`Array<Name_tag>` and `Value_field<Name_tag, T>`. A name tag is given by its
`name()`. -/
inductive Payload where
  | Object (name : String) (Payloads : List Payload)
  | Array (name : String)
  | Value_field (name : String) (T : Value_type)

/-- The name of the tag of a payload. -/
def Payload.name : Payload → String
  | .Object name _ => name
  | .Array name => name
  | .Value_field name _ => name

mutual
/-- The static members `build(ref, alloc)` of `Value_field`, `Array` and
`Object`, called on the parent `ref`: the value of `ref` afterwards. -/
def Payload.build (p : Payload) (ref : Json) : Result Json :=
  match p with
  | .Value_field name T => ref.AddMember name (Value_traits.stored (Value_traits.default_value T))
  | .Array name => ref.AddMember name (.array [])
  | .Object name Payloads =>
    (ref.AddMember name (.object [])).bind (fun ref' => Object.expand_build name Payloads ref')
termination_by structural p
/-- The recursion `Object<Name_tag, Payloads...>::expand<Json_ref, Alloc,
Build_worker, T, Ts...>(ref, alloc)` over the payloads still to build: each
step looks up the member named `Name_tag::name()` in the parent `ref` and
builds `T` in its value. (The overload for a `T` that is the name tag itself
does nothing; a payload here is never a tag.) -/
def Object.expand_build (name : String) (Ts : List Payload) (ref : Json) : Result Json :=
  match Ts with
  | [] => .done ref
  | T :: Ts' =>
    (ref.at_member name (fun value => T.build value)).bind
      (fun ref' => Object.expand_build name Ts' ref')
termination_by structural Ts
end

mutual
/-- The static members `structure_check(ref, alloc)` of `Basic_value_field`,
`Array` and `Object`, called on the parent `ref`: `ref.HasMember(name)` and
`ref[name]` look for the first member of the name, as `FindMember` does. -/
def Payload.structure_check (p : Payload) (ref : Json) : Result Unit :=
  match p with
  | .Value_field name T =>
    (ref.FindMember name).bind (fun member =>
      match member with
      | none => .Bad_structure ("Missing value member: " ++ name)
      | some value =>
        if !Value_traits.check T value then
          .Bad_structure ("Value of " ++ name ++ " is of the wrong type")
        else .done ())
  | .Array name =>
    (ref.FindMember name).bind (fun member =>
      match member with
      | none => .Bad_structure ("Missing array member: " ++ name)
      | some value =>
        if !value.IsArray then .Bad_structure (name ++ " is not an array") else .done ())
  | .Object name Payloads =>
    (ref.FindMember name).bind (fun member =>
      match member with
      | none => .Bad_structure ("Missing object member: " ++ name)
      | some value =>
        if !value.IsObject then .Bad_structure (name ++ " is not an object")
        else Object.expand_check name Payloads ref)
termination_by structural p
/-- The recursion `Object<Name_tag, Payloads...>::expand<Json_ref, Alloc,
Structure_check_worker, T, Ts...>(ref, alloc)` over the payloads still to
check: each step looks up the member named `Name_tag::name()` in the parent
`ref` and checks `T` in its value. -/
def Object.expand_check (name : String) (Ts : List Payload) (ref : Json) : Result Unit :=
  match Ts with
  | [] => .done ()
  | T :: Ts' =>
    (ref.FindMember name).bind (fun member =>
      match member with
      | none => .assertion_failed
      | some value =>
        (T.structure_check value).bind (fun _ => Object.expand_check name Ts' ref))
termination_by structural Ts
end

/-- The class `Generic_root<Document, Payloads...>`: it owns the document. -/
structure Generic_root (Payloads : List Payload) where
  document_ : Json

namespace Generic_root

/-- The recursion `Generic_root::expand<Json_ref, Alloc, Build_worker, T,
Ts...>(document(), alloc)`. -/
def expand_build (Ts : List Payload) (ref : Json) : Result Json :=
  match Ts with
  | [] => .done ref
  | T :: Ts' => (T.build ref).bind (fun ref' => expand_build Ts' ref')

/-- The recursion `Generic_root::expand<Json_ref, Alloc,
Structure_check_worker, T, Ts...>(document(), alloc)`. -/
def expand_check (Ts : List Payload) (ref : Json) : Result Unit :=
  match Ts with
  | [] => .done ()
  | T :: Ts' => (T.structure_check ref).bind (fun _ => expand_check Ts' ref)

/-- The method `Generic_root::structure_check()`. -/
def structure_check (Payloads : List Payload) (document : Json) : Result Unit :=
  if !document.IsObject then .Bad_structure "Not a valid json"
  else expand_check Payloads document

/-- The constructor `Generic_root()`: the base sets the document to an empty
object, and the payloads are built into it. -/
def new (Payloads : List Payload) : Result (Generic_root Payloads) :=
  (expand_build Payloads (.object [])).map (fun document => ⟨document⟩)

/-- The constructor `Generic_root(rapidjson::Document&&)`. -/
def of_document (Payloads : List Payload) (doc : Json) : Result (Generic_root Payloads) :=
  (structure_check Payloads doc).map (fun _ => ⟨doc⟩)

/-- The constructor `Generic_root(const std::basic_string<Ch>&)`. The parser
belongs to rapidjson: `Parse json` is the value parsed, `none` on a parse
error, which leaves the document as the base made it, an empty object. -/
def of_string (Parse : String → Option Json) (Payloads : List Payload) (json : String) :
    Result (Generic_root Payloads) :=
  let document := match Parse json with
    | some value => value
    | none => .object []
  (structure_check Payloads document).map (fun _ => ⟨document⟩)

end Generic_root

/-! ## Finding members -/

/-- The member `type` of `detail::Payload_finder<Name_tag, Ts...>`. -/
inductive Payload_finder_type where
  | member (p : Payload)
  | No_result
  | incomplete

/-- The class template `detail::Payload_finder<Name_tag, Ts...>`: partial
specialisations for a first payload `Object<...>` or `Value_field<...>` (the
`std::conditional` names the `type` of the rest in both branches), one for no
payloads, and no definition of the primary template, which a first payload
`Array<...>` selects. -/
def Payload_finder (Name_tag : String) : List Payload → Payload_finder_type
  | [] => .No_result
  | .Object T_name_tag T_extra :: Ts =>
    match Payload_finder Name_tag Ts with
    | .incomplete => .incomplete
    | rest => if Name_tag = T_name_tag then .member (.Object T_name_tag T_extra) else rest
  | .Value_field T_name_tag T :: Ts =>
    match Payload_finder Name_tag Ts with
    | .incomplete => .incomplete
    | rest => if Name_tag = T_name_tag then .member (.Value_field T_name_tag T) else rest
  | .Array _ :: _ => .incomplete

/-- A member proxy (`Object_proxy`, `Array_proxy` or `Value_field_proxy`, by the
payload): the payload type and the place of `json_` in the document, by the
names that the `FindMember` calls went through. -/
structure Proxy where
  Payload : Payload
  path : List String

/-- Something with a `find`: a root or an `Object_proxy`. Its payloads, and the
place of its value in the document. -/
structure Origin where
  Payloads : List Payload
  path : List String

/-- A root as origin. -/
def Origin.root (Payloads : List Payload) : Origin := ⟨Payloads, []⟩

/-- A proxy as origin: only `Object_proxy` has a member `find`. -/
def Proxy.origin (p : Proxy) : Option Origin :=
  match p.Payload with
  | .Object _ Payloads => some ⟨Payloads, p.path⟩
  | _ => none

/-- The functor `detail::Finder`, instantiated: the proxy it returns, `none`
when the instantiation is ill-formed (no member with the name tag, or an
incomplete `Payload_finder`). -/
def Finder (origin : Origin) (Name_tag : String) : Option Proxy :=
  match Payload_finder Name_tag origin.Payloads with
  | .member Member => some ⟨Member, origin.path ++ [Name_tag]⟩
  | _ => none

mutual
/-- The weight of a template argument, for the recursion of `find`: a plain
type weighs nothing. -/
def TArg.weight : TArg → Nat
  | .plain _ => 0
  | .key args => 1 + TArg.weights args
  | .pack args => 1 + TArg.weights args
termination_by structural a => a
/-- The weight of a list of template arguments. -/
def TArg.weights : List TArg → Nat
  | [] => 0
  | a :: rest => a.weight + TArg.weights rest
termination_by structural l => l
end

mutual
/-- The member `find` of an origin, instantiated for an argument of the type
`k`: the overload for a name tag runs `Finder`, the overload for a
`Key<K...>` unfolds `Key<K...>::Args`; `none` when the call is ill-formed. The
test on the weights always holds and only serves the termination of the
recursion. -/
def Origin.find (origin : Origin) (k : TArg) : Option Proxy :=
  match k with
  | .plain (.tag Name_tag) => Finder origin Name_tag
  | .plain (.other _) => none
  | .pack _ => none
  | .key ks =>
    match Key_Args ks with
    | none => none
    | some args =>
      if _h : TArg.weights args < TArg.weight (.key ks) then Key_unfolder.do_call origin args
      else none
termination_by (k.weight, 0)
decreasing_by
  all_goals simp only [Prod.lex_def, TArg.weights, List.length_cons]
  all_goals omega
/-- The overloads of `Key_unfolder::do_call(origin, key, following_keys...)`:
`origin.find(key)` for the last key, and `do_call(proxy, following_keys...)` on
the proxy that `origin.find(key)` returns otherwise. -/
def Key_unfolder.do_call (origin : Origin) (args : List TArg) : Option Proxy :=
  match args with
  | [] => none
  | [key] => origin.find key
  | key :: following_keys =>
    match origin.find key with
    | none => none
    | some proxy =>
      match proxy.origin with
      | none => none
      | some next => Key_unfolder.do_call next following_keys
termination_by (TArg.weights args, args.length + 1)
decreasing_by
  all_goals simp only [Prod.lex_def, TArg.weights, List.length_cons]
  all_goals omega
end

/-- The value that the member `json_` of a proxy refers to, in the document;
`none` when a `FindMember` on the way found no member, where the `assert` of
`Finder` fails. -/
def Proxy.ref (p : Proxy) (document : Json) : Option Json :=
  document.at_path p.path

/-- The member `find` of a root or of an `Object_proxy` whose `find` came out
as `origin`, compiled and run on the document: the proxy returned. -/
def Origin.run_find (origin : Origin) (k : TArg) (document : Json) : Result Proxy :=
  match origin.find k with
  | none => .ill_formed
  | some proxy =>
    match proxy.ref document with
    | none => .assertion_failed
    | some _ => .done proxy

namespace Generic_root

/-- The methods `Generic_root::find(k)` and `operator[](k)`, for an argument of
the type `k`. -/
def find {Payloads : List Payload} (r : Generic_root Payloads) (k : TArg) : Result Proxy :=
  (Origin.root Payloads).run_find k r.document_

/-- The methods `document()` and `ref()`. -/
def ref {Payloads : List Payload} (r : Generic_root Payloads) : Json := r.document_

end Generic_root

namespace Value_field_proxy

/-- The method `Value_field_proxy::get()` (and the conversion operator to
`Value_type`), on the document. Other proxies have no `get`. -/
def get (p : Proxy) (document : Json) : Result Cpp_value :=
  match p.Payload with
  | .Value_field _ T =>
    match p.ref document with
    | none => .assertion_failed
    | some ref => Value_traits.get T ref
  | _ => .ill_formed

/-- The method `Value_field_proxy::set(Param_type val)` (and `operator=`),
called with the argument `val`, which is converted to `Param_type`: the
document afterwards. Other proxies have no `set`. -/
def set (p : Proxy) (val : Cpp_value) (document : Json) : Result Json :=
  match p.Payload with
  | .Value_field _ T =>
    (Value_traits.set T val).bind (fun value => document.at_path_do (fun _ => .done value) p.path)
  | _ => .ill_formed

end Value_field_proxy

/-! ## The writer of rapidjson -/

namespace Writer

/-- A hexadecimal digit of `Writer::WriteString`. -/
def hex_digit (n : Nat) : Char := "0123456789ABCDEF".data.getD n '0'

/-- The characters that `Writer::WriteString` puts out for one character: a
quotation mark and a backslash are escaped, a control character is written as
`\b`, `\t`, `\n`, `\f`, `\r` or `\u00XX`. -/
def escape (c : Char) : List Char :=
  if c = '"' then ['\\', '"']
  else if c = '\\' then ['\\', '\\']
  else if c.toNat < 32 then
    match c.toNat with
    | 8 => ['\\', 'b']
    | 9 => ['\\', 't']
    | 10 => ['\\', 'n']
    | 12 => ['\\', 'f']
    | 13 => ['\\', 'r']
    | n => ['\\', 'u', '0', '0', hex_digit (n / 16), hex_digit (n % 16)]
  else [c]

/-- The text of a string value or of a member name. -/
def WriteString (s : String) : String :=
  "\"" ++ String.mk (s.data.flatMap escape) ++ "\""

/-- The decimal text of an integer. -/
def WriteInt (i : Int) : String :=
  match i with
  | .ofNat n => Nat.repr n
  | .negSucc n => "-" ++ Nat.repr (n + 1)

end Writer

mutual
/-- The compact text that `ref.Accept(writer)` produces with a
`rapidjson::Writer`. -/
def Json.write : Json → String
  | .null => "null"
  | .bool b => if b then "true" else "false"
  | .number i => Writer.WriteInt i
  | .string s => Writer.WriteString s
  | .array elems => "[" ++ Json.write_elems elems ++ "]"
  | .object members => "\x7b" ++ Json.write_members members ++ "\x7d"
/-- The elements of an array, separated by commas. -/
def Json.write_elems : List Json → String
  | [] => ""
  | [value] => value.write
  | value :: rest => value.write ++ "," ++ Json.write_elems rest
/-- The members of an object, separated by commas. -/
def Json.write_members : List (String × Json) → String
  | [] => ""
  | [(name, value)] => Writer.WriteString name ++ ":" ++ value.write
  | (name, value) :: rest =>
    Writer.WriteString name ++ ":" ++ value.write ++ "," ++ Json.write_members rest
end

/-- The function `detail::do_stringify(ref)`. -/
def detail.do_stringify (ref : Json) : String := ref.write

/-- The method `stringify()` of a root. -/
def Generic_root.stringify {Payloads : List Payload} (r : Generic_root Payloads) : String :=
  detail.do_stringify r.document_

/-! ## Vocabulary of the properties of schemas -/

mutual
/-- What the documentation of `Generic_root()` promises for a payload, "all
fields defaulted": the default value of a value field, an empty array, an
object with the declared members. -/
def Payload.default_json : Payload → Json
  | .Value_field _ T => Value_traits.stored (Value_traits.default_value T)
  | .Array _ => .array []
  | .Object _ Payloads => .object (default_members Payloads)
/-- The declared members in declaration order, each with its default. -/
def default_members : List Payload → List (String × Json)
  | [] => []
  | p :: rest => (p.name, p.default_json) :: default_members rest
end

mutual
/-- In the payload, the members declared side by side have different names, at
every nesting level. -/
def Payload.distinct_names : Payload → Bool
  | .Object _ Payloads => distinct_siblings Payloads
  | _ => true
/-- The payloads of the list have different names, and so have the members
declared side by side inside them. -/
def distinct_siblings : List Payload → Bool
  | [] => true
  | p :: rest =>
    !(rest.map Payload.name).contains p.name && p.distinct_names && distinct_siblings rest
end

/-- The member of an object that rapidjson finds under a name: the first one. -/
def Json.member (name : String) : Json → Option Json
  | .object members => Umap.find name members
  | _ => none

mutual
/-- The parent value `ref` has the member that the payload declares: a value
of the right type for a value field, an array for an array, an object that
has the declared members for an object. -/
def Payload.conforms (p : Payload) (ref : Json) : Bool :=
  match p with
  | .Value_field name T =>
    match ref.member name with
    | some value => Value_traits.check T value
    | none => false
  | .Array name =>
    match ref.member name with
    | some value => value.IsArray
    | none => false
  | .Object name Payloads =>
    match ref.member name with
    | some value => value.IsObject && conforms_all Payloads value
    | none => false
termination_by structural p
/-- The value `ref` has the members that the payloads declare. -/
def conforms_all (Payloads : List Payload) (ref : Json) : Bool :=
  match Payloads with
  | [] => true
  | p :: rest => p.conforms ref && conforms_all rest ref
termination_by structural Payloads
end

/-- The expression `origin.find(t1).find(t2)...find(tn)` (or
`origin[t1][t2]...[tn]`) over name tags, instantiated step by step: the proxy
it returns, `none` when it is ill-formed. -/
def find_chain (origin : Origin) : List String → Option Proxy
  | [] => none
  | [t] => Finder origin t
  | t :: rest =>
    match Finder origin t with
    | none => none
    | some proxy =>
      match proxy.origin with
      | none => none
      | some next => find_chain next rest

/-- The next step of a chain of `find` calls: `next` on the proxy that the
step before returned, ill-formed when there is none or it has no `find`. -/
def find_next (p : Option Proxy) (next : Origin → Option Proxy) : Option Proxy :=
  match p with
  | none => none
  | some proxy =>
    match proxy.origin with
    | none => none
    | some origin => next origin

/-- The chain of `find` calls over name tags, compiled and run on the
document. -/
def Origin.run_find_chain (origin : Origin) (ts : List String) (document : Json) :
    Result Proxy :=
  match find_chain origin ts with
  | none => .ill_formed
  | some proxy =>
    match proxy.ref document with
    | none => .assertion_failed
    | some _ => .done proxy

mutual
/-- The name tags of a key type, from left to right, whatever the nesting. -/
def TArg.segments : TArg → List String
  | .plain (.tag name) => [name]
  | .plain (.other _) => []
  | .key args => TArg.segments_list args
  | .pack args => TArg.segments_list args
termination_by structural a => a
/-- The name tags of a list of template arguments, from left to right. -/
def TArg.segments_list : List TArg → List String
  | [] => []
  | a :: rest => a.segments ++ TArg.segments_list rest
termination_by structural l => l
end

/-- The types of the key objects that expressions have which are made of flat
keys `Key<t1, ..., tn>{}` (`n ≥ 1`), name tags and `+`. -/
inductive Composed : TArg → Prop where
  | flat (names : List String) (h : names ≠ []) : Composed (flat_key names)
  | key_key (x y c : TArg) (hx : Composed x) (hy : Composed y) (h : TArg.plus x y = some c) :
    Composed c
  | key_tag (x c : TArg) (t : String) (hx : Composed x)
    (h : TArg.plus x (tag_arg t) = some c) : Composed c
  | tag_key (y c : TArg) (t : String) (hy : Composed y)
    (h : TArg.plus (tag_arg t) y = some c) : Composed c

/-! ## Vocabulary of the last properties -/

/-- A handler like those of `TEST(RESOLVER, SCAN)`, a `std::function<void()>`
whose call leaves a mark in the state of the program: here the state is the
sequence of the handlers called so far, and a call puts the label of the
handler at its end. -/
structure Traced where
  label : String
  deriving DecidableEq, Inhabited

instance instCallableTraced {A : Type} : Callable Traced A (List String) Unit :=
  ⟨fun f _ trace => ((), trace ++ [f.label])⟩

/-- A handler that is called without arguments, as the handlers of
`TEST(RESOLVER, INVOKE)` are, and returns a value: it returns its number,
whatever the state, and puts its label at the end of the sequence of the
handlers called so far. -/
structure Logged where
  label : String
  number : Int
  deriving DecidableEq, Inhabited

instance instCallableLogged : Callable Logged Unit (List String) Int :=
  ⟨fun f _ trace => (f.number, trace ++ [f.label])⟩

/-- A functor with a data member, `struct Counter { int n = 0; int operator()()
{ n += 1; return n; } };`, as the handler type of a resolver with one
registered key. Its call operator is not `const`; it can be called because
`func_` is reached through the `unique_ptr` of the node. The state of the
program is the member `n` of the handler object in that node (far from the
overflow of `int`). -/
structure Counter where
  deriving DecidableEq, Inhabited

instance instCallableCounter : Callable Counter Unit Int Int :=
  ⟨fun _ _ n => (n + 1, n + 1)⟩

namespace detail.Key_node

variable {F : Type}

/-- The shape of a trie at a path: whether there is a node, and whether it is
activable; the handlers are left out. -/
def shape (n : Key_node F) (path : List String) : Option Bool :=
  (flags n path).map Prod.fst

/-- The document `doc'` is `doc` with one member more: the member stands at
some position of the scanned object under a name that is not a child of the
trie node `n` in charge of that object, or the change is of that kind inside
the value of a member that the walk enters with the child node. -/
inductive Inserted : Key_node F → Json → Json → Prop where
  | here (n : Key_node F) (pre post : List (String × Json)) (name : String) (value : Json)
    (h : Umap.find name n.children_ = none) :
    Inserted n (.object (pre ++ post)) (.object (pre ++ (name, value) :: post))
  | inside (n child : Key_node F) (pre post : List (String × Json)) (name : String)
    (value value' : Json) (hc : Umap.find name n.children_ = some child)
    (h : Inserted child value value') :
    Inserted n (.object (pre ++ (name, value) :: post))
      (.object (pre ++ (name, value') :: post))

end detail.Key_node

/-- A payload is an `Array<Name_tag>`. -/
def Payload.is_Array : Payload → Bool
  | .Array _ => true
  | _ => false

namespace Generic_root

end Generic_root

/-! ## The children map: lookups after `emplace` and `modify` -/

namespace Umap

variable {V : Type}

theorem find_emplace (k k' : String) (v : V) (m : Umap V) :
    find k (emplace k' v m) =
      match find k m with
      | some x => some x
      | none => if k' = k then some v else none := by
  unfold emplace
  cases h : find k' m with
  | some y =>
    cases hk : find k m with
    | some x => simp [hk]
    | none =>
      have : k' ≠ k := by
        intro e; subst e; rw [h] at hk; cases hk
      simp [hk, this]
  | none =>
    by_cases e : k' = k
    · subst e; simp [find, h]
    · simp only [find, e, if_false]
      cases find k m <;> simp

theorem find_modify (k k' : String) (g : V → V) (m : Umap V) :
    find k (modify k' g m) = if k' = k then (find k m).map g else find k m := by
  induction m with
  | nil => simp [modify, find]
  | cons p rest ih =>
    obtain ⟨a, v⟩ := p
    by_cases ea : a = k'
    · subst ea
      by_cases e : a = k
      · simp [modify, find, e]
      · simp [modify, find, e]
    · by_cases eb : a = k
      · subst eb
        have e : ¬ k' = a := fun h => ea h.symm
        simp [modify, find, ea, e]
      · simp only [modify, find, ea, eb, if_false]
        exact ih

theorem modify_modify (k : String) (g g' : V → V) (m : Umap V) :
    modify k g' (modify k g m) = modify k (fun v => g' (g v)) m := by
  induction m with
  | nil => simp [modify]
  | cons p rest ih =>
    obtain ⟨a, v⟩ := p
    by_cases ea : a = k
    · simp [modify, ea]
    · simp [modify, ea, ih]

theorem emplace_of_find_some (k : String) (v x : V) (m : Umap V) (h : find k m = some x) :
    emplace k v m = m := by
  simp [emplace, h]

end Umap

namespace detail.Key_node

variable {F A σ R : Type}

@[simp] theorem activable_mk (a : Bool) (f : F) (c : List (String × Key_node F)) :
    (Key_node.mk a f c).activable_ = a := rfl

@[simp] theorem func_mk (a : Bool) (f : F) (c : List (String × Key_node F)) :
    (Key_node.mk a f c).func_ = f := rfl

@[simp] theorem children_mk (a : Bool) (f : F) (c : List (String × Key_node F)) :
    (Key_node.mk a f c).children_ = c := rfl


/-! ## The trie after `add` -/

theorem find_add_self [Inhabited F] (n : Key_node F) (T : String) (Ts : List String) (f : F) :
    Umap.find T (n.add T Ts f).children_ =
      some (match Ts with
        | [] => ((Umap.find T n.children_).getD new).activate f
        | T' :: Ts' => ((Umap.find T n.children_).getD new).add T' Ts' f) := by
  cases Ts with
  | nil =>
    rw [add]
    simp only [children_mk, Umap.find_modify, Umap.find_emplace, if_true]
    cases Umap.find T n.children_ <;> simp
  | cons T' Ts' =>
    rw [add]
    simp only [children_mk, Umap.find_modify, Umap.find_emplace, if_true]
    cases Umap.find T n.children_ <;> simp

theorem find_add_other [Inhabited F] (n : Key_node F) (T : String) (Ts : List String) (f : F)
    (seg : String) (h : T ≠ seg) :
    Umap.find seg (n.add T Ts f).children_ = Umap.find seg n.children_ := by
  cases Ts with
  | nil =>
    rw [add]
    simp only [children_mk, Umap.find_modify, Umap.find_emplace, h, if_false]
    cases Umap.find seg n.children_ <;> simp
  | cons T' Ts' =>
    rw [add]
    simp only [children_mk, Umap.find_modify, Umap.find_emplace, h, if_false]
    cases Umap.find seg n.children_ <;> simp

theorem activable_add [Inhabited F] (n : Key_node F) (T : String) (Ts : List String) (f : F) :
    (n.add T Ts f).activable_ = n.activable_ := by
  cases Ts <;> simp [add]

theorem func_add [Inhabited F] (n : Key_node F) (T : String) (Ts : List String) (f : F) :
    (n.add T Ts f).func_ = n.func_ := by
  cases Ts <;> simp [add]

theorem flags_nil (n : Key_node F) : flags n [] = some (n.activable_, n.func_) := rfl

theorem flags_cons (n : Key_node F) (seg : String) (rest : List String) :
    flags n (seg :: rest) =
      match Umap.find seg n.children_ with
      | none => none
      | some child => flags child rest := by
  unfold flags
  rw [node_at]
  cases Umap.find seg n.children_ <;> rfl

theorem flags_new [Inhabited F] (path : List String) :
    flags (new : Key_node F) path = if path = [] then some (false, default) else none := by
  cases path with
  | nil => rfl
  | cons seg rest => simp [flags_cons, new, Umap.find]

theorem flags_activate (n : Key_node F) (f : F) (path : List String) :
    flags (n.activate f) path = if path = [] then some (true, f) else flags n path := by
  cases path with
  | nil => rfl
  | cons seg rest => simp [flags_cons, activate]

/-- The flag and handler at every path after `add<T, Ts...>(f)`: the target
path is activable with `f`, every node that existed keeps what it had, and the
nodes created on the way are not activable. -/
theorem flags_add [Inhabited F] (n : Key_node F) (T : String) (Ts : List String) (f : F)
    (path : List String) :
    flags (n.add T Ts f) path =
      if path = T :: Ts then some (true, f)
      else match flags n path with
        | some x => some x
        | none => if path <+: T :: Ts then some (false, default) else none := by
  induction Ts generalizing n T path with
  | nil =>
    cases path with
    | nil => simp [flags_nil, activable_add, func_add]
    | cons seg rest =>
      by_cases e : T = seg
      · subst e
        rw [flags_cons, find_add_self, flags_cons]
        simp only [flags_activate]
        cases hc : Umap.find T n.children_ with
        | none =>
          by_cases hr : rest = []
          · simp [hr]
          · simp [hr, flags_new, List.cons_prefix_cons]
        | some c0 =>
          by_cases hr : rest = []
          · simp [hr]
          · simp only [Option.getD_some, hr, if_false, List.cons.injEq, true_and]
            cases flags c0 rest <;> simp [List.cons_prefix_cons, hr]
      · have e' : ¬ seg = T := fun h => e h.symm
        rw [flags_cons, find_add_other _ _ _ _ _ e, ← flags_cons]
        cases flags n (seg :: rest) <;> simp [e', List.cons_prefix_cons]
  | cons T' Ts' ih =>
    cases path with
    | nil => simp [flags_nil, activable_add, func_add]
    | cons seg rest =>
      by_cases e : T = seg
      · subst e
        rw [flags_cons, find_add_self, flags_cons]
        simp only [ih]
        cases hc : Umap.find T n.children_ with
        | none =>
          simp only [Option.getD_none, flags_new, List.cons.injEq, true_and,
            List.cons_prefix_cons]
          by_cases hr : rest = []
          · subst hr; simp
          · simp [hr]
        | some c0 =>
          simp only [Option.getD_some, List.cons.injEq, true_and, List.cons_prefix_cons]
      · have e' : ¬ seg = T := fun h => e h.symm
        rw [flags_cons, find_add_other _ _ _ _ _ e, ← flags_cons]
        cases flags n (seg :: rest) <;> simp [e', List.cons_prefix_cons]

theorem bound_eq_flags (n : Key_node F) (path : List String) :
    bound n path = (flags n path).bind (fun x => if x.1 then some x.2 else none) := by
  unfold bound flags
  cases node_at n path <;> rfl

/-- The handler bound at every path after `add<T, Ts...>(f)`. -/
theorem bound_add [Inhabited F] (n : Key_node F) (T : String) (Ts : List String) (f : F)
    (path : List String) :
    bound (n.add T Ts f) path = if path = T :: Ts then some f else bound n path := by
  rw [bound_eq_flags, bound_eq_flags, flags_add]
  by_cases e : path = T :: Ts
  · simp [e]
  · simp only [e, if_false]
    cases flags n path with
    | some x => rfl
    | none => by_cases hp : path <+: T :: Ts <;> simp [hp]

theorem bound_new [Inhabited F] (path : List String) : bound (new : Key_node F) path = none := by
  rw [bound_eq_flags, flags_new]
  by_cases h : path = [] <;> simp [h]

theorem bound_cons (n : Key_node F) (seg : String) (rest : List String) :
    bound n (seg :: rest) =
      match Umap.find seg n.children_ with
      | none => none
      | some child => bound child rest := by
  unfold bound
  rw [node_at]
  cases Umap.find seg n.children_ <;> rfl

/-- Exact invocation in terms of the handler bound at the path. -/
theorem invoke_eq [Callable F A σ R] (n : Key_node F) (T : String) (Ts : List String)
    (fargs : A) (s : σ) :
    n.invoke T Ts fargs s =
      match bound n (T :: Ts) with
      | some h => (.returned (Callable.call h fargs s).1, (Callable.call h fargs s).2)
      | none => (.out_of_range "Key not found!", s) := by
  induction Ts generalizing n T with
  | nil =>
    rw [invoke, bound_cons]
    cases Umap.find T n.children_ with
    | none => rfl
    | some c =>
      simp only [bound, node_at]
      cases c.activable_ <;> simp
  | cons T' Ts' ih =>
    rw [invoke, bound_cons]
    cases Umap.find T n.children_ with
    | none => rfl
    | some c => simp only [ih]

end detail.Key_node

namespace detail.Key_node

variable {F A σ R : Type}

/-- Registering the same path twice is registering it once with the second handler. -/
theorem add_add_same [Inhabited F] (n : Key_node F) (T : String) (Ts : List String) (f g : F) :
    (n.add T Ts f).add T Ts g = n.add T Ts g := by
  induction Ts generalizing n T with
  | nil =>
    have hfind := find_add_self n T [] f
    rw [add] at hfind ⊢
    rw [add, add]
    simp only [children_mk, activable_mk, func_mk] at hfind ⊢
    rw [Umap.emplace_of_find_some _ _ _ _ hfind, Umap.modify_modify]
    rfl
  | cons T' Ts' ih =>
    have hfind := find_add_self n T (T' :: Ts') f
    rw [add] at hfind ⊢
    rw [add, add]
    simp only [children_mk, activable_mk, func_mk] at hfind ⊢
    rw [Umap.emplace_of_find_some _ _ _ _ hfind, Umap.modify_modify]
    simp only [ih]

end detail.Key_node

/-! ## Resolvers built by `add` calls -/

theorem Key.Args_inj (P Q : Key) : P.Args = Q.Args ↔ P = Q := by
  cases P; cases Q; simp [Key.Args]

theorem Ty.names_tags (l : List String) : Ty.names (l.map Ty.tag) = some l := by
  induction l with
  | nil => rfl
  | cons a l ih => simp [Ty.names, Ty.name, ih]

namespace Generic_resolver

variable {F A σ R : Type}

/-- A call of `invoke` without call-site arguments is the walk of `Key_node::invoke`
along the key. -/
theorem invoke_nil [Callable F A σ R] (r : Generic_resolver F) (key : Key) (ar : A) (s : σ) :
    r.invoke key [] ar s = r.root_.invoke key.T key.Ts ar s := by
  unfold invoke
  rw [List.nil_append, Ty.names_tags]
  rfl

theorem bound_add_root [Inhabited F] (r : Generic_resolver F) (key : Key) (f : F)
    (path : List String) :
    Key_node.bound (r.add key f).root_ path =
      if key.Args = path then some f else Key_node.bound r.root_ path := by
  unfold add
  rw [Key_node.bound_add]
  by_cases h : path = key.T :: key.Ts
  · simp [h, Key.Args]
  · have h' : ¬ key.Args = path := fun e => h e.symm
    simp [h, h']

theorem bound_foldl [Inhabited F] (adds : List (Key × F)) (r : Generic_resolver F)
    (path : List String) :
    Key_node.bound (adds.foldl (fun r a => r.add a.1 a.2) r).root_ path =
      adds.foldl (fun acc a => if a.1.Args = path then some a.2 else acc)
        (Key_node.bound r.root_ path) := by
  induction adds generalizing r with
  | nil => rfl
  | cons a rest ih =>
    simp only [List.foldl_cons]
    rw [ih, bound_add_root]

/-- In a resolver built by `add` calls, the handler bound at a path is the one
registered for it. -/
theorem bound_build [Inhabited F] (adds : List (Key × F)) (path : List String) :
    Key_node.bound (build adds).root_ path = registered adds path := by
  unfold build registered
  rw [bound_foldl]
  simp [empty, Key_node.bound_new]

theorem foldl_registered_eq_none (adds : List (Key × F)) (path : List String) (acc : Option F) :
    adds.foldl (fun acc a => if a.1.Args = path then some a.2 else acc) acc = none ↔
      acc = none ∧ ∀ a ∈ adds, a.1.Args ≠ path := by
  induction adds generalizing acc with
  | nil => simp
  | cons a rest ih =>
    simp only [List.foldl_cons, ih, List.mem_cons, forall_eq_or_imp]
    by_cases h : a.1.Args = path
    · simp [h]
    · simp [h]

theorem registered_eq_none (adds : List (Key × F)) (path : List String) :
    registered adds path = none ↔ ∀ a ∈ adds, a.1.Args ≠ path := by
  unfold registered
  rw [foldl_registered_eq_none]
  simp

/-- What `invoke` does on a resolver built by `add` calls, when called without
call-site arguments. -/
theorem invoke_build [Inhabited F] [Callable F A σ R] (adds : List (Key × F)) (key : Key)
    (ar : A) (s : σ) :
    (build adds).invoke key [] ar s =
      match registered adds key.Args with
      | some h => (.returned (Callable.call h ar s).1, (Callable.call h ar s).2)
      | none => (.out_of_range "Key not found!", s) := by
  rw [invoke_nil, Key_node.invoke_eq, ← bound_build]
  rfl

end Generic_resolver

/-! ## Induction on the members of an object -/

theorem Json.isObject_iff (v : Json) : v.IsObject = true ↔ ∃ ms, v = .object ms := by
  cases v <;> simp [Json.IsObject]

/-- Induction over a member list that also descends into the members of every
member value that is an object. -/
theorem Json.members_induction {motive : List (String × Json) → Prop}
    (nil : motive [])
    (cons : ∀ (name : String) (value : Json) (rest : List (String × Json)),
      (∀ ms, value = .object ms → motive ms) → motive rest → motive ((name, value) :: rest))
    (members : List (String × Json)) : motive members := by
  have key : ∀ (k : Nat) (members : List (String × Json)), sizeOf members = k →
      motive members := by
    intro k
    induction k using Nat.strong_induction_on with
    | _ k ih =>
      intro members h
      cases members with
      | nil => exact nil
      | cons m rest =>
        obtain ⟨name, value⟩ := m
        subst h
        apply cons
        · intro ms hv
          subst hv
          apply ih (sizeOf ms) _ ms rfl
          simp
          omega
        · apply ih (sizeOf rest) _ rest rfl
          simp
  exact key _ members rfl

namespace detail.Key_node

variable {F A σ R : Type}

theorem select_object (n : Key_node F) (ms : List (String × Json)) :
    select n (.object ms) = select_loop n ms := by
  rw [select]

theorem do_scan_object [Callable F A σ R] [Inhabited R] (n : Key_node F)
    (ms : List (String × Json)) (found : Bool) (fargs : A) (s : σ) :
    do_scan n (.object ms) found fargs s = do_scan_loop n ms found fargs s := by
  rw [do_scan]

theorem do_scan_void_object [Callable F A σ Unit] (n : Key_node F)
    (ms : List (String × Json)) (found : Bool) (fargs : A) (s : σ) :
    do_scan_void n (.object ms) found fargs s = do_scan_void_loop n ms found fargs s := by
  rw [do_scan_void]

/-- The value-returning `scan` on a document that is an object. -/
theorem scan_object [Callable F A σ R] [Inhabited R] (n : Key_node F)
    (ms : List (String × Json)) (fargs : A) (s : σ) :
    n.scan (.object ms) fargs s =
      if !(do_scan n (.object ms) false fargs s : R × Bool × σ).2.1 then
        (.out_of_range "No matching key found!", (do_scan n (.object ms) false fargs s).2.2)
      else
        (.returned (do_scan n (.object ms) false fargs s).1,
          (do_scan n (.object ms) false fargs s).2.2) :=
  rfl

/-- The `void` overload of `scan` on a document that is an object. -/
theorem scan_void_object [Callable F A σ Unit] (n : Key_node F)
    (ms : List (String × Json)) (fargs : A) (s : σ) :
    n.scan_void (.object ms) fargs s =
      if !(do_scan_void n (.object ms) false fargs s).1 then
        (.out_of_range "No matching key found!", (do_scan_void n (.object ms) false fargs s).2)
      else (.returned (), (do_scan_void n (.object ms) false fargs s).2) :=
  rfl

/-- Either overload of `scan` on a document that is not an object: the
assertion of `GetObject()` fails, and no handler has run. -/
theorem scan_of_not_object [Callable F A σ R] [Inhabited R] (n : Key_node F) (doc : Json)
    (h : doc.IsObject = false) (fargs : A) (s : σ) :
    n.scan doc fargs s = (.assertion_failed, s) := by
  cases doc <;> first | rfl | simp [Json.IsObject] at h

theorem scan_void_of_not_object [Callable F A σ Unit] (n : Key_node F) (doc : Json)
    (h : doc.IsObject = false) (fargs : A) (s : σ) :
    n.scan_void doc fargs s = (.assertion_failed, s) := by
  cases doc <;> first | rfl | simp [Json.IsObject] at h

/-- The walk of `select` stops at a node that exists and is activable. -/
theorem select_loop_bound (n : Key_node F) (ms : List (String × Json)) (path : List String)
    (h : select_loop n ms = some path) : path ≠ [] ∧ ∃ f, bound n path = some f := by
  induction ms using Json.members_induction generalizing n path with
  | nil => simp [select_loop] at h
  | cons name value rest ihv ihr =>
    rw [select_loop] at h
    cases hc : Umap.find name n.children_ with
    | none =>
      simp only [hc] at h
      exact ihr n path h
    | some child =>
      simp only [hc] at h
      have hself : child.activable_ = true →
          [name] ≠ [] ∧ ∃ f, bound n [name] = some f := by
        intro ha
        refine ⟨by simp, child.func_, ?_⟩
        simp [bound_cons, hc, bound, node_at, ha]
      by_cases ho : value.IsObject = true
      · obtain ⟨ms, rfl⟩ := (Json.isObject_iff value).1 ho
        simp only [Json.IsObject, if_true, select_object] at h
        cases hs : select_loop child ms with
        | some p =>
          simp only [hs, Option.some.injEq] at h
          subst h
          obtain ⟨_, f, hf⟩ := ihv ms rfl child p hs
          exact ⟨by simp, f, by simp [bound_cons, hc, hf]⟩
        | none =>
          simp only [hs] at h
          by_cases ha : child.activable_ = true
          · simp only [ha, if_true, Option.some.injEq] at h
            subst h
            exact hself ha
          · simp only [ha, Bool.false_eq_true, if_false] at h
            exact ihr n path h
      · simp only [ho, Bool.false_eq_true, if_false] at h
        by_cases ha : child.activable_ = true
        · simp only [ha, if_true, Option.some.injEq] at h
          subst h
          exact hself ha
        · simp only [ha, Bool.false_eq_true, if_false] at h
          exact ihr n path h

/-- The value-returning `do_scan` in terms of `select`: it calls the handler of
the selected node, once, and sets `found`; when nothing is selected it returns
`R{}` and leaves `found` and the state as they were. -/
theorem do_scan_loop_eq [Callable F A σ R] [Inhabited R] (n : Key_node F)
    (ms : List (String × Json)) (found : Bool) (fargs : A) (s : σ) :
    do_scan_loop n ms found fargs s =
      match (select_loop n ms).bind (bound n) with
      | some f => ((Callable.call f fargs s).1, true, (Callable.call f fargs s).2)
      | none => (default, found, s) := by
  induction ms using Json.members_induction generalizing n found with
  | nil => simp [select_loop, do_scan_loop]
  | cons name value rest ihv ihr =>
    rw [select_loop, do_scan_loop]
    cases hc : Umap.find name n.children_ with
    | none =>
      simp only [hc]
      exact ihr n found
    | some child =>
      simp only [hc]
      have hself : child.activable_ = true → bound n [name] = some child.func_ := by
        intro ha
        simp [bound_cons, hc, bound, node_at, ha]
      by_cases ho : value.IsObject = true
      · obtain ⟨ms, rfl⟩ := (Json.isObject_iff value).1 ho
        simp only [Json.IsObject, if_true, select_object, do_scan_object]
        rw [ihv ms rfl child false]
        cases hs : select_loop child ms with
        | some p =>
          obtain ⟨_, f, hf⟩ := select_loop_bound child ms p hs
          simp [hs, hf, bound_cons, hc]
        | none =>
          by_cases ha : child.activable_ = true
          · simp [hs, ha, hself ha]
          · simp only [hs, Option.none_bind, ha]
            simpa using ihr n found
      · by_cases ha : child.activable_ = true
        · simp [ho, ha, hself ha]
        · simp only [ho, ha]
          simpa using ihr n found

/-- The `void` overload of `do_scan` is the value-returning one at result type
`Unit`, without the value. -/
theorem do_scan_void_loop_eq [Callable F A σ Unit] (n : Key_node F)
    (ms : List (String × Json)) (found : Bool) (fargs : A) (s : σ) :
    do_scan_void_loop n ms found fargs s = (do_scan_loop n ms found fargs s).2 := by
  induction ms using Json.members_induction generalizing n found s with
  | nil => simp [do_scan_void_loop, do_scan_loop]
  | cons name value rest ihv ihr =>
    rw [do_scan_void_loop, do_scan_loop]
    cases hc : Umap.find name n.children_ with
    | none =>
      simp only [hc]
      exact ihr n found s
    | some child =>
      simp only [hc]
      by_cases ho : value.IsObject = true
      · obtain ⟨ms, rfl⟩ := (Json.isObject_iff value).1 ho
        simp only [Json.IsObject, if_true, do_scan_object, do_scan_void_object]
        rw [ihv ms rfl child false s]
        by_cases hf : (do_scan_loop child ms false fargs s).2.1 = true
        · simp [hf]
        · by_cases ha : child.activable_ = true
          · simp [hf, ha]
          · simp only [hf, ha]
            exact ihr n found _
      · by_cases ha : child.activable_ = true
        · simp [ho, ha]
        · simp only [ho, ha]
          exact ihr n found s

end detail.Key_node

theorem present_nil (v : Json) : present [] v = true := by
  cases v <;> rfl

theorem present_cons_object (seg : String) (rest : List String) (ms : List (String × Json)) :
    present (seg :: rest) (.object ms) = ms.any (fun m => m.1 == seg && present rest m.2) := by
  rw [present]

theorem present_cons_iff (seg : String) (rest : List String) (v : Json) :
    present (seg :: rest) v = true ↔
      ∃ ms, v = .object ms ∧ ∃ m ∈ ms, m.1 = seg ∧ present rest m.2 = true := by
  cases v <;> simp [present]

namespace detail.Key_node

variable {F A σ R : Type}

/-- The path that `select` returns is present in the scanned object. -/
theorem select_loop_present (n : Key_node F) (ms : List (String × Json)) (path : List String)
    (h : select_loop n ms = some path) : present path (.object ms) = true := by
  induction ms using Json.members_induction generalizing n path with
  | nil => simp [select_loop] at h
  | cons name value rest ihv ihr =>
    have hrest : ∀ p, select_loop n rest = some p →
        present p (.object ((name, value) :: rest)) = true := by
      intro p hp
      have h1 := ihr n p hp
      obtain ⟨hne, _⟩ := select_loop_bound n rest p hp
      cases p with
      | nil => exact absurd rfl hne
      | cons seg p' =>
        rw [present_cons_object] at h1 ⊢
        simp only [List.any_cons, h1, Bool.or_true]
    have hself : present [name] (.object ((name, value) :: rest)) = true := by
      simp [present_cons_object, present_nil]
    rw [select_loop] at h
    cases hc : Umap.find name n.children_ with
    | none =>
      simp only [hc] at h
      exact hrest path h
    | some child =>
      simp only [hc] at h
      by_cases ho : value.IsObject = true
      · obtain ⟨ms, rfl⟩ := (Json.isObject_iff value).1 ho
        simp only [Json.IsObject, if_true, select_object] at h
        cases hs : select_loop child ms with
        | some p =>
          simp only [hs, Option.some.injEq] at h
          subst h
          have := ihv ms rfl child p hs
          simp [present_cons_object, this]
        | none =>
          simp only [hs] at h
          by_cases ha : child.activable_ = true
          · simp only [ha, if_true, Option.some.injEq] at h
            subst h
            exact hself
          · simp only [ha, Bool.false_eq_true, if_false] at h
            exact hrest path h
      · simp only [ho, Bool.false_eq_true, if_false] at h
        by_cases ha : child.activable_ = true
        · simp only [ha, if_true, Option.some.injEq] at h
          subst h
          exact hself
        · simp only [ha, Bool.false_eq_true, if_false] at h
          exact hrest path h

theorem bound_nil (n : Key_node F) :
    bound n [] = if n.activable_ then some n.func_ else none := rfl

/-- When a path with a bound handler is present in the scanned object, the
walk of `select` stops somewhere. -/
theorem select_loop_of_present (n : Key_node F) (ms : List (String × Json))
    (seg : String) (rest : List String) (f : F)
    (hb : bound n (seg :: rest) = some f)
    (hp : present (seg :: rest) (.object ms) = true) :
    ∃ path, select_loop n ms = some path := by
  induction ms using Json.members_induction generalizing n seg rest f with
  | nil => simp [present_cons_object] at hp
  | cons name value tail ihv iht =>
    rw [bound_cons] at hb
    cases hseg : Umap.find seg n.children_ with
    | none => simp [hseg] at hb
    | some c =>
      simp only [hseg] at hb
      -- the member that witnesses presence is the head or lies in the tail
      have htail : ¬ (name = seg ∧ present rest value = true) →
          ∃ path, select_loop n tail = some path := by
        intro hne
        apply iht n seg rest f
        · rw [bound_cons, hseg]; exact hb
        · rw [present_cons_object] at hp ⊢
          simp only [List.any_cons, Bool.or_eq_true, Bool.and_eq_true, beq_iff_eq] at hp
          rcases hp with hp | hp
          · exact absurd hp hne
          · exact hp
      rw [select_loop]
      cases hc : Umap.find name n.children_ with
      | none =>
        simp only [hc]
        apply htail
        rintro ⟨e, _⟩
        subst e
        rw [hc] at hseg
        cases hseg
      | some child =>
        simp only [hc]
        by_cases ho : value.IsObject = true
        · obtain ⟨ms, rfl⟩ := (Json.isObject_iff value).1 ho
          simp only [Json.IsObject, if_true, select_object]
          cases hs : select_loop child ms with
          | some p => exact ⟨_, rfl⟩
          | none =>
            by_cases ha : child.activable_ = true
            · simp [ha]
            · simp only [ha, Bool.false_eq_true, if_false]
              apply htail
              rintro ⟨e, hpr⟩
              subst e
              rw [hc] at hseg
              cases hseg
              cases rest with
              | nil =>
                rw [bound_nil] at hb
                simp [ha] at hb
              | cons seg' rest' =>
                obtain ⟨p, hp'⟩ := ihv ms rfl c seg' rest' f hb hpr
                rw [hs] at hp'
                cases hp'
        · simp only [ho, Bool.false_eq_true, if_false]
          by_cases ha : child.activable_ = true
          · simp [ha]
          · simp only [ha, Bool.false_eq_true, if_false]
            apply htail
            rintro ⟨e, hpr⟩
            subst e
            rw [hc] at hseg
            cases hseg
            cases rest with
            | nil =>
              rw [bound_nil] at hb
              simp [ha] at hb
            | cons seg' rest' =>
              rw [present_cons_iff] at hpr
              obtain ⟨ms, hv, _⟩ := hpr
              subst hv
              simp [Json.IsObject] at ho

/-- What `select` returns is `none` exactly when no path with a bound handler is
present in the scanned object. -/
theorem select_loop_eq_none_iff (n : Key_node F) (ms : List (String × Json)) :
    select_loop n ms = none ↔
      ∀ path, path ≠ [] → present path (.object ms) = true → bound n path = none := by
  constructor
  · intro h path hne hp
    cases path with
    | nil => exact absurd rfl hne
    | cons seg rest =>
      cases hb : bound n (seg :: rest) with
      | none => rfl
      | some f =>
        obtain ⟨p, hp'⟩ := select_loop_of_present n ms seg rest f hb hp
        rw [h] at hp'
        cases hp'
  · intro h
    cases hs : select_loop n ms with
    | none => rfl
    | some p =>
      obtain ⟨hne, f, hf⟩ := select_loop_bound n ms p hs
      rw [h p hne (select_loop_present n ms p hs)] at hf
      cases hf

end detail.Key_node

namespace detail.Key_node

variable {F A σ R : Type}

/-- The value-returning `scan` on an object, in terms of `select`. -/
theorem scan_object_eq [Callable F A σ R] [Inhabited R] (n : Key_node F)
    (ms : List (String × Json)) (fargs : A) (s : σ) :
    n.scan (.object ms) fargs s =
      match (select_loop n ms).bind (bound n) with
      | some f => (.returned (Callable.call f fargs s).1, (Callable.call f fargs s).2)
      | none => (.out_of_range "No matching key found!", s) := by
  rw [scan_object, do_scan_object, do_scan_loop_eq]
  cases (select_loop n ms).bind (bound n) <;> simp

/-- The `void` overload of `scan` on an object, in terms of `select`. -/
theorem scan_void_object_eq [Callable F A σ Unit] (n : Key_node F)
    (ms : List (String × Json)) (fargs : A) (s : σ) :
    n.scan_void (.object ms) fargs s =
      match (select_loop n ms).bind (bound n) with
      | some f => (.returned (), (Callable.call f fargs s).2)
      | none => (.out_of_range "No matching key found!", s) := by
  rw [scan_void_object, do_scan_void_object, do_scan_void_loop_eq, do_scan_loop_eq]
  cases (select_loop n ms).bind (bound n) <;> simp

/-- The handler that a scan of an object calls, if any: bound at a non-empty
path that is present in the object. -/
theorem select_bind_bound_some (n : Key_node F) (ms : List (String × Json)) (f : F)
    (h : (select_loop n ms).bind (bound n) = some f) :
    ∃ path, path ≠ [] ∧ bound n path = some f ∧ present path (.object ms) = true := by
  cases hs : select_loop n ms with
  | none => simp [hs] at h
  | some p =>
    simp only [hs, Option.some_bind] at h
    exact ⟨p, (select_loop_bound n ms p hs).1, h, select_loop_present n ms p hs⟩

theorem select_bind_bound_none (n : Key_node F) (ms : List (String × Json)) :
    (select_loop n ms).bind (bound n) = none ↔
      ∀ path, path ≠ [] → present path (.object ms) = true → bound n path = none := by
  rw [← select_loop_eq_none_iff]
  cases hs : select_loop n ms with
  | none => simp
  | some p =>
    obtain ⟨_, f, hf⟩ := select_loop_bound n ms p hs
    simp [hf]

end detail.Key_node

namespace Generic_resolver

variable {F A σ R G B τ : Type}

/-- C1 (value at the failing inputs). `Generic_resolver::invoke` passes the
types of the call-site arguments to `Key_node::invoke` as leading path
segments. With `Resolver<Work>` and `key_01` registered, `invoke(key_01{}, 4)`
instantiates `invoke<int, name_0_tag, name_1_tag>`, which is ill-formed
(`int::name()`), so no result `h(4) = 8` is produced; and when the argument
type is itself a tag class the lookup runs along the wrong path: after
`add(Key<name_1_tag>{}, h)`, `invoke(Key<name_1_tag>{}, name_0_tag{})` looks up
`[name_0, name_1]` and throws `std::out_of_range` instead of returning `h(x)`.
Without call-site arguments the same registrations are found. -/
theorem invoke_with_arguments_diverges :
    ((empty.add_default ⟨"name_0", ["name_1"]⟩ : Generic_resolver Work).invoke
        ⟨"name_0", ["name_1"]⟩ [Ty.other "int"] (4 : Int) () = (Outcome.ill_formed, ())) ∧
    ((empty.add ⟨"name_1", []⟩ (fun (_ : Unit) (s : Unit) => ((7 : Int), s))).invoke
        ⟨"name_1", []⟩ [Ty.tag "name_0"] () () = (Outcome.out_of_range "Key not found!", ())) ∧
    ((empty.add ⟨"name_1", []⟩ (fun (_ : Unit) (s : Unit) => ((7 : Int), s))).invoke
        ⟨"name_1", []⟩ [] () () = (Outcome.returned (7 : Int), ())) := by
  refine ⟨by decide, by decide, by decide⟩

/-- C2. For a resolver built from the empty trie by a sequence of `add` calls,
`invoke(P)` throws `std::out_of_range` ("Key not found!") if and only if `P` is
not the path of any of those calls. -/
theorem invoke_key_not_found_iff [Inhabited F] [Callable F Unit σ R] (adds : List (Key × F))
    (P : Key) (s : σ) :
    ((build adds).invoke P [] () s).1 = Outcome.out_of_range "Key not found!" ↔
      ∀ a ∈ adds, a.1 ≠ P := by
  rw [invoke_build]
  have hiff : registered adds P.Args = none ↔ ∀ a ∈ adds, a.1 ≠ P := by
    rw [registered_eq_none]
    constructor
    · intro h a ha e
      exact h a ha (by rw [e])
    · intro h a ha e
      exact h a ha ((Key.Args_inj _ _).1 e)
  rw [← hiff]
  cases registered adds P.Args <;> simp

/-- C3. Whenever a scan of a document object succeeds on a resolver built by
`add` calls, what it returns (and the state it leaves) is the result of calling
the handler currently registered for some non-empty path that is present in the
document; for both overloads of `scan`. -/
theorem scan_invokes_registered_present_path [Inhabited F] [Callable F A σ R] [Inhabited R]
    [Inhabited G] [Callable G B τ Unit] :
    (∀ (adds : List (Key × F)) (D : List (String × Json)) (x : A) (s s' : σ) (v : R),
        (build adds).scan (.object D) x s = (Outcome.returned v, s') →
        ∃ path f, path ≠ [] ∧ registered adds path = some f ∧
          present path (.object D) = true ∧ (v, s') = Callable.call f x s) ∧
    (∀ (adds : List (Key × G)) (D : List (String × Json)) (x : B) (t t' : τ),
        (build adds).scan_void (.object D) x t = (Outcome.returned (), t') →
        ∃ path g, path ≠ [] ∧ registered adds path = some g ∧
          present path (.object D) = true ∧ t' = (Callable.call g x t).2) := by
  constructor
  · intro adds D x s s' v h
    unfold scan at h
    rw [Key_node.scan_object_eq] at h
    cases hs : (Key_node.select_loop (build adds).root_ D).bind
        (Key_node.bound (build adds).root_) with
    | none => simp [hs] at h
    | some f =>
      obtain ⟨path, hne, hb, hp⟩ := Key_node.select_bind_bound_some _ _ _ hs
      rw [bound_build] at hb
      simp only [hs, Prod.mk.injEq, Outcome.returned.injEq] at h
      exact ⟨path, f, hne, hb, hp, by rw [← h.1, ← h.2]⟩
  · intro adds D x t t' h
    unfold scan_void at h
    rw [Key_node.scan_void_object_eq] at h
    cases hs : (Key_node.select_loop (build adds).root_ D).bind
        (Key_node.bound (build adds).root_) with
    | none => simp [hs] at h
    | some g =>
      obtain ⟨path, hne, hb, hp⟩ := Key_node.select_bind_bound_some _ _ _ hs
      rw [bound_build] at hb
      simp only [hs, Prod.mk.injEq, true_and] at h
      exact ⟨path, g, hne, hb, hp, h.symm⟩

/-- Witness of C3: the scan of `TEST(RESOLVER, FUNC_ARGS)`. -/
theorem scan_invokes_registered_present_path_witness :
    ∃ path f, path ≠ [] ∧
      registered [((⟨"name_0", ["name_1"]⟩ : Key), (default : Work))] path = some f ∧
      present path (.object [("name_0", .object [("name_1", .number 0)])]) = true ∧
      ((8 : Int), ()) = Callable.call f (4 : Int) () :=
  (scan_invokes_registered_present_path (F := Work) (G := Work → Unit → Unit × Unit)
      (B := Work) (τ := Unit)).1
    [(⟨"name_0", ["name_1"]⟩, default)]
    [("name_0", .object [("name_1", .number 0)])] 4 () () 8 (by decide)

theorem scan_outcome_no_match_iff [Inhabited F] [Callable F A σ R] [Inhabited R]
    (adds : List (Key × F)) (D : List (String × Json)) (x : A) (s : σ) :
    ((build adds).scan (.object D) x s).1 = Outcome.out_of_range "No matching key found!" ↔
      ∀ path, path ≠ [] → present path (.object D) = true → registered adds path = none := by
  unfold scan
  rw [Key_node.scan_object_eq]
  simp only [← bound_build, ← Key_node.select_bind_bound_none]
  cases (Key_node.select_loop (build adds).root_ D).bind
      (Key_node.bound (build adds).root_) <;> simp

theorem scan_void_outcome_no_match_iff [Inhabited G] [Callable G B τ Unit]
    (adds : List (Key × G)) (D : List (String × Json)) (x : B) (t : τ) :
    ((build adds).scan_void (.object D) x t).1 =
        Outcome.out_of_range "No matching key found!" ↔
      ∀ path, path ≠ [] → present path (.object D) = true → registered adds path = none := by
  unfold scan_void
  rw [Key_node.scan_void_object_eq]
  simp only [← bound_build, ← Key_node.select_bind_bound_none]
  cases (Key_node.select_loop (build adds).root_ D).bind
      (Key_node.bound (build adds).root_) <;> simp

/-- C4. On a resolver built by `add` calls, a scan of a document object throws
`std::out_of_range` ("No matching key found!") if and only if no registered
path is present in the document; for both overloads of `scan`. -/
theorem scan_no_match_iff [Inhabited F] [Callable F A σ R] [Inhabited R]
    [Inhabited G] [Callable G B τ Unit] :
    (∀ (adds : List (Key × F)) (D : List (String × Json)) (x : A) (s : σ),
        ((build adds).scan (.object D) x s).1 = Outcome.out_of_range "No matching key found!" ↔
        ∀ path, path ≠ [] → present path (.object D) = true → registered adds path = none) ∧
    (∀ (adds : List (Key × G)) (D : List (String × Json)) (x : B) (t : τ),
        ((build adds).scan_void (.object D) x t).1 =
          Outcome.out_of_range "No matching key found!" ↔
        ∀ path, path ≠ [] → present path (.object D) = true → registered adds path = none) :=
  ⟨scan_outcome_no_match_iff, scan_void_outcome_no_match_iff⟩

end Generic_resolver

/-! ## Single-chain documents -/

theorem chain_cons_isObject (seg : String) (rest : List String) (v : Json) :
    (chain (seg :: rest) v).IsObject = true := rfl

/-- In a single-chain document around a non-object leaf, the paths present
are the prefixes of the chain. -/
theorem present_chain_iff (S : List String) (v : Json) (hv : v.IsObject = false)
    (path : List String) : present path (chain S v) = true ↔ path <+: S := by
  induction S generalizing path with
  | nil =>
    cases path with
    | nil => simp [present_nil]
    | cons a p =>
      simp only [chain, List.prefix_nil, reduceCtorEq, iff_false]
      intro h
      rw [present_cons_iff] at h
      obtain ⟨ms, rfl, _⟩ := h
      simp [Json.IsObject] at hv
  | cons seg rest ih =>
    cases path with
    | nil => simp [present_nil]
    | cons a p =>
      simp only [chain, present_cons_object, List.any_cons, List.any_nil, Bool.or_false,
        Bool.and_eq_true, beq_iff_eq, ih, List.cons_prefix_cons]
      constructor
      · rintro ⟨e, h⟩; exact ⟨e.symm, h⟩
      · rintro ⟨e, h⟩; exact ⟨e.symm, h⟩

namespace detail.Key_node

variable {F A σ R : Type}

/-- On a single-chain document around a non-object leaf, the scan selects the
handler of the longest prefix of the chain that has one. -/
theorem select_chain (n : Key_node F) (S : List String) (v : Json) (hv : v.IsObject = false)
    (path : List String) (f : F) (hne : path ≠ []) (hpre : path <+: S)
    (hb : bound n path = some f)
    (hmax : ∀ Q, Q <+: S → bound n Q ≠ none → Q.length ≤ path.length) :
    (select n (chain S v)).bind (bound n) = some f := by
  induction S generalizing n path with
  | nil =>
    rw [List.prefix_nil] at hpre
    exact absurd hpre hne
  | cons seg rest ih =>
    cases path with
    | nil => exact absurd rfl hne
    | cons a p =>
      rw [List.cons_prefix_cons] at hpre
      obtain ⟨rfl, hp⟩ := hpre
      rw [bound_cons] at hb
      cases hc : Umap.find a n.children_ with
      | none => simp [hc] at hb
      | some c =>
        simp only [hc] at hb
        have hmaxc : ∀ Q, Q <+: rest → bound c Q ≠ none → Q.length ≤ p.length := by
          intro Q hQ hbQ
          have := hmax (a :: Q) (by rw [List.cons_prefix_cons]; exact ⟨rfl, hQ⟩)
            (by rw [bound_cons, hc]; exact hbQ)
          simpa using this
        simp only [chain, select_object]
        rw [select_loop]
        simp only [hc]
        by_cases hp0 : p = []
        · subst hp0
          have hact : c.activable_ = true := by
            rw [bound_nil] at hb
            by_cases h : c.activable_ = true
            · exact h
            · simp [h] at hb
          have hsel : (if c.activable_ = true then some [a] else select_loop n [])
              = some [a] := by simp [hact]
          have hba : bound n [a] = some f := by rw [bound_cons, hc]; exact hb
          cases rest with
          | nil =>
            simp only [chain, hv, Bool.false_eq_true, if_false, hact, if_true,
              Option.some_bind, hba]
          | cons seg2 rest2 =>
            have hnone : select c (chain (seg2 :: rest2) v) = none := by
              simp only [chain, select_object]
              rw [select_loop_eq_none_iff]
              intro Q hQne hQp
              have hQpre : Q <+: seg2 :: rest2 :=
                (present_chain_iff (seg2 :: rest2) v hv Q).1 hQp
              cases hbQ : bound c Q with
              | none => rfl
              | some g =>
                have := hmaxc Q hQpre (by rw [hbQ]; simp)
                simp only [List.length_nil, Nat.le_zero_eq, List.length_eq_zero] at this
                exact absurd this hQne
            simp only [chain_cons_isObject, if_true, hnone, hact, Option.some_bind, hba]
        · cases rest with
          | nil =>
            rw [List.prefix_nil] at hp
            exact absurd hp hp0
          | cons seg2 rest2 =>
            have := ih c p hp0 hp hb hmaxc
            cases hs : select c (chain (seg2 :: rest2) v) with
            | none => simp [hs] at this
            | some q =>
              simp only [hs, Option.some_bind] at this
              simp only [chain_cons_isObject, if_true, hs, Option.some_bind, bound_cons, hc,
                this]

end detail.Key_node

namespace Generic_resolver

variable {F A σ R G B τ : Type}

/-- C5. On a resolver built by `add` calls (in any order), scanning the
single-chain document `{s1:{s2:...{sn: v}...}}` with `v` not an object calls
the handler registered for the longest registered non-empty prefix of
`[s1..sn]`, and throws `std::out_of_range` exactly when no non-empty prefix is
registered; for both overloads of `scan`. With handlers at `[a,b]` and
`[a,b,c]`, `{a:{b:{c:0}}}` reaches the `[a,b,c]` handler and `{a:{b:0}}` the
`[a,b]` handler. -/
theorem scan_chain_longest_registered [Inhabited F] [Callable F A σ R] [Inhabited R]
    [Inhabited G] [Callable G B τ Unit] :
    (∀ (adds : List (Key × F)) (S : List String) (v : Json) (x : A) (s : σ),
        S ≠ [] → v.IsObject = false →
        (∀ path f, path ≠ [] → path <+: S → registered adds path = some f →
            (∀ Q, Q <+: S → registered adds Q ≠ none → Q.length ≤ path.length) →
            (build adds).scan (chain S v) x s =
              (Outcome.returned (Callable.call f x s).1, (Callable.call f x s).2)) ∧
        (((build adds).scan (chain S v) x s).1 =
            Outcome.out_of_range "No matching key found!" ↔
          ∀ path, path ≠ [] → path <+: S → registered adds path = none)) ∧
    (∀ (adds : List (Key × G)) (S : List String) (v : Json) (x : B) (t : τ),
        S ≠ [] → v.IsObject = false →
        (∀ path g, path ≠ [] → path <+: S → registered adds path = some g →
            (∀ Q, Q <+: S → registered adds Q ≠ none → Q.length ≤ path.length) →
            (build adds).scan_void (chain S v) x t =
              (Outcome.returned (), (Callable.call g x t).2)) ∧
        (((build adds).scan_void (chain S v) x t).1 =
            Outcome.out_of_range "No matching key found!" ↔
          ∀ path, path ≠ [] → path <+: S → registered adds path = none)) ∧
    (∀ (h1 h2 : F) (x : A) (s : σ),
        (build [(⟨"a", ["b"]⟩, h1), (⟨"a", ["b", "c"]⟩, h2)]).scan
            (.object [("a", .object [("b", .object [("c", .number 0)])])]) x s =
          (Outcome.returned (Callable.call h2 x s).1, (Callable.call h2 x s).2) ∧
        (build [(⟨"a", ["b"]⟩, h1), (⟨"a", ["b", "c"]⟩, h2)]).scan
            (.object [("a", .object [("b", .number 0)])]) x s =
          (Outcome.returned (Callable.call h1 x s).1, (Callable.call h1 x s).2) ∧
        (build [(⟨"a", ["b", "c"]⟩, h2), (⟨"a", ["b"]⟩, h1)]).scan
            (.object [("a", .object [("b", .object [("c", .number 0)])])]) x s =
          (Outcome.returned (Callable.call h2 x s).1, (Callable.call h2 x s).2) ∧
        (build [(⟨"a", ["b", "c"]⟩, h2), (⟨"a", ["b"]⟩, h1)]).scan
            (.object [("a", .object [("b", .number 0)])]) x s =
          (Outcome.returned (Callable.call h1 x s).1, (Callable.call h1 x s).2)) := by
  refine ⟨?_, ?_, ?_⟩
  · intro adds S v x s hS hv
    obtain ⟨seg, rest, rfl⟩ := List.exists_cons_of_ne_nil hS
    constructor
    · intro path f hne hpre hreg hmax
      have := Key_node.select_chain (build adds).root_ (seg :: rest) v hv path f hne hpre
        (by rw [bound_build]; exact hreg)
        (by intro Q hQ hb; rw [bound_build] at hb; exact hmax Q hQ hb)
      unfold scan
      simp only [chain, Key_node.select_object] at this
      rw [chain, Key_node.scan_object_eq, this]
    · rw [chain, scan_outcome_no_match_iff adds [(seg, chain rest v)] x s]
      constructor
      · intro h path hne hpre
        exact h path hne ((present_chain_iff (seg :: rest) v hv path).2 hpre)
      · intro h path hne hp
        exact h path hne ((present_chain_iff (seg :: rest) v hv path).1 hp)
  · intro adds S v x t hS hv
    obtain ⟨seg, rest, rfl⟩ := List.exists_cons_of_ne_nil hS
    constructor
    · intro path g hne hpre hreg hmax
      have := Key_node.select_chain (build adds).root_ (seg :: rest) v hv path g hne hpre
        (by rw [bound_build]; exact hreg)
        (by intro Q hQ hb; rw [bound_build] at hb; exact hmax Q hQ hb)
      unfold scan_void
      simp only [chain, Key_node.select_object] at this
      rw [chain, Key_node.scan_void_object_eq, this]
    · rw [chain, scan_void_outcome_no_match_iff adds [(seg, chain rest v)] x t]
      constructor
      · intro h path hne hpre
        exact h path hne ((present_chain_iff (seg :: rest) v hv path).2 hpre)
      · intro h path hne hp
        exact h path hne ((present_chain_iff (seg :: rest) v hv path).1 hp)
  · intro h1 h2 x s
    exact ⟨rfl, rfl, rfl, rfl⟩

/-- Witness of C5: handler registered by default at `[name_0, name_1]`, document
`{"name_0":{"name_1":0}}`, argument 4. -/
theorem scan_chain_longest_registered_witness :
    (build [((⟨"name_0", ["name_1"]⟩ : Key), (default : Work))]).scan
        (chain ["name_0", "name_1"] (.number 0)) (4 : Int) () =
      (Outcome.returned (Callable.call (default : Work) (4 : Int) ()).1,
        (Callable.call (default : Work) (4 : Int) ()).2) :=
  ((@scan_chain_longest_registered Work Int Unit Int (Work → Unit → Unit × Unit) Work Unit
      _ _ _ _ _).1
    [(⟨"name_0", ["name_1"]⟩, default)] ["name_0", "name_1"] (.number 0) 4 ()
    (by decide) rfl).1 ["name_0", "name_1"] default (by decide) (List.prefix_refl _) rfl
    (fun _ hQ _ => hQ.length_le)

end Generic_resolver

/-! ## Deepest along the branch, dead ends, first success -/

theorem present_cons_cons (seg : String) (path : List String) (m : String × Json)
    (rest : List (String × Json)) :
    present (seg :: path) (.object (m :: rest)) = true ↔
      (m.1 = seg ∧ present path m.2 = true) ∨ present (seg :: path) (.object rest) = true := by
  simp [present_cons_object]

theorem mem_names_of_present (seg : String) (path : List String) (ms : List (String × Json))
    (h : present (seg :: path) (.object ms) = true) : seg ∈ ms.map Prod.fst := by
  rw [present_cons_iff] at h
  obtain ⟨ms', e, m, hm, hseg, _⟩ := h
  cases e
  exact List.mem_map.2 ⟨m, hm, hseg⟩

theorem distinct_names_object_cons (name : String) (value : Json)
    (rest : List (String × Json)) (h : (Json.object ((name, value) :: rest)).distinct_names = true) :
    name ∉ rest.map Prod.fst ∧ value.distinct_names = true ∧
      (Json.object rest).distinct_names = true := by
  simp only [Json.distinct_names, Json.distinct_names_members, List.map_cons, List.nodup_cons,
    Bool.and_eq_true, decide_eq_true_eq] at h ⊢
  obtain ⟨⟨h1, h2⟩, h3, h4⟩ := h
  exact ⟨h1, h3, h2, h4⟩

namespace detail.Key_node

variable {F A σ R : Type}

/-- With distinct member names, no strict extension of the selected path both
has a handler and is present. -/
theorem select_loop_deepest (n : Key_node F) (ms : List (String × Json))
    (hd : (Json.object ms).distinct_names = true) (path : List String)
    (hs : select_loop n ms = some path) (ext : List String) (hext : ext ≠ [])
    (hb : bound n (path ++ ext) ≠ none) :
    present (path ++ ext) (.object ms) = false := by
  induction ms using Json.members_induction generalizing n path ext with
  | nil => simp [select_loop] at hs
  | cons name value rest ihv ihr =>
    obtain ⟨hnot, hdv, hdr⟩ := distinct_names_object_cons name value rest hd
    -- the selected path comes from the remaining members
    have hrest : select_loop n rest = some path →
        present (path ++ ext) (.object ((name, value) :: rest)) = false := by
      intro hsr
      obtain ⟨hne, _⟩ := select_loop_bound n rest path hsr
      obtain ⟨seg, p, rfl⟩ := List.exists_cons_of_ne_nil hne
      have hin : seg ∈ rest.map Prod.fst :=
        mem_names_of_present seg p rest (select_loop_present n rest _ hsr)
      have hr := ihr n hdr (seg :: p) hsr ext hext hb
      cases hpp : present (seg :: p ++ ext) (.object ((name, value) :: rest)) with
      | false => rfl
      | true =>
        rw [List.cons_append, present_cons_cons] at hpp
        rcases hpp with ⟨e, _⟩ | hpp
        · simp only at e
          subst e
          exact absurd hin hnot
        · rw [List.cons_append] at hr
          rw [hr] at hpp
          cases hpp
    -- the selected path starts at the first member
    have hhead : ∀ p : List String, path = name :: p →
        (present (p ++ ext) value = true → False) →
        present (path ++ ext) (.object ((name, value) :: rest)) = false := by
      intro p e hv
      subst e
      cases hpp : present (name :: p ++ ext) (.object ((name, value) :: rest)) with
      | false => rfl
      | true =>
        rw [List.cons_append, present_cons_cons] at hpp
        rcases hpp with ⟨_, hpv⟩ | hpp
        · exact (hv hpv).elim
        · exact absurd (mem_names_of_present name _ rest hpp) hnot
    rw [select_loop] at hs
    cases hc : Umap.find name n.children_ with
    | none =>
      simp only [hc] at hs
      exact hrest hs
    | some child =>
      simp only [hc] at hs
      by_cases ho : value.IsObject = true
      · obtain ⟨ms, rfl⟩ := (Json.isObject_iff value).1 ho
        simp only [Json.IsObject, if_true, select_object] at hs
        cases hsc : select_loop child ms with
        | some p =>
          simp only [hsc, Option.some.injEq] at hs
          apply hhead p hs.symm
          intro hpv
          subst hs
          rw [List.cons_append, bound_cons, hc] at hb
          have := ihv ms rfl child hdv p hsc ext hext hb
          rw [this] at hpv
          cases hpv
        | none =>
          simp only [hsc] at hs
          by_cases ha : child.activable_ = true
          · simp only [ha, if_true, Option.some.injEq] at hs
            apply hhead [] hs.symm
            intro hpv
            subst hs
            obtain ⟨seg, e, rfl⟩ := List.exists_cons_of_ne_nil hext
            simp only [List.nil_append, List.singleton_append] at hpv hb
            rw [bound_cons, hc] at hb
            cases hbe : bound child (seg :: e) with
            | none => exact hb hbe
            | some f =>
              obtain ⟨q, hq⟩ := select_loop_of_present child ms seg e f hbe hpv
              rw [hsc] at hq
              cases hq
          · simp only [ha, Bool.false_eq_true, if_false] at hs
            exact hrest hs
      · simp only [ho, Bool.false_eq_true, if_false] at hs
        by_cases ha : child.activable_ = true
        · simp only [ha, if_true, Option.some.injEq] at hs
          apply hhead [] hs.symm
          intro hpv
          obtain ⟨seg, e, rfl⟩ := List.exists_cons_of_ne_nil hext
          simp only [List.nil_append] at hpv
          rw [present_cons_iff] at hpv
          obtain ⟨ms, e', _⟩ := hpv
          subst e'
          simp [Json.IsObject] at ho
        · simp only [ha, Bool.false_eq_true, if_false] at hs
          exact hrest hs

/-- A value-returning `do_scan` that leaves `found` unset has called no
handler: the state is the one it started in. -/
theorem do_scan_not_found [Callable F A σ R] [Inhabited R] (n : Key_node F) (ref : Json)
    (fargs : A) (s : σ) (h : (do_scan n ref false fargs s : R × Bool × σ).2.1 = false) :
    (do_scan n ref false fargs s : R × Bool × σ).2.2 = s := by
  cases ref with
  | object ms =>
    rw [do_scan_object] at h ⊢
    rw [do_scan_loop_eq] at h ⊢
    cases hs : (select_loop n ms).bind (bound n) with
    | none => simp
    | some f => simp [hs] at h
  | null => simp [do_scan]
  | bool b => simp [do_scan]
  | number i => simp [do_scan]
  | string str => simp [do_scan]
  | array elems => simp [do_scan]

/-- One step of the loop over a dead end. -/
theorem do_scan_loop_dead_end [Callable F A σ R] [Inhabited R] (n : Key_node F)
    (m : String × Json) (rest : List (String × Json)) (found : Bool) (fargs : A) (s : σ)
    (h : dead_end n fargs s m) :
    do_scan_loop n (m :: rest) found fargs s = do_scan_loop n rest found fargs s := by
  obtain ⟨name, value⟩ := m
  unfold dead_end at h
  rw [do_scan_loop]
  cases hc : Umap.find name n.children_ with
  | none => simp only [hc]
  | some child =>
    simp only [hc] at h ⊢
    obtain ⟨ha, hv⟩ := h
    rcases hv with hv | hv
    · simp [hv, ha]
    · by_cases ho : value.IsObject = true
      · have hst := do_scan_not_found child value fargs s hv
        simp only [ho, if_true, hv, Bool.false_eq_true, if_false, ha, hst]
      · simp [ho, ha]

theorem do_scan_loop_dead_ends [Callable F A σ R] [Inhabited R] (n : Key_node F)
    (pre post : List (String × Json)) (found : Bool) (fargs : A) (s : σ)
    (h : ∀ m ∈ pre, dead_end n fargs s m) :
    do_scan_loop n (pre ++ post) found fargs s = do_scan_loop n post found fargs s := by
  induction pre with
  | nil => rfl
  | cons m pre ih =>
    rw [List.cons_append, do_scan_loop_dead_end n m _ found fargs s (h m (List.mem_cons_self _ _))]
    exact ih (fun m' hm' => h m' (List.mem_cons_of_mem _ hm'))

/-- One step of the loop at a member that succeeds: the members after it are
not looked at. -/
theorem do_scan_loop_succeeds [Callable F A σ R] [Inhabited R] (n : Key_node F)
    (m : String × Json) (rest : List (String × Json)) (found : Bool) (fargs : A) (s : σ)
    (h : succeeds n fargs s m) :
    do_scan_loop n (m :: rest) found fargs s = do_scan_loop n [m] found fargs s := by
  obtain ⟨name, value⟩ := m
  unfold succeeds at h
  rw [do_scan_loop, do_scan_loop]
  cases hc : Umap.find name n.children_ with
  | none => simp [hc] at h
  | some child =>
    simp only [hc] at h ⊢
    by_cases ho : value.IsObject = true
    · by_cases hf : (do_scan child value false fargs s : R × Bool × σ).2.1 = true
      · simp [ho, hf]
      · have ha : child.activable_ = true := by
          rcases h with ⟨_, h⟩ | h
          · exact absurd h hf
          · exact h
        simp [ho, hf, ha]
    · have ha : child.activable_ = true := by
        rcases h with ⟨h, _⟩ | h
        · exact absurd h ho
        · exact h
      simp [ho, ha]

end detail.Key_node

namespace Generic_resolver

variable {F A σ R G B τ : Type}

/-- C6. In a document whose objects all have pairwise distinct member names,
when the scan stops at the node of path `path` (it then returns the result of
the handler registered for `path`), no strict extension of `path` is both
registered and present in the document. -/
theorem scan_selects_deepest_on_branch [Inhabited F] [Callable F A σ R] [Inhabited R]
    (adds : List (Key × F)) (D : List (String × Json)) (path : List String)
    (hD : (Json.object D).distinct_names = true)
    (hsel : Key_node.select (build adds).root_ (.object D) = some path) :
    (∃ f, registered adds path = some f ∧
      ∀ (x : A) (s : σ), (build adds).scan (.object D) x s =
        (Outcome.returned (Callable.call f x s).1, (Callable.call f x s).2)) ∧
    ∀ Q, path <+: Q → Q ≠ path → registered adds Q ≠ none →
      present Q (.object D) = false := by
  rw [Key_node.select_object] at hsel
  constructor
  · obtain ⟨_, f, hf⟩ := Key_node.select_loop_bound _ _ _ hsel
    refine ⟨f, by rw [← bound_build]; exact hf, ?_⟩
    intro x s
    unfold scan
    rw [Key_node.scan_object_eq, hsel]
    simp only [Option.some_bind, hf]
  · intro Q hpre hne hreg
    obtain ⟨ext, rfl⟩ := hpre
    have hext : ext ≠ [] := by
      intro e
      subst e
      simp at hne
    rw [← bound_build] at hreg
    exact Key_node.select_loop_deepest _ D hD path hsel ext hext hreg

/-- Witness of C6: the second example of `resolver_example.cpp` on `bike_json`;
the scan stops at `[vehicle, bike]`, and the registered extension
`[vehicle, bike, sidecar]` is not present. -/
theorem scan_selects_deepest_on_branch_witness :
    present ["vehicle", "bike", "sidecar"]
      (.object [("vehicle", .object [("bike", .object [])])]) = false :=
  (@scan_selects_deepest_on_branch Work Int Unit Int _ _ _
    [(⟨"vehicle", ["bike"]⟩, default), (⟨"vehicle", ["bike", "sidecar"]⟩, default)]
    [("vehicle", .object [("bike", .object [])])] ["vehicle", "bike"]
    (by decide) (by decide)).2 ["vehicle", "bike", "sidecar"]
    ⟨["sidecar"], rfl⟩ (by decide) (by decide)

/-- C7. Sibling fallthrough: when every member before a position of a scanned
object is a dead end, `do_scan` (at any trie node) and `scan` give the same
result as on the object without those members. With a handler only at
`[a,b,c]`, `{a:{b:{x:0}}}` gives no match; with another handler at `[d]`,
`{a:{b:{x:0}}, d:0}` reaches the `[d]` handler. -/
theorem do_scan_skips_dead_ends [Inhabited F] [Callable F A σ R] [Inhabited R] :
    (∀ (n : Key_node F) (pre post : List (String × Json)) (found : Bool) (x : A) (s : σ),
        (∀ m ∈ pre, Key_node.dead_end n x s m) →
        (Key_node.do_scan n (.object (pre ++ post)) found x s : R × Bool × σ) =
            Key_node.do_scan n (.object post) found x s ∧
          (Key_node.scan n (.object (pre ++ post)) x s : Outcome R × σ) =
            Key_node.scan n (.object post) x s) ∧
    (∀ (h : F) (x : A) (s : σ),
        (build [(⟨"a", ["b", "c"]⟩, h)]).scan
            (.object [("a", .object [("b", .object [("x", .number 0)])])]) x s =
          ((Outcome.out_of_range "No matching key found!" : Outcome R), s)) ∧
    (∀ (h hd : F) (x : A) (s : σ),
        (build [(⟨"a", ["b", "c"]⟩, h), (⟨"d", []⟩, hd)]).scan
            (.object [("a", .object [("b", .object [("x", .number 0)])]), ("d", .number 0)]) x s =
          (Outcome.returned (Callable.call hd x s).1, (Callable.call hd x s).2)) := by
  refine ⟨?_, ?_, ?_⟩
  · intro n pre post found x s h
    have key : ∀ fd, (Key_node.do_scan_loop n (pre ++ post) fd x s : R × Bool × σ) =
        Key_node.do_scan_loop n post fd x s :=
      fun fd => Key_node.do_scan_loop_dead_ends n pre post fd x s h
    constructor
    · rw [Key_node.do_scan_object, Key_node.do_scan_object]
      exact key found
    · rw [Key_node.scan_object, Key_node.scan_object, Key_node.do_scan_object,
        Key_node.do_scan_object, key false]
  · intro h x s
    rfl
  · intro h hd x s
    rfl

/-- Witness of C7: with a handler only at `[a,b]`, the member `x` of
`{x:0, a:{b:0}}` is a dead end at the root. -/
theorem do_scan_skips_dead_ends_witness :
    (Key_node.do_scan (build [((⟨"a", ["b"]⟩ : Key), (default : Work))]).root_
        (.object ([("x", .number 0)] ++ [("a", .object [("b", .number 0)])])) false (4 : Int) ()
          : Int × Bool × Unit) =
        Key_node.do_scan (build [((⟨"a", ["b"]⟩ : Key), (default : Work))]).root_
          (.object [("a", .object [("b", .number 0)])]) false (4 : Int) () ∧
      (Key_node.scan (build [((⟨"a", ["b"]⟩ : Key), (default : Work))]).root_
        (.object ([("x", .number 0)] ++ [("a", .object [("b", .number 0)])])) (4 : Int) ()
          : Outcome Int × Unit) =
        Key_node.scan (build [((⟨"a", ["b"]⟩ : Key), (default : Work))]).root_
          (.object [("a", .object [("b", .number 0)])]) (4 : Int) () :=
  (@do_scan_skips_dead_ends Work Int Unit Int _ _ _).1
    (build [((⟨"a", ["b"]⟩ : Key), (default : Work))]).root_
    [("x", .number 0)] [("a", .object [("b", .number 0)])] false 4 ()
    (by
      intro m hm
      rw [List.mem_singleton] at hm
      subst hm
      trivial)

/-- C8. First success wins: when every member before `m` is a dead end and `m`
succeeds, `do_scan` (at any trie node) and `scan` give the result of the object
that has the member `m` alone, whatever members follow `m`. -/
theorem do_scan_first_success_wins [Inhabited F] [Callable F A σ R] [Inhabited R]
    (n : Key_node F) (pre : List (String × Json)) (m : String × Json)
    (post post' : List (String × Json)) (found : Bool) (x : A) (s : σ)
    (hpre : ∀ m' ∈ pre, Key_node.dead_end n x s m')
    (hm : Key_node.succeeds n x s m) :
    (Key_node.do_scan n (.object (pre ++ m :: post)) found x s : R × Bool × σ) =
        Key_node.do_scan n (.object [m]) found x s ∧
      (Key_node.do_scan n (.object (pre ++ m :: post)) found x s : R × Bool × σ) =
        Key_node.do_scan n (.object (pre ++ m :: post')) found x s ∧
      (Key_node.scan n (.object (pre ++ m :: post)) x s : Outcome R × σ) =
        Key_node.scan n (.object [m]) x s ∧
      (Key_node.scan n (.object (pre ++ m :: post)) x s : Outcome R × σ) =
        Key_node.scan n (.object (pre ++ m :: post')) x s := by
  have key : ∀ (tail : List (String × Json)) (fd : Bool),
      (Key_node.do_scan n (.object (pre ++ m :: tail)) fd x s : R × Bool × σ) =
        Key_node.do_scan n (.object [m]) fd x s := by
    intro tail fd
    rw [Key_node.do_scan_object, Key_node.do_scan_object,
      Key_node.do_scan_loop_dead_ends n pre _ fd x s hpre]
    exact Key_node.do_scan_loop_succeeds n m tail fd x s hm
  refine ⟨key post found, ?_, ?_, ?_⟩
  · rw [key post found, key post' found]
  · rw [Key_node.scan_object, Key_node.scan_object, key post false]
  · rw [Key_node.scan_object, Key_node.scan_object, key post false, key post' false]

/-- Witness of C8: handlers at `[a]` and `[b]`; in `{x:0, a:0, b:0}` the member
`x` is a dead end and `a` succeeds, so `b` is not looked at. -/
theorem do_scan_first_success_wins_witness :
    (Key_node.do_scan
        (build [((⟨"a", []⟩ : Key), (fun (i : Int) (s : Unit) => (i + 1, s))),
          (⟨"b", []⟩, fun i s => (i + 2, s))]).root_
        (.object ([("x", .number 0)] ++ ("a", .number 0) :: [("b", .number 0)])) false (4 : Int) ()
          : Int × Bool × Unit) = (5, true, ()) :=
  ((do_scan_first_success_wins
    (build [((⟨"a", []⟩ : Key), (fun (i : Int) (s : Unit) => (i + 1, s))),
      (⟨"b", []⟩, fun i s => (i + 2, s))]).root_
    [("x", .number 0)] ("a", .number 0) [("b", .number 0)] [] false (4 : Int) ()
    (by
      intro m hm
      rw [List.mem_singleton] at hm
      subst hm
      trivial)
    (Or.inr rfl)).1).trans (by decide)

/-- C9. Argument passthrough: for a resolver and a document object, the scan
either selects one handler `h`, fixed by the trie and the document alone, and
then returns `h(x)` for every call-site argument pack `x` (in every state), or
it throws `std::out_of_range` for every `x`. The doubling functor bound to
`[name_0, name_1]`, scanned on `{"name_0":{"name_1":0}}` with argument 4,
returns 8; the first example of `resolver_example.cpp` returns 40 and 20. -/
theorem scan_passes_arguments [Callable F A σ R] [Inhabited R] :
    (∀ (r : Generic_resolver F) (D : List (String × Json)),
        (∃ path h, Key_node.select r.root_ (.object D) = some path ∧
          Key_node.bound r.root_ path = some h ∧
          ∀ (x : A) (s : σ), r.scan (.object D) x s =
            (Outcome.returned (Callable.call h x s).1, (Callable.call h x s).2)) ∨
        (Key_node.select r.root_ (.object D) = none ∧
          ∀ (x : A) (s : σ), r.scan (.object D) x s =
            ((Outcome.out_of_range "No matching key found!" : Outcome R), s))) ∧
    ((empty.add_default ⟨"name_0", ["name_1"]⟩ : Generic_resolver Work).scan
        (.object [("name_0", .object [("name_1", .number 0)])]) (4 : Int) () =
      (Outcome.returned (8 : Int), ())) ∧
    (((empty.add ⟨"vehicle", ["car"]⟩ (fun (price : Int) (s : Unit) => (price * 4, s))).add
          ⟨"vehicle", ["bike"]⟩ (fun price s => (price * 2, s))).scan
        (.object [("vehicle", .object [("car", .object [])])]) (10 : Int) () =
      (Outcome.returned (40 : Int), ())) ∧
    (((empty.add ⟨"vehicle", ["car"]⟩ (fun (price : Int) (s : Unit) => (price * 4, s))).add
          ⟨"vehicle", ["bike"]⟩ (fun price s => (price * 2, s))).scan
        (.object [("vehicle", .object [("bike", .object [])])]) (10 : Int) () =
      (Outcome.returned (20 : Int), ())) := by
  refine ⟨?_, by decide, by decide, by decide⟩
  intro r D
  rw [Key_node.select_object]
  cases hs : Key_node.select_loop r.root_ D with
  | none =>
    right
    refine ⟨rfl, ?_⟩
    intro x s
    unfold scan
    rw [Key_node.scan_object_eq, hs]
    rfl
  | some path =>
    left
    obtain ⟨_, h, hh⟩ := Key_node.select_loop_bound _ _ _ hs
    refine ⟨path, h, rfl, hh, ?_⟩
    intro x s
    unfold scan
    rw [Key_node.scan_object_eq, hs]
    simp only [Option.some_bind, hh]

/-- C10. Re-registration: registering `P` with `h1` and then again with `h2`
gives exactly the trie of registering `P` with `h2` once; compared with the
trie after the first registration, the same nodes exist, every node other than
the one at `P` has the same flag and handler, and `invoke(P)` runs `h2`. -/
theorem add_again_replaces_handler [Inhabited F] [Callable F Unit σ R]
    (t : Generic_resolver F) (P : Key) (h1 h2 : F) (s : σ) :
    (t.add P h1).add P h2 = t.add P h2 ∧
    (∀ Q, (Key_node.node_at ((t.add P h1).add P h2).root_ Q).isSome =
        (Key_node.node_at (t.add P h1).root_ Q).isSome) ∧
    (∀ Q, Q ≠ P.Args →
      Key_node.flags ((t.add P h1).add P h2).root_ Q = Key_node.flags (t.add P h1).root_ Q) ∧
    Key_node.flags ((t.add P h1).add P h2).root_ P.Args = some (true, h2) ∧
    ((t.add P h1).add P h2).invoke P [] () s =
      (Outcome.returned (Callable.call h2 () s).1, (Callable.call h2 () s).2) := by
  have hfl : ∀ Q, Key_node.flags ((t.add P h1).add P h2).root_ Q =
      if Q = P.T :: P.Ts then some (true, h2) else Key_node.flags (t.add P h1).root_ Q := by
    intro Q
    show Key_node.flags (Key_node.add (t.add P h1).root_ P.T P.Ts h2) Q = _
    rw [Key_node.flags_add]
    by_cases e : Q = P.T :: P.Ts
    · rw [if_pos e, if_pos e]
    · rw [if_neg e, if_neg e]
      cases hq : Key_node.flags (t.add P h1).root_ Q with
      | some x => rfl
      | none =>
        have h1' : Key_node.flags (Key_node.add t.root_ P.T P.Ts h1) Q = none := hq
        rw [Key_node.flags_add, if_neg e] at h1'
        by_cases hp : Q <+: P.T :: P.Ts
        · cases hq' : Key_node.flags t.root_ Q with
          | some y => simp [hq'] at h1'
          | none => simp [hq', hp] at h1'
        · simp [hp]
  have hsome : ∀ (n : Key_node F) Q, (Key_node.node_at n Q).isSome = (Key_node.flags n Q).isSome := by
    intro n Q
    unfold Key_node.flags
    cases Key_node.node_at n Q <;> rfl
  have hP : Key_node.flags (t.add P h1).root_ (P.T :: P.Ts) = some (true, h1) := by
    show Key_node.flags (Key_node.add t.root_ P.T P.Ts h1) (P.T :: P.Ts) = _
    rw [Key_node.flags_add, if_pos rfl]
  refine ⟨?_, ?_, ?_, ?_, ?_⟩
  · show (⟨Key_node.add (Key_node.add t.root_ P.T P.Ts h1) P.T P.Ts h2⟩ : Generic_resolver F) = _
    rw [Key_node.add_add_same]
    rfl
  · intro Q
    rw [hsome, hsome, hfl]
    by_cases e : Q = P.T :: P.Ts
    · rw [if_pos e, e, hP]
      rfl
    · rw [if_neg e]
  · intro Q hQ
    have hQ' : ¬ Q = P.T :: P.Ts := hQ
    rw [hfl, if_neg hQ']
  · show Key_node.flags ((t.add P h1).add P h2).root_ (P.T :: P.Ts) = _
    rw [hfl, if_pos rfl]
  · rw [invoke_nil, Key_node.invoke_eq]
    have : Key_node.bound ((t.add P h1).add P h2).root_ (P.T :: P.Ts) = some h2 := by
      rw [bound_add_root]
      simp [Key.Args]
    rw [this]

end Generic_resolver

/-! ## Exact misses, result values, empty documents -/

namespace detail.Key_node

variable {F A σ R : Type}

/-- Whether the value-returning `scan` of an object throws is decided by
`select` alone. -/
theorem scan_object_no_match_iff [Callable F A σ R] [Inhabited R] (n : Key_node F)
    (ms : List (String × Json)) (fargs : A) (s : σ) :
    (n.scan (.object ms) fargs s).1 = Outcome.out_of_range "No matching key found!" ↔
      select_loop n ms = none := by
  rw [scan_object_eq]
  cases hs : select_loop n ms with
  | none => simp
  | some p =>
    obtain ⟨_, f, hf⟩ := select_loop_bound n ms p hs
    simp [hf]

/-- Whether the `void` overload of `scan` of an object throws is decided by
`select` alone. -/
theorem scan_void_object_no_match_iff [Callable F A σ Unit] (n : Key_node F)
    (ms : List (String × Json)) (fargs : A) (s : σ) :
    (n.scan_void (.object ms) fargs s).1 = Outcome.out_of_range "No matching key found!" ↔
      select_loop n ms = none := by
  rw [scan_void_object_eq]
  cases hs : select_loop n ms with
  | none => simp
  | some p =>
    obtain ⟨_, f, hf⟩ := select_loop_bound n ms p hs
    simp [hf]

/-- The value-returning `scan` of an object when `select` stops at a path. -/
theorem scan_object_of_select [Callable F A σ R] [Inhabited R] (n : Key_node F)
    (ms : List (String × Json)) (path : List String) (h : F)
    (hs : select_loop n ms = some path) (hb : bound n path = some h) (fargs : A) (s : σ) :
    n.scan (.object ms) fargs s =
      (Outcome.returned (Callable.call h fargs s).1, (Callable.call h fargs s).2) := by
  rw [scan_object_eq, hs]
  simp only [Option.some_bind, hb]

end detail.Key_node

namespace Generic_resolver

variable {F A σ R G B τ : Type}

/-- C11. Exact-miss invariant: on a resolver built by `add` calls, when `P` is
registered and `P+[x]` is not, `invoke(P+[x])` throws `std::out_of_range`
("Key not found!"), whatever longer paths through `P+[x]` are registered. -/
theorem invoke_extension_not_registered [Inhabited F] [Callable F Unit σ R]
    (adds : List (Key × F)) (P : Key) (x : String) (s : σ)
    (hP : registered adds P.Args ≠ none)
    (hx : registered adds (P.Args ++ [x]) = none) :
    (build adds).invoke ⟨P.T, P.Ts ++ [x]⟩ [] () s =
      (Outcome.out_of_range "Key not found!", s) := by
  have _ := hP
  rw [invoke_build]
  have : (⟨P.T, P.Ts ++ [x]⟩ : Key).Args = P.Args ++ [x] := rfl
  rw [this, hx]

/-- Witness of C11: `[a]` and the longer `[a, x, y]` are registered, `[a, x]` is
not; `invoke([a, x])` throws. -/
theorem invoke_extension_not_registered_witness :
    (build [((⟨"a", []⟩ : Key), fun (_ : Unit) (s : Unit) => ((1 : Int), s)),
        (⟨"a", ["x", "y"]⟩, fun _ s => (2, s))]).invoke ⟨"a", [] ++ ["x"]⟩ [] () () =
      ((Outcome.out_of_range "Key not found!" : Outcome Int), ()) :=
  invoke_extension_not_registered
    [((⟨"a", []⟩ : Key), fun (_ : Unit) (s : Unit) => ((1 : Int), s)),
      (⟨"a", ["x", "y"]⟩, fun _ s => (2, s))] ⟨"a", []⟩ "x" ()
    (show (some _ : Option (Unit → Unit → Int × Unit)) ≠ none from Option.some_ne_none _) rfl

end Generic_resolver

namespace Generic_resolver

variable {F A σ R G B τ : Type}

/-- C12. Result/void uniformity. Whether a scan throws "No matching key found!"
is the same whatever the handlers return: it agrees for any two ways `F` can
be called (any argument, result and state types). A scan that stops at a
handler whose result is the default-constructed value `R{}` succeeds and
returns that value. A value that `scan` returns is always the result of the
handler the walk stopped at, with `found` set: the `R{}` that `do_scan` makes
when nothing is found is never returned. -/
theorem scan_success_independent_of_result {A' σ' R' : Type} [Callable F A σ R] [Inhabited R]
    [Callable F A' σ' R'] [Inhabited R'] :
    (∀ (r : Generic_resolver F) (D : List (String × Json)) (x : A) (s : σ) (x' : A') (s' : σ'),
        (r.scan (.object D) x s).1 = Outcome.out_of_range "No matching key found!" ↔
          (r.scan (.object D) x' s').1 = Outcome.out_of_range "No matching key found!") ∧
    (∀ (r : Generic_resolver F) (D : List (String × Json)) (path : List String) (h : F)
        (x : A) (s : σ),
        Key_node.select r.root_ (.object D) = some path →
        Key_node.bound r.root_ path = some h →
        (Callable.call h x s).1 = (default : R) →
        r.scan (.object D) x s = (Outcome.returned (default : R), (Callable.call h x s).2)) ∧
    (∀ (r : Generic_resolver F) (D : List (String × Json)) (x : A) (s : σ) (v : R),
        (r.scan (.object D) x s).1 = Outcome.returned v →
        (Key_node.do_scan r.root_ (.object D) false x s : R × Bool × σ).2.1 = true ∧
          ∃ path h, Key_node.select r.root_ (.object D) = some path ∧
            Key_node.bound r.root_ path = some h ∧ v = (Callable.call h x s).1) ∧
    (∀ (r : Generic_resolver F) (D : List (String × Json)) (x : A) (s : σ),
        (Key_node.do_scan r.root_ (.object D) false x s : R × Bool × σ).2.1 = false →
        r.scan (.object D) x s = (Outcome.out_of_range "No matching key found!", s)) := by
  refine ⟨?_, ?_, ?_, ?_⟩
  · intro r D x s x' s'
    unfold scan
    rw [Key_node.scan_object_no_match_iff, Key_node.scan_object_no_match_iff]
  · intro r D path h x s hs hb hv
    rw [Key_node.select_object] at hs
    unfold scan
    rw [Key_node.scan_object_of_select _ _ _ _ hs hb, hv]
  · intro r D x s v hv
    unfold scan at hv
    rw [Key_node.do_scan_object, Key_node.do_scan_loop_eq, Key_node.select_object]
    rw [Key_node.scan_object_eq] at hv
    cases hs : Key_node.select_loop r.root_ D with
    | none => simp [hs] at hv
    | some path =>
      obtain ⟨_, h, hh⟩ := Key_node.select_loop_bound _ _ _ hs
      simp only [hs, Option.some_bind, hh, Outcome.returned.injEq] at hv ⊢
      exact ⟨trivial, path, h, rfl, hh, hv.symm⟩
  · intro r D x s hf
    have hst := Key_node.do_scan_not_found r.root_ (.object D) x s hf
    unfold scan Key_node.scan
    simp only [hf, hst]
    rfl

/-- Witness of C12: a handler at `[a]` that returns `0`, the default `int`;
scanning `{"a":1}` returns that `0`. -/
theorem scan_success_independent_of_result_witness :
    (build [((⟨"a", []⟩ : Key), fun (_ : Unit) (s : Unit) => ((0 : Int), s))]).scan
        (.object [("a", .number 1)]) () () =
      (Outcome.returned (default : Int), ()) :=
  (@scan_success_independent_of_result (Unit → Unit → Int × Unit) Unit Unit Int
      Unit Unit Int _ _ _ _).2.1
    (build [((⟨"a", []⟩ : Key), fun (_ : Unit) (s : Unit) => ((0 : Int), s))])
    [("a", .number 1)] ["a"] (fun _ s => (0, s)) () () rfl rfl rfl

/-- C14. The scan is not a global longest-match search: with handlers at `[a]`
and `[b, c]`, scanning `{a:0, b:{c:0}}` stops at `[a]` and calls its handler,
although the longer registered path `[b, c]` is present under the later
sibling `b`. -/
theorem scan_not_global_longest_match [Inhabited F] [Callable F A σ R] [Inhabited R]
    (ha hbc : F) (x : A) (s : σ) :
    (build [(⟨"a", []⟩, ha), (⟨"b", ["c"]⟩, hbc)]).scan
        (.object [("a", .number 0), ("b", .object [("c", .number 0)])]) x s =
      (Outcome.returned (Callable.call ha x s).1, (Callable.call ha x s).2) ∧
    Key_node.select (build [(⟨"a", []⟩, ha), (⟨"b", ["c"]⟩, hbc)]).root_
        (.object [("a", .number 0), ("b", .object [("c", .number 0)])]) = some ["a"] ∧
    registered [((⟨"a", []⟩ : Key), ha), (⟨"b", ["c"]⟩, hbc)] ["b", "c"] = some hbc ∧
    present ["b", "c"] (.object [("a", .number 0), ("b", .object [("c", .number 0)])]) = true ∧
    ["a"].length < ["b", "c"].length :=
  ⟨rfl, rfl, rfl, rfl, by decide⟩

/-- C15. No match on an empty document: for every trie, scanning an object with
no members throws `std::out_of_range` ("No matching key found!") and leaves the
state as it was, so no handler has run; for both overloads of `scan`. -/
theorem scan_empty_object_no_match [Callable F A σ R] [Inhabited R] [Callable G B τ Unit] :
    (∀ (r : Generic_resolver F) (x : A) (s : σ),
        r.scan (.object []) x s = (Outcome.out_of_range "No matching key found!", s)) ∧
    (∀ (r : Generic_resolver G) (x : B) (t : τ),
        r.scan_void (.object []) x t = (Outcome.out_of_range "No matching key found!", t)) :=
  ⟨fun _ _ _ => rfl, fun _ _ _ => rfl⟩

end Generic_resolver

/-! ## The value at the last member of a path -/

namespace detail.Key_node

variable {F A σ R : Type}

/-- An object whose members are all dead ends: `do_scan` leaves `found` unset. -/
theorem do_scan_all_dead_ends [Callable F A σ R] [Inhabited R] (n : Key_node F)
    (ms : List (String × Json)) (fargs : A) (s : σ)
    (h : ∀ m ∈ ms, dead_end n fargs s m) :
    (do_scan n (.object ms) false fargs s : R × Bool × σ).2.1 = false := by
  rw [do_scan_object]
  have := do_scan_loop_dead_ends n ms [] false fargs s h
  rw [List.append_nil] at this
  rw [this]
  rfl

/-- One step of the loop at a member whose child is activable and whose value
is not an object, or is an object in which nothing is found: the handler of
the child is called. -/
theorem do_scan_loop_activable [Callable F A σ R] [Inhabited R] (n : Key_node F)
    (name : String) (value : Json) (rest : List (String × Json)) (child : Key_node F)
    (found : Bool) (fargs : A) (s : σ)
    (hc : Umap.find name n.children_ = some child) (ha : child.activable_ = true)
    (hv : value.IsObject = false ∨
      (do_scan child value false fargs s : R × Bool × σ).2.1 = false) :
    do_scan_loop n ((name, value) :: rest) found fargs s =
      ((Callable.call child.func_ fargs s).1, true, (Callable.call child.func_ fargs s).2) := by
  rw [do_scan_loop]
  simp only [hc]
  by_cases ho : value.IsObject = true
  · have hf : (do_scan child value false fargs s : R × Bool × σ).2.1 = false := by
      rcases hv with hv | hv
      · rw [hv] at ho
        cases ho
      · exact hv
    have hst := do_scan_not_found child value fargs s hf
    simp only [ho, if_true, hf, Bool.false_eq_true, if_false, ha, hst]
  · simp [ho, ha]

/-- The value-returning `do_scan` on a single chain of members down to a node
that is activable, around a value that is not an object or in which nothing
is found from that node: the handler of that node is called. -/
theorem do_scan_chain_exact [Callable F A σ R] [Inhabited R] (n : Key_node F)
    (path : List String) (hne : path ≠ []) (v : Json) (c : Key_node F) (found : Bool)
    (fargs : A) (s : σ)
    (hnode : node_at n path = some c) (ha : c.activable_ = true)
    (hv : v.IsObject = false ∨ (do_scan c v false fargs s : R × Bool × σ).2.1 = false) :
    do_scan n (chain path v) found fargs s =
      ((Callable.call c.func_ fargs s).1, true, (Callable.call c.func_ fargs s).2) := by
  induction path generalizing n found with
  | nil => exact absurd rfl hne
  | cons seg rest ih =>
    rw [node_at] at hnode
    cases hc : Umap.find seg n.children_ with
    | none => simp [hc] at hnode
    | some c1 =>
      simp only [hc] at hnode
      rw [chain, do_scan_object]
      cases rest with
      | nil =>
        simp only [node_at, Option.some.injEq] at hnode
        subst hnode
        exact do_scan_loop_activable n seg v [] c1 found fargs s hc ha hv
      | cons seg2 rest2 =>
        have hrec := ih c1 (by simp) false hnode
        rw [do_scan_loop]
        simp only [hc, chain_cons_isObject, if_true, hrec]

end detail.Key_node

namespace Generic_resolver

variable {F A σ R G B τ : Type}

/-- The node at a path with a bound handler. -/
theorem node_of_bound (n : Key_node F) (path : List String) (f : F)
    (h : Key_node.bound n path = some f) :
    ∃ c, Key_node.node_at n path = some c ∧ c.activable_ = true ∧ c.func_ = f := by
  unfold Key_node.bound at h
  cases hn : Key_node.node_at n path with
  | none => simp [hn] at h
  | some c =>
    simp only [hn] at h
    by_cases ha : c.activable_ = true
    · simp only [ha, if_true, Option.some.injEq] at h
      exact ⟨c, rfl, ha, h⟩
    · simp [ha] at h

/-- C13. The handler of a path matches whatever value sits at its last member.
At any trie node, after dead ends, a member whose child is activable has the
handler of that child called when its value is not an object, is the empty
object, is an object whose members are all dead ends, or in general is an
object in which the recursive `do_scan` finds nothing. On a resolver built by
`add` calls, scanning the chain document of a registered path `P` around such
a value calls the handler registered for `P`. The first example of
`resolver_example.cpp` (`{"vehicle":{"car":{}}}`) returns 40. -/
theorem scan_matches_any_last_value [Inhabited F] [Callable F A σ R] [Inhabited R] :
    (∀ (n : Key_node F) (pre post : List (String × Json)) (name : String) (value : Json)
        (child : Key_node F) (found : Bool) (x : A) (s : σ),
        (∀ m ∈ pre, Key_node.dead_end n x s m) →
        Umap.find name n.children_ = some child → child.activable_ = true →
        (value.IsObject = false ∨ value = .object [] ∨
          (∃ ms, value = .object ms ∧ ∀ m ∈ ms, Key_node.dead_end child x s m) ∨
          (Key_node.do_scan child value false x s : R × Bool × σ).2.1 = false) →
        Key_node.do_scan n (.object (pre ++ (name, value) :: post)) found x s =
            ((Callable.call child.func_ x s).1, true, (Callable.call child.func_ x s).2) ∧
          Key_node.scan n (.object (pre ++ (name, value) :: post)) x s =
            (Outcome.returned (Callable.call child.func_ x s).1,
              (Callable.call child.func_ x s).2)) ∧
    (∀ (adds : List (Key × F)) (P : Key) (f : F) (v : Json) (x : A) (s : σ),
        registered adds P.Args = some f →
        (v.IsObject = false ∨ v = .object [] ∨
          ∃ ms, v = .object ms ∧ ∀ c, Key_node.node_at (build adds).root_ P.Args = some c →
            ∀ m ∈ ms, Key_node.dead_end c x s m) →
        (build adds).scan (chain P.Args v) x s =
          (Outcome.returned (Callable.call f x s).1, (Callable.call f x s).2)) ∧
    ((((empty.add ⟨"vehicle", ["car"]⟩ (fun (price : Int) (s : Unit) => (price * 4, s))).add
          ⟨"vehicle", ["bike"]⟩ (fun price s => (price * 2, s))).scan
        (.object [("vehicle", .object [("car", .object [])])]) (10 : Int) () =
      (Outcome.returned (40 : Int), ())) ∧
    (((empty.add ⟨"vehicle", ["car"]⟩ (fun (price : Int) (s : Unit) => (price * 4, s))).add
          ⟨"vehicle", ["bike"]⟩ (fun price s => (price * 2, s))).scan
        (.object [("vehicle", .object [("car", .number 7)])]) (10 : Int) () =
      (Outcome.returned (40 : Int), ())) ∧
    (((empty.add ⟨"vehicle", ["car"]⟩ (fun (price : Int) (s : Unit) => (price * 4, s))).add
          ⟨"vehicle", ["bike"]⟩ (fun price s => (price * 2, s))).scan
        (.object [("vehicle", .object [("car", .object [("wheels", .number 4)])])])
        (10 : Int) () =
      (Outcome.returned (40 : Int), ()))) := by
  refine ⟨?_, ?_, by decide, by decide, by decide⟩
  · intro n pre post name value child found x s hpre hc ha hv
    have hv' : value.IsObject = false ∨
        (Key_node.do_scan child value false x s : R × Bool × σ).2.1 = false := by
      rcases hv with hv | hv | ⟨ms, rfl, hms⟩ | hv
      · exact Or.inl hv
      · subst hv
        exact Or.inr rfl
      · exact Or.inr (Key_node.do_scan_all_dead_ends child ms x s hms)
      · exact Or.inr hv
    have key : ∀ fd, (Key_node.do_scan n (.object (pre ++ (name, value) :: post)) fd x s
        : R × Bool × σ) =
        ((Callable.call child.func_ x s).1, true, (Callable.call child.func_ x s).2) := by
      intro fd
      rw [Key_node.do_scan_object, Key_node.do_scan_loop_dead_ends n pre _ fd x s hpre]
      exact Key_node.do_scan_loop_activable n name value post child fd x s hc ha hv'
    refine ⟨key found, ?_⟩
    rw [Key_node.scan_object, key false]
    rfl
  · intro adds P f v x s hreg hv
    rw [← bound_build] at hreg
    obtain ⟨c, hnode, ha, hf⟩ := node_of_bound _ _ _ hreg
    have hv' : v.IsObject = false ∨
        (Key_node.do_scan c v false x s : R × Bool × σ).2.1 = false := by
      rcases hv with hv | hv | ⟨ms, rfl, hms⟩
      · exact Or.inl hv
      · subst hv
        exact Or.inr rfl
      · exact Or.inr (Key_node.do_scan_all_dead_ends c ms x s (hms c hnode))
    have hchain := Key_node.do_scan_chain_exact (build adds).root_ P.Args
      (by simp [Key.Args]) v c false x s hnode ha hv'
    unfold scan
    rw [Key.Args, chain] at hchain ⊢
    rw [Key_node.scan_object, hchain, hf]
    rfl

/-- Witness of C13: `car_json` of `resolver_example.cpp`, at the root of the
resolver: the member `vehicle` leads to the activable child `car` through an
object, and `car` holds the empty object. -/
theorem scan_matches_any_last_value_witness :
    (build [((⟨"vehicle", ["car"]⟩ : Key), fun (price : Int) (s : Unit) => (price * 4, s))]).scan
        (chain ["vehicle", "car"] (.object [])) (10 : Int) () =
      (Outcome.returned (40 : Int), ()) :=
  (@scan_matches_any_last_value (Int → Unit → Int × Unit) Int Unit Int _ _ _).2.1
    [((⟨"vehicle", ["car"]⟩ : Key), fun (price : Int) (s : Unit) => (price * 4, s))]
    ⟨"vehicle", ["car"]⟩ (fun price s => (price * 4, s)) (.object []) 10 () rfl
    (Or.inr (Or.inl rfl))

end Generic_resolver

/-! ## The text entry point -/

namespace detail.Key_node

variable {F A σ R : Type}

theorem scan_ne_runtime_error [Callable F A σ R] [Inhabited R] (n : Key_node F) (doc : Json)
    (fargs : A) (s : σ) (what : String) :
    (n.scan doc fargs s).1 ≠ Outcome.runtime_error what := by
  cases doc with
  | object ms =>
    rw [scan_object]
    by_cases h : (do_scan n (.object ms) false fargs s : R × Bool × σ).2.1 = true <;> simp [h]
  | _ => simp [scan]

theorem scan_void_ne_runtime_error [Callable F A σ Unit] (n : Key_node F) (doc : Json)
    (fargs : A) (s : σ) (what : String) :
    (n.scan_void doc fargs s).1 ≠ Outcome.runtime_error what := by
  cases doc with
  | object ms =>
    rw [scan_void_object]
    by_cases h : (do_scan_void n (.object ms) false fargs s).1 = true <;> simp [h]
  | _ => simp [scan_void]

end detail.Key_node

namespace Generic_resolver

variable {F A σ R G B τ : Type}

/-- C16. The text entry point throws `std::runtime_error` if and only if the
document that the parser leaves is not an object; it then throws, with the
text in the message, whatever the trie is, and leaves the state as it was (the
trie is not consulted and no handler runs). Otherwise it does what `scan` does
on the parsed document. `std::runtime_error` is not the `std::out_of_range` of
a scan without match. For both overloads of `scan`. -/
theorem scan_text_parse_failure_iff [Callable F A σ R] [Inhabited R] [Callable G B τ Unit] :
    (∀ (Parse : String → Json) (r : Generic_resolver F) (str : String) (x : A) (s : σ),
        ((∃ what, (r.scan_text Parse str x s).1 = Outcome.runtime_error what) ↔
          (Parse str).IsObject = false) ∧
        ((Parse str).IsObject = false →
          ∀ r' : Generic_resolver F, r'.scan_text Parse str x s =
            (Outcome.runtime_error ("Cannot parse string as json: " ++ str), s)) ∧
        ((Parse str).IsObject = true →
          r.scan_text Parse str x s = r.scan (Parse str) x s)) ∧
    (∀ (Parse : String → Json) (r : Generic_resolver G) (str : String) (x : B) (t : τ),
        ((∃ what, (r.scan_text_void Parse str x t).1 = Outcome.runtime_error what) ↔
          (Parse str).IsObject = false) ∧
        ((Parse str).IsObject = false →
          ∀ r' : Generic_resolver G, r'.scan_text_void Parse str x t =
            (Outcome.runtime_error ("Cannot parse string as json: " ++ str), t)) ∧
        ((Parse str).IsObject = true →
          r.scan_text_void Parse str x t = r.scan_void (Parse str) x t)) ∧
    (∀ what what' : String,
        (Outcome.runtime_error what : Outcome R) ≠ Outcome.out_of_range what') := by
  refine ⟨?_, ?_, ?_⟩
  · intro Parse r str x s
    refine ⟨?_, ?_, ?_⟩
    · constructor
      · rintro ⟨what, h⟩
        by_cases ho : (Parse str).IsObject = true
        · unfold scan_text at h
          simp only [ho, Bool.not_true, Bool.false_eq_true, if_false] at h
          exact absurd h (Key_node.scan_ne_runtime_error _ _ _ _ _)
        · simpa using ho
      · intro ho
        exact ⟨"Cannot parse string as json: " ++ str, by simp [scan_text, ho]⟩
    · intro ho r'
      simp [scan_text, ho]
    · intro ho
      simp [scan_text, ho]
  · intro Parse r str x t
    refine ⟨?_, ?_, ?_⟩
    · constructor
      · rintro ⟨what, h⟩
        by_cases ho : (Parse str).IsObject = true
        · unfold scan_text_void at h
          simp only [ho, Bool.not_true, Bool.false_eq_true, if_false] at h
          exact absurd h (Key_node.scan_void_ne_runtime_error _ _ _ _ _)
        · simpa using ho
      · intro ho
        exact ⟨"Cannot parse string as json: " ++ str, by simp [scan_text_void, ho]⟩
    · intro ho r'
      simp [scan_text_void, ho]
    · intro ho
      simp [scan_text_void, ho]
  · intro what what' h
    cases h

/-- Witness of C16: a parser that leaves a null document on the text `"[1]"`. -/
theorem scan_text_parse_failure_iff_witness :
    (empty.add_default ⟨"name_0", ["name_1"]⟩ : Generic_resolver Work).scan_text
        (fun _ => Json.null) "[1]" (4 : Int) () =
      (Outcome.runtime_error ("Cannot parse string as json: " ++ "[1]"), ()) :=
  ((@scan_text_parse_failure_iff Work Int Unit Int (Work → Unit → Unit × Unit) Work Unit
      _ _ _).1 (fun _ => Json.null) empty "[1]" 4 ()).2.1 rfl
    (empty.add_default ⟨"name_0", ["name_1"]⟩)

end Generic_resolver

/-! ## The trie invariant and the frame of `add` -/

namespace detail.Key_node

variable {F A σ R : Type}

theorem flags_eq_some_iff (n : Key_node F) (path : List String) (x : Bool × F) :
    flags n path = some x ↔
      ∃ c, node_at n path = some c ∧ c.activable_ = x.1 ∧ c.func_ = x.2 := by
  unfold flags
  cases node_at n path with
  | none => simp
  | some c =>
    obtain ⟨b, f⟩ := x
    simp [Prod.ext_iff]

theorem flags_isSome (n : Key_node F) (path : List String) :
    (flags n path).isSome = (node_at n path).isSome := by
  unfold flags
  cases node_at n path <;> rfl

end detail.Key_node

namespace Generic_resolver

variable {F A σ R G B τ : Type}

theorem build_append [Inhabited F] (adds : List (Key × F)) (a : Key × F) :
    build (adds ++ [a]) = (build adds).add a.1 a.2 := by
  unfold build
  rw [List.foldl_append]
  rfl

theorem registered_append (adds : List (Key × F)) (a : Key × F) (path : List String) :
    registered (adds ++ [a]) path =
      if a.1.Args = path then some a.2 else registered adds path := by
  unfold registered
  rw [List.foldl_append]
  rfl

/-- The flag and handler at every path of a resolver built by `add` calls. -/
theorem flags_build [Inhabited F] (adds : List (Key × F)) (path : List String) :
    Key_node.flags (build adds).root_ path =
      if path = [] then some (false, default)
      else match registered adds path with
        | some f => some (true, f)
        | none => if ∃ a ∈ adds, path <+: a.1.Args then some (false, default) else none := by
  induction adds using List.reverseRecOn generalizing path with
  | nil =>
    have : (build ([] : List (Key × F))).root_ = Key_node.new := rfl
    rw [this, Key_node.flags_new]
    by_cases h : path = []
    · simp [h]
    · simp [h, registered]
  | append_singleton adds a ih =>
    rw [build_append, registered_append]
    show Key_node.flags (Key_node.add (build adds).root_ a.1.T a.1.Ts a.2) path = _
    rw [Key_node.flags_add, ih]
    by_cases h0 : path = []
    · subst h0
      simp [Key.Args]
    · by_cases hP : path = a.1.T :: a.1.Ts
      · have hP' : a.1.Args = path := hP.symm
        simp [h0, hP, hP']
      · have hP' : ¬ a.1.Args = path := fun e => hP e.symm
        simp only [h0, hP, hP', if_false]
        cases hr : registered adds path with
        | some g => rfl
        | none =>
          by_cases hex : ∃ a' ∈ adds, path <+: a'.1.Args
          · have hex' : ∃ a' ∈ adds ++ [a], path <+: a'.1.Args := by
              obtain ⟨a', ha', hp⟩ := hex
              exact ⟨a', List.mem_append_left _ ha', hp⟩
            simp only [hex, hex', if_true]
          · by_cases hpa : path <+: a.1.T :: a.1.Ts
            · have hex' : ∃ a' ∈ adds ++ [a], path <+: a'.1.Args :=
                ⟨a, by simp, hpa⟩
              simp only [hex, hex', hpa, if_true, if_false]
            · have hex' : ¬ ∃ a' ∈ adds ++ [a], path <+: a'.1.Args := by
                rintro ⟨a', ha', hp⟩
                rw [List.mem_append, List.mem_singleton] at ha'
                rcases ha' with ha' | rfl
                · exact hex ⟨a', ha', hp⟩
                · exact hpa hp
              simp only [hex, hex', hpa, if_false]

/-- C17. Trie invariant: in a resolver built from the empty one by `add`
calls the root is not activable; a node exists at a non-empty path exactly when
the path is a prefix of an added path; that node is activable exactly when the
path itself was added, and then holds the handler registered last for it;
nodes created only on the way to longer paths are not activable. -/
theorem trie_invariant [Inhabited F] (adds : List (Key × F)) :
    (build adds).root_.activable_ = false ∧
    ∀ path, path ≠ [] →
      ((Key_node.node_at (build adds).root_ path).isSome = true ↔
        ∃ a ∈ adds, path <+: a.1.Args) ∧
      (∀ c, Key_node.node_at (build adds).root_ path = some c →
        (c.activable_ = true ↔ ∃ a ∈ adds, a.1.Args = path) ∧
        (c.activable_ = true → registered adds path = some c.func_) ∧
        ((∀ a ∈ adds, a.1.Args ≠ path) → c.activable_ = false)) := by
  constructor
  · have h := flags_build adds []
    rw [if_pos rfl, Key_node.flags_eq_some_iff] at h
    obtain ⟨c, hc, ha, _⟩ := h
    simp only [Key_node.node_at, Option.some.injEq] at hc
    subst hc
    exact ha
  · intro path hne
    have h := flags_build adds path
    rw [if_neg hne] at h
    have hreg : (∃ a ∈ adds, a.1.Args = path) ↔ registered adds path ≠ none := by
      rw [Ne, registered_eq_none]
      constructor
      · rintro ⟨a, ha, e⟩ hall
        exact hall a ha e
      · intro hn
        by_contra hcon
        exact hn (fun a ha e => hcon ⟨a, ha, e⟩)
    have hpre : (∃ a ∈ adds, a.1.Args = path) → ∃ a ∈ adds, path <+: a.1.Args := by
      rintro ⟨a, ha, e⟩
      exact ⟨a, ha, by rw [e]⟩
    constructor
    · rw [← Key_node.flags_isSome, h]
      cases hr : registered adds path with
      | some f =>
        have : ∃ a ∈ adds, a.1.Args = path := hreg.2 (by rw [hr]; simp)
        simp [hpre this]
      | none =>
        by_cases hex : ∃ a ∈ adds, path <+: a.1.Args
        · simp only [hex, if_true, Option.isSome_some, true_iff]
        · simp only [hex, if_false, Option.isSome_none, Bool.false_eq_true]
    · intro c hc
      have hfl : Key_node.flags (build adds).root_ path = some (c.activable_, c.func_) := by
        rw [Key_node.flags_eq_some_iff]
        exact ⟨c, hc, rfl, rfl⟩
      rw [hfl] at h
      cases hr : registered adds path with
      | some f =>
        rw [hr] at h
        simp only [Option.some.injEq, Prod.mk.injEq] at h
        have hex : ∃ a ∈ adds, a.1.Args = path := hreg.2 (by rw [hr]; simp)
        refine ⟨⟨fun _ => hex, fun _ => h.1⟩, fun _ => by rw [h.2], ?_⟩
        intro hall
        obtain ⟨a, ha, e⟩ := hex
        exact absurd e (hall a ha)
      | none =>
        rw [hr] at h
        have hnex : ¬ ∃ a ∈ adds, a.1.Args = path := by
          rw [hreg, hr]
          simp
        by_cases hex : ∃ a ∈ adds, path <+: a.1.Args
        · simp only [hex, if_true, Option.some.injEq, Prod.mk.injEq] at h
          refine ⟨⟨fun ha => ?_, fun he => absurd he hnex⟩, fun ha => ?_, fun _ => h.1⟩
          · rw [h.1] at ha
            cases ha
          · rw [h.1] at ha
            cases ha
        · simp [hex] at h

/-- Witness of C17: after `add([a, b])` and `add([a, b, c])` the node at `[a]`
exists. -/
theorem trie_invariant_witness :
    (Key_node.node_at (build [((⟨"a", ["b"]⟩ : Key), (default : Work)),
        (⟨"a", ["b", "c"]⟩, default)]).root_ ["a"]).isSome = true ↔
      ∃ a ∈ [((⟨"a", ["b"]⟩ : Key), (default : Work)), (⟨"a", ["b", "c"]⟩, default)],
        ["a"] <+: a.1.Args :=
  ((trie_invariant [((⟨"a", ["b"]⟩ : Key), (default : Work)),
    (⟨"a", ["b", "c"]⟩, default)]).2 ["a"] (by decide)).1

/-- C18. `add(P, h)` is append-only and local: every node that existed still
exists; at every path other than `P` a node that existed keeps its flag and its
handler; and `invoke(Q)` for every key `Q` other than `P` gives the same
outcome and state after the registration as before, also when `Q` is a prefix
or an extension of `P`. -/
theorem add_is_local [Inhabited F] [Callable F Unit σ R] (t : Generic_resolver F) (P : Key)
    (h : F) :
    (∀ path, (Key_node.node_at t.root_ path).isSome = true →
      (Key_node.node_at (t.add P h).root_ path).isSome = true) ∧
    (∀ path, path ≠ P.Args → ∀ c, Key_node.node_at t.root_ path = some c →
      ∃ c', Key_node.node_at (t.add P h).root_ path = some c' ∧
        c'.activable_ = c.activable_ ∧ c'.func_ = c.func_) ∧
    (∀ (Q : Key) (s : σ), Q ≠ P →
      (t.add P h).invoke Q [] () s = t.invoke Q [] () s) := by
  have hfl : ∀ path, Key_node.flags (t.add P h).root_ path =
      if path = P.T :: P.Ts then some (true, h)
      else match Key_node.flags t.root_ path with
        | some x => some x
        | none => if path <+: P.T :: P.Ts then some (false, default) else none := by
    intro path
    show Key_node.flags (Key_node.add t.root_ P.T P.Ts h) path = _
    rw [Key_node.flags_add]
  refine ⟨?_, ?_, ?_⟩
  · intro path hs
    rw [← Key_node.flags_isSome] at hs ⊢
    rw [hfl]
    by_cases e : path = P.T :: P.Ts
    · rw [if_pos e]
      rfl
    · rw [if_neg e]
      cases hf : Key_node.flags t.root_ path with
      | some x => rfl
      | none =>
        rw [hf] at hs
        cases hs
  · intro path hne c hc
    have e : ¬ path = P.T :: P.Ts := hne
    have hf : Key_node.flags t.root_ path = some (c.activable_, c.func_) := by
      rw [Key_node.flags_eq_some_iff]
      exact ⟨c, hc, rfl, rfl⟩
    have := hfl path
    rw [if_neg e, hf] at this
    rw [Key_node.flags_eq_some_iff] at this
    exact this
  · intro Q s hQ
    rw [invoke_nil, invoke_nil, Key_node.invoke_eq, Key_node.invoke_eq]
    have : Key_node.bound (t.add P h).root_ (Q.T :: Q.Ts) =
        Key_node.bound t.root_ (Q.T :: Q.Ts) := by
      rw [bound_add_root, if_neg]
      intro e
      exact hQ ((Key.Args_inj _ _).1 e).symm
    rw [this]

/-- Witness of C18: `TEST(RESOLVER, BEST_MATCH)`; after `add(key_012)`, adding
the prefix `key_01` leaves `invoke(key_012)` as it was. -/
theorem add_is_local_witness :
    (((empty.add ⟨"name_0", ["name_1", "name_2"]⟩ (fun (_ : Unit) (c : Nat) => ((), c + 2))).add
        ⟨"name_0", ["name_1"]⟩ (fun _ c => ((), c + 1))).invoke
        ⟨"name_0", ["name_1", "name_2"]⟩ [] () 0 : Outcome Unit × Nat) =
      (empty.add ⟨"name_0", ["name_1", "name_2"]⟩ (fun (_ : Unit) (c : Nat) => ((), c + 2))).invoke
        ⟨"name_0", ["name_1", "name_2"]⟩ [] () 0 :=
  (add_is_local
    (empty.add ⟨"name_0", ["name_1", "name_2"]⟩ (fun (_ : Unit) (c : Nat) => ((), c + 2)))
    ⟨"name_0", ["name_1"]⟩ (fun _ c => ((), c + 1))).2.2
    ⟨"name_0", ["name_1", "name_2"]⟩ 0 (by decide)

end Generic_resolver

/-! ## Values that are not objects -/

theorem Json.skeleton_object (ms : List (String × Json)) :
    (Json.object ms).skeleton = .object (Json.skeleton_members ms) := by
  rw [Json.skeleton]

theorem Json.skeleton_of_not_object (v : Json) (h : v.IsObject = false) :
    v.skeleton = .null := by
  cases v with
  | object ms => simp [Json.IsObject] at h
  | null => simp [Json.skeleton]
  | bool b => simp [Json.skeleton]
  | number i => simp [Json.skeleton]
  | string str => simp [Json.skeleton]
  | array elems => simp [Json.skeleton]

theorem Json.skeleton_isObject (v : Json) : v.skeleton.IsObject = v.IsObject := by
  cases v with
  | object ms => rw [Json.skeleton_object]; rfl
  | null => simp [Json.skeleton, Json.IsObject]
  | bool b => simp [Json.skeleton, Json.IsObject]
  | number i => simp [Json.skeleton, Json.IsObject]
  | string str => simp [Json.skeleton, Json.IsObject]
  | array elems => simp [Json.skeleton, Json.IsObject]

theorem Json.skeleton_members_cons (name : String) (value : Json)
    (rest : List (String × Json)) :
    Json.skeleton_members ((name, value) :: rest) =
      (name, value.skeleton) :: Json.skeleton_members rest := by
  rw [Json.skeleton_members]

theorem Json.skeleton_members_append (pre post : List (String × Json)) :
    Json.skeleton_members (pre ++ post) =
      Json.skeleton_members pre ++ Json.skeleton_members post := by
  induction pre with
  | nil => simp [Json.skeleton_members]
  | cons m pre ih =>
    obtain ⟨name, value⟩ := m
    rw [List.cons_append, Json.skeleton_members_cons, Json.skeleton_members_cons, ih,
      List.cons_append]

namespace detail.Key_node

variable {F A σ R : Type}

/-- The value-returning `do_scan` sees of a document only its skeleton: the
objects and the member names. -/
theorem do_scan_loop_skeleton [Callable F A σ R] [Inhabited R] (n : Key_node F)
    (ms : List (String × Json)) (found : Bool) (fargs : A) (s : σ) :
    do_scan_loop n ms found fargs s =
      do_scan_loop n (Json.skeleton_members ms) found fargs s := by
  induction ms using Json.members_induction generalizing n found s with
  | nil => simp [Json.skeleton_members]
  | cons name value rest ihv ihr =>
    rw [Json.skeleton_members_cons, do_scan_loop, do_scan_loop]
    cases hc : Umap.find name n.children_ with
    | none =>
      simp only [hc]
      exact ihr n found s
    | some child =>
      simp only [hc, Json.skeleton_isObject]
      by_cases ho : value.IsObject = true
      · obtain ⟨ms, rfl⟩ := (Json.isObject_iff value).1 ho
        simp only [Json.IsObject, if_true, Json.skeleton_object, do_scan_object]
        rw [← ihv ms rfl child false s]
        by_cases hf : (do_scan_loop child ms false fargs s : R × Bool × σ).2.1 = true
        · simp [hf]
        · by_cases ha : child.activable_ = true
          · simp [hf, ha]
          · simp only [hf, ha, Bool.false_eq_true, if_false]
            exact ihr n found _
      · by_cases ha : child.activable_ = true
        · simp [ho, ha]
        · simp only [ho, ha, Bool.false_eq_true, if_false]
          exact ihr n found s

theorem do_scan_skeleton [Callable F A σ R] [Inhabited R] (n : Key_node F) (doc : Json)
    (found : Bool) (fargs : A) (s : σ) :
    do_scan n doc found fargs s = do_scan n doc.skeleton found fargs s := by
  cases doc with
  | object ms =>
    rw [Json.skeleton_object, do_scan_object, do_scan_object]
    exact do_scan_loop_skeleton n ms found fargs s
  | null => simp [do_scan, Json.skeleton]
  | bool b => simp [do_scan, Json.skeleton]
  | number i => simp [do_scan, Json.skeleton]
  | string str => simp [do_scan, Json.skeleton]
  | array elems => simp [do_scan, Json.skeleton]

end detail.Key_node

namespace Generic_resolver

variable {F A σ R G B τ : Type}

/-- C19. No array traversal: the value-returning `do_scan` and `scan` (at any
trie node) give the same result on two documents that have the same objects and
member names and differ only in what is not an object; in particular a member
value that is not an object can be replaced by any other value that is not an
object. With a handler only at `[a, b]`, scanning `{a:[{b:0}]}` gives no match. -/
theorem scan_ignores_non_objects [Inhabited F] [Callable F A σ R] [Inhabited R] :
    (∀ (n : Key_node F) (D D' : Json) (found : Bool) (x : A) (s : σ),
        D.skeleton = D'.skeleton →
        (Key_node.do_scan n D found x s : R × Bool × σ) = Key_node.do_scan n D' found x s ∧
          (Key_node.scan n D x s : Outcome R × σ) = Key_node.scan n D' x s) ∧
    (∀ (n : Key_node F) (pre post : List (String × Json)) (name : String) (v v' : Json)
        (found : Bool) (x : A) (s : σ),
        v.IsObject = false → v'.IsObject = false →
        (Key_node.do_scan n (.object (pre ++ (name, v) :: post)) found x s : R × Bool × σ) =
            Key_node.do_scan n (.object (pre ++ (name, v') :: post)) found x s ∧
          (Key_node.scan n (.object (pre ++ (name, v) :: post)) x s : Outcome R × σ) =
            Key_node.scan n (.object (pre ++ (name, v') :: post)) x s) ∧
    (∀ (h : F) (x : A) (s : σ),
        (build [(⟨"a", ["b"]⟩, h)]).scan
            (.object [("a", .array [.object [("b", .number 0)]])]) x s =
          ((Outcome.out_of_range "No matching key found!" : Outcome R), s)) := by
  have key : ∀ (n : Key_node F) (D D' : Json) (found : Bool) (x : A) (s : σ),
      D.skeleton = D'.skeleton →
      (Key_node.do_scan n D found x s : R × Bool × σ) = Key_node.do_scan n D' found x s ∧
        (Key_node.scan n D x s : Outcome R × σ) = Key_node.scan n D' x s := by
    intro n D D' found x s h
    have hd : ∀ fd, (Key_node.do_scan n D fd x s : R × Bool × σ) =
        Key_node.do_scan n D' fd x s := by
      intro fd
      rw [Key_node.do_scan_skeleton n D, Key_node.do_scan_skeleton n D', h]
    refine ⟨hd found, ?_⟩
    cases D with
    | object ms =>
      cases D' with
      | object ms' => rw [Key_node.scan_object, Key_node.scan_object, hd false]
      | _ => simp [Json.skeleton] at h
    | _ =>
      cases D' with
      | object ms' => simp [Json.skeleton] at h
      | _ => rfl
  refine ⟨key, ?_, ?_⟩
  · intro n pre post name v v' found x s hv hv'
    apply key
    rw [Json.skeleton_object, Json.skeleton_object, Json.skeleton_members_append,
      Json.skeleton_members_append, Json.skeleton_members_cons, Json.skeleton_members_cons,
      Json.skeleton_of_not_object v hv, Json.skeleton_of_not_object v' hv']
  · intro h x s
    rfl

/-- Witness of C19: with the doubling functor at `[a, b]`, the array under `a`
in `{a:[{b:0}]}` can be replaced by the number `0`. -/
theorem scan_ignores_non_objects_witness :
    (Key_node.scan (build [((⟨"a", ["b"]⟩ : Key), (default : Work))]).root_
        (.object ([] ++ ("a", .array [.object [("b", .number 0)]]) :: [])) (4 : Int) ()
          : Outcome Int × Unit) =
      Key_node.scan (build [((⟨"a", ["b"]⟩ : Key), (default : Work))]).root_
        (.object ([] ++ ("a", .number 0) :: [])) (4 : Int) () :=
  ((@scan_ignores_non_objects Work Int Unit Int _ _ _).2.1
    (build [((⟨"a", ["b"]⟩ : Key), (default : Work))]).root_ [] [] "a"
    (.array [.object [("b", .number 0)]]) (.number 0) false 4 () rfl rfl).2

end Generic_resolver

/-! ## Composition of keys -/

theorem is_all_tags_map_tag_arg (names : List String) :
    is_all_tags (names.map tag_arg) = true := by
  induction names with
  | nil => rfl
  | cons a l ih =>
    simp only [is_all_tags, List.map_cons, List.all_cons, Bool.and_eq_true] at ih ⊢
    exact ⟨rfl, ih⟩

theorem checked_pack_map_tag_arg (names : List String) :
    checked_pack (names.map tag_arg) = some (names.map tag_arg) := by
  unfold checked_pack
  rw [is_all_tags_map_tag_arg]
  rfl

/-- A flat key of tags names the pack of its tags. -/
theorem Key_Args_flat (names : List String) :
    Key_Args (names.map tag_arg) = some (names.map tag_arg) := by
  have h := checked_pack_map_tag_arg names
  cases names with
  | nil => exact h
  | cons a l =>
    cases l with
    | nil => exact h
    | cons b l =>
      cases l with
      | nil => exact h
      | cons c l => exact h

theorem TArg.Args_flat_key (names : List String) :
    TArg.Args (flat_key names) = some (names.map tag_arg) := by
  unfold flat_key
  rw [TArg.Args]
  exact Key_Args_flat names

theorem TArg.Args_key_tag (names : List String) (t : String) :
    TArg.Args (.key [flat_key names, tag_arg t]) = some ((names ++ [t]).map tag_arg) := by
  rw [TArg.Args]
  unfold flat_key tag_arg
  rw [Key_Args]
  have h1 := TArg.Args_flat_key names
  unfold flat_key tag_arg at h1
  rw [h1]
  simp only [TArg.type]
  have h2 := checked_pack_map_tag_arg (names ++ [t])
  simp only [List.map_append, List.map_cons, List.map_nil] at h2 ⊢
  exact h2

theorem TArg.Args_tag_key (names : List String) (t : String) :
    TArg.Args (.key [tag_arg t, flat_key names]) = some ((t :: names).map tag_arg) := by
  rw [TArg.Args]
  unfold flat_key tag_arg
  rw [Key_Args]
  have h1 := TArg.Args_flat_key names
  unfold flat_key tag_arg at h1
  rw [h1]
  simp only [TArg.type]
  exact checked_pack_map_tag_arg (t :: names)

theorem TArg.Args_key_key (as bs : List String) :
    TArg.Args (.key [flat_key as, flat_key bs]) = some ((as ++ bs).map tag_arg) := by
  rw [TArg.Args]
  unfold flat_key
  rw [Key_Args, List.map_append]

/-- Appending a tag to any key whose `Args` are tags. -/
theorem TArg.Args_append_tag (k : List TArg) (names : List String) (t : String)
    (h : TArg.Args (.key k) = some (names.map tag_arg)) :
    TArg.Args (.key [.key k, tag_arg t]) = some ((names ++ [t]).map tag_arg) := by
  rw [TArg.Args]
  unfold tag_arg
  rw [Key_Args, h]
  simp only [TArg.type]
  have h2 := checked_pack_map_tag_arg (names ++ [t])
  simp only [List.map_append, List.map_cons, List.map_nil] at h2 ⊢
  exact h2

/-- The sum of a key whose `Args` are tags and a tag object. -/
theorem TArg.plus_key_tag (k : List TArg) (names : List String) (t : String)
    (h : TArg.Args (.key k) = some (names.map tag_arg)) :
    TArg.plus (.key k) (tag_arg t) = some (.key [.key k, tag_arg t]) := by
  have h2 := TArg.Args_append_tag k names t h
  unfold tag_arg at h2
  simp only [TArg.plus, tag_arg, TArg.type, h2, Option.isSome_some, if_true]

/-- C20. Key composition is concatenation. For flat keys `K1 = Key<a1..an>` and
`K2 = Key<b1..bm>` of tags and a tag `t`: a flat key has its tags as `Args`;
`Key<K1, t>::Args`, `Key<t, K1>::Args` and `Key<K1, K2>::Args` are
`[a1..an, t]`, `[t, a1..an]` and `[a1..an, b1..bm]`; the sums `K1 + t`,
`t + K1`, `K1 + K2` and the chained `K2 + t1 + t2` are well-formed and have the
same `Args` as the flat key with those tags in that order. The last four
lines are the comparisons of `TEST(KEY, TYPE_COMPOSITION)` and of the
assorted case of `TEST(KEY, OBJECT_COMPOSITION)`. -/
theorem key_composition_is_concatenation (as bs : List String) (t t1 t2 : String) :
    TArg.Args (flat_key as) = some (as.map tag_arg) ∧
    TArg.Args (.key [flat_key as, tag_arg t]) = TArg.Args (flat_key (as ++ [t])) ∧
    TArg.Args (.key [tag_arg t, flat_key as]) = TArg.Args (flat_key (t :: as)) ∧
    TArg.Args (.key [flat_key as, flat_key bs]) = TArg.Args (flat_key (as ++ bs)) ∧
    (TArg.plus (flat_key as) (tag_arg t)).bind TArg.Args = TArg.Args (flat_key (as ++ [t])) ∧
    (TArg.plus (tag_arg t) (flat_key as)).bind TArg.Args = TArg.Args (flat_key (t :: as)) ∧
    (TArg.plus (flat_key as) (flat_key bs)).bind TArg.Args =
      TArg.Args (flat_key (as ++ bs)) ∧
    ((TArg.plus (flat_key bs) (tag_arg t1)).bind (fun k => TArg.plus k (tag_arg t2))).bind
        TArg.Args = TArg.Args (flat_key (bs ++ [t1, t2])) ∧
    TArg.Args (.key [flat_key ["size", "color"], tag_arg "version"]) =
      TArg.Args (flat_key ["size", "color", "version"]) ∧
    TArg.Args (.key [tag_arg "version", flat_key ["size", "color"]]) =
      TArg.Args (flat_key ["version", "size", "color"]) ∧
    TArg.Args (.key [flat_key ["size", "color"], flat_key ["version"]]) =
      TArg.Args (flat_key ["size", "color", "version"]) ∧
    ((TArg.plus (flat_key ["version"]) (tag_arg "size")).bind
        (fun k => TArg.plus k (tag_arg "color"))).bind TArg.Args =
      TArg.Args (flat_key ["version", "size", "color"]) := by
  refine ⟨TArg.Args_flat_key as, ?_, ?_, ?_, ?_, ?_, ?_, ?_, rfl, rfl, rfl, rfl⟩
  · rw [TArg.Args_key_tag, TArg.Args_flat_key]
  · rw [TArg.Args_tag_key, TArg.Args_flat_key]
  · rw [TArg.Args_key_key, TArg.Args_flat_key]
  · have h := TArg.Args_flat_key as
    unfold flat_key at h ⊢
    rw [TArg.plus_key_tag _ as t h, Option.some_bind, TArg.Args_append_tag _ as t h]
    exact (TArg.Args_flat_key (as ++ [t])).symm
  · have h := TArg.Args_tag_key as t
    have h' : TArg.Args (.key [.plain (.tag t), .key (as.map tag_arg)]) =
        some ((t :: as).map tag_arg) := h
    have hp : TArg.plus (tag_arg t) (flat_key as) = some (.key [tag_arg t, flat_key as]) := by
      simp only [TArg.plus, flat_key, tag_arg, TArg.type, h', Option.isSome_some, if_true]
    rw [hp, Option.some_bind, h, TArg.Args_flat_key]
  · have h := TArg.Args_key_key as bs
    have h' : TArg.Args (.key [.key (as.map tag_arg), .key (bs.map tag_arg)]) =
        some ((as ++ bs).map tag_arg) := h
    have hp : TArg.plus (flat_key as) (flat_key bs) =
        some (.key [flat_key as, flat_key bs]) := by
      simp only [TArg.plus, flat_key, h', Option.isSome_some, if_true]
    rw [hp, Option.some_bind, h, TArg.Args_flat_key]
  · have h := TArg.Args_flat_key bs
    unfold flat_key at h
    have h1 := TArg.Args_append_tag _ bs t1 h
    have hp1 := TArg.plus_key_tag _ bs t1 h
    have h2 := TArg.Args_append_tag _ (bs ++ [t1]) t2 h1
    have hp2 := TArg.plus_key_tag _ (bs ++ [t1]) t2 h1
    unfold flat_key
    rw [hp1, Option.some_bind, hp2, Option.some_bind, h2]
    have := TArg.Args_flat_key (bs ++ [t1, t2])
    unfold flat_key at this
    rw [this]
    simp

/-! ## Sums of composed keys, and keys handed to the resolver -/

/-- C21 (value at the failing input). For the flat keys `x = Key<a>`,
`y = Key<b>`, `z = Key<c>` the sums `(x + y) + z` and `x + (y + z)` are
well-formed, but the specialisation `Key<Key<K_1...>, Key<K_2...>>` names
`Pack<K_1..., K_2...>` from the template arguments of its operands, not from
their `Args`: the first sum has `Args = [Key<a>, Key<b>, c]`, the second
`[a, Key<b>, Key<c>]`. They differ from each other and from `[a, b, c]`, and a
resolver cannot register either (`Key<a>` has no `name()`). The sum of the
same keys by tags, `(x + b) + c`, has `Args = [a, b, c]`. -/
theorem key_sum_not_associative :
    ((TArg.plus (flat_key ["a"]) (flat_key ["b"])).bind
        (fun xy => TArg.plus xy (flat_key ["c"]))).bind TArg.Args =
      some [flat_key ["a"], flat_key ["b"], tag_arg "c"] ∧
    ((TArg.plus (flat_key ["b"]) (flat_key ["c"])).bind
        (fun yz => TArg.plus (flat_key ["a"]) yz)).bind TArg.Args =
      some [tag_arg "a", flat_key ["b"], flat_key ["c"]] ∧
    (some [flat_key ["a"], flat_key ["b"], tag_arg "c"] : Option (List TArg)) ≠
      some [tag_arg "a", flat_key ["b"], flat_key ["c"]] ∧
    (some [flat_key ["a"], flat_key ["b"], tag_arg "c"] : Option (List TArg)) ≠
      TArg.Args (flat_key ["a", "b", "c"]) ∧
    (some [tag_arg "a", flat_key ["b"], flat_key ["c"]] : Option (List TArg)) ≠
      TArg.Args (flat_key ["a", "b", "c"]) ∧
    (∀ (r : Generic_resolver Work),
      r.add_key (.key [.key [flat_key ["a"], flat_key ["b"]], flat_key ["c"]]) default = none) ∧
    ((TArg.plus (flat_key ["a"]) (tag_arg "b")).bind
        (fun xy => TArg.plus xy (tag_arg "c"))).bind TArg.Args =
      TArg.Args (flat_key ["a", "b", "c"]) := by
  refine ⟨rfl, rfl, ?_, ?_, ?_, fun _ => rfl, rfl⟩
  · simp [flat_key, tag_arg]
  · rw [TArg.Args_flat_key]
    simp [flat_key, tag_arg]
  · rw [TArg.Args_flat_key]
    simp [flat_key, tag_arg]

theorem Ty.names_map_toTy_tags (names : List String) :
    Ty.names ((names.map tag_arg).map TArg.toTy) = some names := by
  induction names with
  | nil => rfl
  | cons a l ih =>
    simp only [List.map_cons, Ty.names, tag_arg, TArg.toTy, Ty.name] at ih ⊢
    rw [ih]

namespace Generic_resolver

variable {F A σ R G B τ : Type}

/-- Registration with a key type whose `Args` are the tags `T, Ts...`. -/
theorem add_key_of_Args [Inhabited F] (r : Generic_resolver F) (k : TArg) (f : F)
    (T : String) (Ts : List String) (h : k.Args = some ((T :: Ts).map tag_arg)) :
    r.add_key k f = some (r.add ⟨T, Ts⟩ f) := by
  unfold add_key
  rw [h]
  simp only [Ty.names_map_toTy_tags]

/-- Exact invocation, without call-site arguments, with a key type whose `Args`
are the tags `T, Ts...`. -/
theorem invoke_key_of_Args [Callable F A σ R] (r : Generic_resolver F) (k : TArg)
    (T : String) (Ts : List String) (ar : A) (s : σ)
    (h : k.Args = some ((T :: Ts).map tag_arg)) :
    r.invoke_key k [] ar s = r.invoke ⟨T, Ts⟩ [] ar s := by
  unfold invoke_key
  rw [h, invoke_nil]
  simp only [List.nil_append, Ty.names_map_toTy_tags]

/-- After `add(P, f)` an exact invocation of `P` without call-site arguments
calls `f`. -/
theorem invoke_add_self [Inhabited F] [Callable F A σ R] (r : Generic_resolver F) (P : Key)
    (f : F) (ar : A) (s : σ) :
    (r.add P f).invoke P [] ar s =
      (Outcome.returned (Callable.call f ar s).1, (Callable.call f ar s).2) := by
  rw [invoke_nil, Key_node.invoke_eq]
  have : Key_node.bound (r.add P f).root_ (P.T :: P.Ts) = some f := by
    rw [bound_add_root]
    simp [Key.Args]
  rw [this]

/-- C22. Round trip of composite paths. A key composed of `[a]` and `[b]`
(`Key<Key<a>, Key<b>>`, `Key<a>{} + Key<b>{}`, `Key<a>{} + b`, `a + Key<b>{}`)
has the `Args` of the directly declared `Key<a, b>`; registering with any of
these types gives the same trie as registering with `Key<a, b>`, and after
registering with one an exact invocation with the other calls the registered
handler. -/
theorem composite_key_round_trip [Inhabited F] [Callable F Unit σ R] (a b : String)
    (r : Generic_resolver F) (f : F) (s : σ) (c : TArg)
    (hc : c = .key [flat_key [a], flat_key [b]] ∨
      some c = TArg.plus (flat_key [a]) (flat_key [b]) ∨
      some c = TArg.plus (flat_key [a]) (tag_arg b) ∨
      some c = TArg.plus (tag_arg a) (flat_key [b])) :
    c.Args = TArg.Args (flat_key [a, b]) ∧
    r.add_key c f = r.add_key (flat_key [a, b]) f ∧
    r.add_key c f = some (r.add ⟨a, [b]⟩ f) ∧
    (r.add ⟨a, [b]⟩ f).invoke_key (flat_key [a, b]) [] () s =
      (Outcome.returned (Callable.call f () s).1, (Callable.call f () s).2) ∧
    (r.add ⟨a, [b]⟩ f).invoke_key c [] () s =
      (Outcome.returned (Callable.call f () s).1, (Callable.call f () s).2) := by
  have hflat : TArg.Args (flat_key [a, b]) = some (([a, b] : List String).map tag_arg) :=
    TArg.Args_flat_key [a, b]
  have hargs : c.Args = some (([a, b] : List String).map tag_arg) := by
    rcases hc with hc | hc | hc | hc
    · rw [hc]
      exact TArg.Args_key_key [a] [b]
    · have h1 : TArg.plus (flat_key [a]) (flat_key [b]) =
          some (.key [flat_key [a], flat_key [b]]) := rfl
      rw [h1] at hc
      cases hc
      exact TArg.Args_key_key [a] [b]
    · have h1 : TArg.plus (flat_key [a]) (tag_arg b) =
          some (.key [flat_key [a], tag_arg b]) := rfl
      rw [h1] at hc
      cases hc
      exact TArg.Args_key_tag [a] b
    · have h1 : TArg.plus (tag_arg a) (flat_key [b]) =
          some (.key [tag_arg a, flat_key [b]]) := rfl
      rw [h1] at hc
      cases hc
      exact TArg.Args_tag_key [b] a
  refine ⟨by rw [hargs, hflat], ?_, add_key_of_Args r c f a [b] hargs, ?_, ?_⟩
  · rw [add_key_of_Args r c f a [b] hargs, add_key_of_Args r _ f a [b] hflat]
  · rw [invoke_key_of_Args _ _ a [b] () s hflat]
    exact invoke_add_self r ⟨a, [b]⟩ f () s
  · rw [invoke_key_of_Args _ _ a [b] () s hargs]
    exact invoke_add_self r ⟨a, [b]⟩ f () s

/-- Witness of C22: `Key<name_0_tag>{} + Key<name_1_tag>{}` against `key_01`. -/
theorem composite_key_round_trip_witness :
    (TArg.key [flat_key ["name_0"], flat_key ["name_1"]]).Args =
      TArg.Args (flat_key ["name_0", "name_1"]) :=
  (composite_key_round_trip "name_0" "name_1"
    (empty : Generic_resolver (Unit → Nat → Unit × Nat)) (fun _ c => ((), c + 1)) 0
    (.key [flat_key ["name_0"], flat_key ["name_1"]]) (Or.inr (Or.inl rfl))).1

end Generic_resolver

/-! ## Scans end, and calls leave the trie as it is -/

namespace detail.Key_node

variable {F A σ R : Type}

/-- The path recorded by `select` is no longer than the nesting of objects. -/
theorem select_loop_length_le (n : Key_node F) (ms : List (String × Json)) (path : List String)
    (h : select_loop n ms = some path) : path.length ≤ Json.depth_members ms + 1 := by
  induction ms using Json.members_induction generalizing n path with
  | nil => simp [select_loop] at h
  | cons name value rest ihv ihr =>
    have hrest : ∀ p, select_loop n rest = some p →
        p.length ≤ Json.depth_members ((name, value) :: rest) + 1 := by
      intro p hp
      have := ihr n p hp
      rw [Json.depth_members]
      omega
    have hone : ([name] : List String).length ≤
        Json.depth_members ((name, value) :: rest) + 1 := by
      simp
    rw [select_loop] at h
    cases hc : Umap.find name n.children_ with
    | none =>
      simp only [hc] at h
      exact hrest path h
    | some child =>
      simp only [hc] at h
      cases value with
      | object ms =>
        simp only [Json.IsObject, if_true, select_object] at h
        cases hs : select_loop child ms with
        | some p =>
          simp only [hs] at h
          cases h
          have := ihv ms rfl child p hs
          rw [Json.depth_members, Json.depth, List.length_cons]
          omega
        | none =>
          simp only [hs] at h
          by_cases ha : child.activable_ = true
          · simp only [ha, if_true] at h
            cases h
            exact hone
          · simp only [ha, Bool.false_eq_true, if_false] at h
            exact hrest path h
      | _ =>
        simp only [Json.IsObject, Bool.false_eq_true, if_false] at h
        by_cases ha : child.activable_ = true
        · simp only [ha, if_true] at h
          cases h
          exact hone
        · simp only [ha, Bool.false_eq_true, if_false] at h
          exact hrest path h

theorem select_length_le (n : Key_node F) (doc : Json) (path : List String)
    (h : select n doc = some path) : path.length ≤ doc.depth := by
  cases doc with
  | object ms =>
    rw [select_object] at h
    rw [Json.depth]
    exact select_loop_length_le n ms path h
  | _ => simp [select] at h

/-- The value-returning `scan` in terms of `select`, on every document. -/
theorem scan_eq_select [Callable F A σ R] [Inhabited R] (n : Key_node F) (doc : Json)
    (fargs : A) (s : σ) :
    n.scan doc fargs s =
      if doc.IsObject then
        match (select n doc).bind (bound n) with
        | some f => (.returned (Callable.call f fargs s).1, (Callable.call f fargs s).2)
        | none => (.out_of_range "No matching key found!", s)
      else (.assertion_failed, s) := by
  cases doc with
  | object ms =>
    rw [scan_object_eq, select_object]
    rfl
  | _ => rfl

/-- The `void` overload of `scan` in terms of `select`, on every document. -/
theorem scan_void_eq_select [Callable F A σ Unit] (n : Key_node F) (doc : Json)
    (fargs : A) (s : σ) :
    n.scan_void doc fargs s =
      if doc.IsObject then
        match (select n doc).bind (bound n) with
        | some f => (.returned (), (Callable.call f fargs s).2)
        | none => (.out_of_range "No matching key found!", s)
      else (.assertion_failed, s) := by
  cases doc with
  | object ms =>
    rw [scan_void_object_eq, select_object]
    rfl
  | _ => rfl

/-- When `select` records a path, a handler is bound there. -/
theorem select_bound (n : Key_node F) (doc : Json) (path : List String)
    (h : select n doc = some path) : ∃ f, bound n path = some f := by
  cases doc with
  | object ms =>
    rw [select_object] at h
    exact (select_loop_bound n ms path h).2
  | _ => simp [select] at h

end detail.Key_node

namespace Generic_resolver

variable {F A σ R G B τ : Type}

/-- C23 as stated fails on a document that is not an object. Both overloads
of `scan(const Document&, ...)` hand the document to `do_scan`, whose first
step is `doc.GetObject()`. On the array `[{"name_0":0}]`, a document as
`Parse` leaves it from that text, and on the null document that a
default-constructed `Document` is, the assertion of rapidjson fails there: the
scan ends neither in success nor in the no-match error. (The overload for a
text checks `IsObject()` first and throws `std::runtime_error`.) -/
theorem scan_of_non_object_document_fails_assertion :
    (build [((⟨"name_0", []⟩ : Key), (default : Work))]).scan
        (.array [.object [("name_0", .number 0)]]) (4 : Int) () =
      (.assertion_failed, ()) ∧
    (¬ ∃ v, ((build [((⟨"name_0", []⟩ : Key), (default : Work))]).scan
        (.array [.object [("name_0", .number 0)]]) (4 : Int) ()).1 = .returned v) ∧
    ((build [((⟨"name_0", []⟩ : Key), (default : Work))]).scan
        (.array [.object [("name_0", .number 0)]]) (4 : Int) ()).1 ≠
      .out_of_range "No matching key found!" ∧
    (build [((⟨"name_0", []⟩ : Key), (⟨"0"⟩ : Traced))]).scan_void .null ()
        ([] : List String) = (.assertion_failed, []) ∧
    ((build [((⟨"name_0", []⟩ : Key), (⟨"0"⟩ : Traced))]).scan_void .null ()
        ([] : List String)).1 ≠ .returned () ∧
    ((build [((⟨"name_0", []⟩ : Key), (⟨"0"⟩ : Traced))]).scan_void .null ()
        ([] : List String)).1 ≠ .out_of_range "No matching key found!" := by
  refine ⟨rfl, ?_, by decide, rfl, by decide, by decide⟩
  rintro ⟨v, h⟩
  have e : ((build [((⟨"name_0", []⟩ : Key), (default : Work))]).scan
      (.array [.object [("name_0", .number 0)]]) (4 : Int) ()).1 =
      Outcome.assertion_failed := rfl
  rw [e] at h
  cases h

/-- C23, amended. Termination of scan on documents whose root is an object. On
every document `{D}` and every trie both overloads of `scan` (total functions,
defined by structural recursion on the document) end in one of two ways: a
handler bound at the path recorded by the walk, which is no longer than the
nesting of objects in the document, is called and its result returned; or the
walk has run through the document without a match, the call throws
`std::out_of_range("No matching key found!")` and the state is as before. -/
theorem scan_of_object_ends_in_success_or_no_match [Callable F A σ R] [Inhabited R]
    [Callable G B τ Unit] (r : Generic_resolver F) (q : Generic_resolver G)
    (D : List (String × Json)) (x : A) (s : σ) (y : B) (t : τ) :
    ((∃ path f, Key_node.select r.root_ (.object D) = some path ∧
          path.length ≤ (Json.object D).depth ∧
          Key_node.bound r.root_ path = some f ∧
          r.scan (.object D) x s =
            (.returned (Callable.call f x s).1, (Callable.call f x s).2)) ∨
      (Key_node.select r.root_ (.object D) = none ∧
        r.scan (.object D) x s = (.out_of_range "No matching key found!", s))) ∧
    ((∃ path g, Key_node.select q.root_ (.object D) = some path ∧
          path.length ≤ (Json.object D).depth ∧
          Key_node.bound q.root_ path = some g ∧
          q.scan_void (.object D) y t = (.returned (), (Callable.call g y t).2)) ∨
      (Key_node.select q.root_ (.object D) = none ∧
        q.scan_void (.object D) y t = (.out_of_range "No matching key found!", t))) := by
  constructor
  · unfold scan
    rw [Key_node.scan_eq_select]
    simp only [Json.IsObject, if_true]
    cases hs : Key_node.select r.root_ (.object D) with
    | none => exact Or.inr ⟨rfl, rfl⟩
    | some path =>
      obtain ⟨f, hf⟩ := Key_node.select_bound r.root_ _ path hs
      refine Or.inl ⟨path, f, rfl, Key_node.select_length_le r.root_ _ path hs, hf, ?_⟩
      simp [hf]
  · unfold scan_void
    rw [Key_node.scan_void_eq_select]
    simp only [Json.IsObject, if_true]
    cases hs : Key_node.select q.root_ (.object D) with
    | none => exact Or.inr ⟨rfl, rfl⟩
    | some path =>
      obtain ⟨g, hg⟩ := Key_node.select_bound q.root_ _ path hs
      refine Or.inl ⟨path, g, rfl, Key_node.select_length_le q.root_ _ path hs, hg, ?_⟩
      simp [hg]

end Generic_resolver

namespace Generic_resolver

variable {F A σ R G B τ : Type}

end Generic_resolver

/-! ## Registration order -/

namespace detail.Key_node

variable {F A σ R : Type}

/-- Two nodes with the same flag and handler at every path have, under each
name, either no child or children that again agree at every path. -/
theorem find_of_flags_eq (n m : Key_node F) (h : ∀ path, flags n path = flags m path)
    (name : String) :
    (Umap.find name n.children_ = none ∧ Umap.find name m.children_ = none) ∨
      ∃ c c', Umap.find name n.children_ = some c ∧ Umap.find name m.children_ = some c' ∧
        c.activable_ = c'.activable_ ∧ ∀ path, flags c path = flags c' path := by
  have h1 := h [name]
  rw [flags_cons, flags_cons] at h1
  cases hn : Umap.find name n.children_ with
  | none =>
    cases hm : Umap.find name m.children_ with
    | none => exact Or.inl ⟨rfl, rfl⟩
    | some c' =>
      rw [hn, hm] at h1
      simp [flags_nil] at h1
  | some c =>
    cases hm : Umap.find name m.children_ with
    | none =>
      rw [hn, hm] at h1
      simp [flags_nil] at h1
    | some c' =>
      refine Or.inr ⟨c, c', rfl, rfl, ?_, ?_⟩
      · rw [hn, hm] at h1
        simp only [flags_nil, Option.some.injEq, Prod.mk.injEq] at h1
        exact h1.1
      · intro path
        have h2 := h (name :: path)
        rw [flags_cons, flags_cons, hn, hm] at h2
        exact h2

/-- The walk of `do_scan` takes the same way through two nodes that agree at
every path. -/
theorem select_loop_congr (n m : Key_node F) (h : ∀ path, flags n path = flags m path)
    (ms : List (String × Json)) : select_loop n ms = select_loop m ms := by
  induction ms using Json.members_induction generalizing n m with
  | nil => simp [select_loop]
  | cons name value rest ihv ihr =>
    rw [select_loop, select_loop]
    rcases find_of_flags_eq n m h name with ⟨hn, hm⟩ | ⟨c, c', hn, hm, ha, hc⟩
    · simp only [hn, hm]
      exact ihr n m h
    · simp only [hn, hm]
      cases value with
      | object vs =>
        simp only [Json.IsObject, if_true, select_object]
        rw [ihv vs rfl c c' hc, ha, ihr n m h]
      | _ =>
        simp only [Json.IsObject, Bool.false_eq_true, if_false]
        rw [ha, ihr n m h]

theorem select_congr (n m : Key_node F) (h : ∀ path, flags n path = flags m path)
    (doc : Json) : select n doc = select m doc := by
  cases doc with
  | object ms => rw [select_object, select_object, select_loop_congr n m h]
  | _ => simp [select]

theorem bound_congr (n m : Key_node F) (h : ∀ path, flags n path = flags m path) :
    bound n = bound m := by
  funext path
  rw [bound_eq_flags, bound_eq_flags, h]

theorem invoke_congr [Callable F A σ R] (n m : Key_node F)
    (h : ∀ path, flags n path = flags m path) (T : String) (Ts : List String) (fargs : A)
    (s : σ) : n.invoke T Ts fargs s = m.invoke T Ts fargs s := by
  rw [invoke_eq, invoke_eq, bound_congr n m h]

theorem scan_congr [Callable F A σ R] [Inhabited R] (n m : Key_node F)
    (h : ∀ path, flags n path = flags m path) (doc : Json) (fargs : A) (s : σ) :
    n.scan doc fargs s = m.scan doc fargs s := by
  rw [scan_eq_select, scan_eq_select, select_congr n m h, bound_congr n m h]

theorem scan_void_congr [Callable F A σ Unit] (n m : Key_node F)
    (h : ∀ path, flags n path = flags m path) (doc : Json) (fargs : A) (s : σ) :
    n.scan_void doc fargs s = m.scan_void doc fargs s := by
  rw [scan_void_eq_select, scan_void_eq_select, select_congr n m h, bound_congr n m h]

/-- Two registrations of different paths commute at every path of the trie. -/
theorem flags_add_comm [Inhabited F] (n : Key_node F) (T U : String) (Ts Us : List String)
    (f g : F) (hne : T :: Ts ≠ U :: Us) (path : List String) :
    flags ((n.add T Ts f).add U Us g) path = flags ((n.add U Us g).add T Ts f) path := by
  simp only [flags_add]
  by_cases hP : path = T :: Ts
  · have hQ : ¬ path = U :: Us := fun e => hne (hP.symm.trans e)
    simp [hP, hne]
  · by_cases hQ : path = U :: Us
    · simp [hQ, hne.symm]
    · simp only [hP, hQ, if_false]
      cases hf : flags n path with
      | some x => rfl
      | none =>
        by_cases h1 : path <+: T :: Ts <;> by_cases h2 : path <+: U :: Us <;> simp [h1, h2]

end detail.Key_node

namespace Generic_resolver

variable {F A σ R G B τ : Type}

/-- C30. Registration order of distinct paths is irrelevant. For paths
`P ≠ Q` (one may extend the other) the trie after `add(P, f); add(Q, g)` and
the trie after `add(Q, g); add(P, f)` have a node at the same paths, with the
same flag `activable_` and the same handler `func_` at each, and so every
`invoke` and every `scan` (both overloads) gives the same outcome and state on
both. -/
theorem add_order_irrelevant [Inhabited F] [Callable F A σ R] [Inhabited R] [Inhabited G]
    [Callable G B τ Unit] (r : Generic_resolver F) (q : Generic_resolver G) (P Q : Key)
    (f g : F) (f' g' : G) (hne : P ≠ Q) :
    (∀ path, Key_node.flags ((r.add P f).add Q g).root_ path =
        Key_node.flags ((r.add Q g).add P f).root_ path) ∧
    (∀ (key : Key) (Fargs : List Ty) (x : A) (s : σ),
      ((r.add P f).add Q g).invoke key Fargs x s = ((r.add Q g).add P f).invoke key Fargs x s) ∧
    (∀ (doc : Json) (x : A) (s : σ),
      ((r.add P f).add Q g).scan doc x s = ((r.add Q g).add P f).scan doc x s) ∧
    (∀ (doc : Json) (y : B) (t : τ),
      ((q.add P f').add Q g').scan_void doc y t = ((q.add Q g').add P f').scan_void doc y t) := by
  have hne' : P.T :: P.Ts ≠ Q.T :: Q.Ts := by
    intro e
    apply hne
    cases P
    cases Q
    simp only [List.cons.injEq] at e
    simp [e.1, e.2]
  have hF := Key_node.flags_add_comm r.root_ P.T Q.T P.Ts Q.Ts f g hne'
  have hG := Key_node.flags_add_comm q.root_ P.T Q.T P.Ts Q.Ts f' g' hne'
  refine ⟨hF, ?_, ?_, ?_⟩
  · intro key Fargs x s
    unfold invoke
    cases Ty.names (Fargs ++ key.Args.map Ty.tag) with
    | none => rfl
    | some l =>
      cases l with
      | nil => rfl
      | cons T Ts => exact Key_node.invoke_congr _ _ hF T Ts x s
  · intro doc x s
    exact Key_node.scan_congr _ _ hF doc x s
  · intro doc y t
    exact Key_node.scan_void_congr _ _ hG doc y t

/-- Witness of C30: `[name_0]` and its extension `[name_0, name_1]`, with
different handlers, looked up at `[name_0]`. -/
theorem add_order_irrelevant_witness :
    Key_node.flags (((empty : Generic_resolver (Int → Nat → Int × Nat)).add
        ⟨"name_0", []⟩ (fun i c => (i, c + 1))).add
        ⟨"name_0", ["name_1"]⟩ (fun i c => (i * 2, c))).root_ ["name_0"] =
      Key_node.flags (((empty : Generic_resolver (Int → Nat → Int × Nat)).add
        ⟨"name_0", ["name_1"]⟩ (fun i c => (i * 2, c))).add
        ⟨"name_0", []⟩ (fun i c => (i, c + 1))).root_ ["name_0"] :=
  (@add_order_irrelevant (Int → Nat → Int × Nat) Int Nat Int (Unit → Unit → Unit × Unit) Unit
    Unit _ _ _ _ _ empty empty ⟨"name_0", []⟩ ⟨"name_0", ["name_1"]⟩ (fun i c => (i, c + 1))
    (fun i c => (i * 2, c)) default default (by decide)).1 ["name_0"]

end Generic_resolver

/-! ## Schemas: induction, and the structure check -/

theorem Payload.list_induction {motive : List Payload → Prop}
    (nil : motive [])
    (cons : ∀ (p : Payload) (rest : List Payload),
      (∀ name Ps, p = .Object name Ps → motive Ps) → motive rest → motive (p :: rest))
    (Payloads : List Payload) : motive Payloads := by
  have key : ∀ (k : Nat) (Ps : List Payload), sizeOf Ps = k → motive Ps := by
    intro k
    induction k using Nat.strong_induction_on with
    | _ k ih =>
      intro Ps h
      cases Ps with
      | nil => exact nil
      | cons p rest =>
        subst h
        apply cons
        · intro name Qs hp
          subst hp
          apply ih (sizeOf Qs) _ Qs rfl
          simp
          omega
        · apply ih (sizeOf rest) _ rest rfl
          simp
  exact key _ Payloads rfl

theorem Result.bind_done {α β : Type} (value : α) (next : α → Result β) :
    (Result.done value).bind next = next value := rfl

theorem Result.map_done {α β : Type} (g : α → β) (value : α) :
    (Result.done value).map g = .done (g value) := rfl

theorem Result.map_Bad_structure {α β : Type} (g : α → β) (what : String) :
    (Result.Bad_structure what : Result α).map g = .Bad_structure what := rfl

theorem Json.FindMember_object (name : String) (members : List (String × Json)) :
    (Json.object members).FindMember name = .done (Umap.find name members) := rfl

theorem Json.member_object (name : String) (members : List (String × Json)) :
    (Json.object members).member name = Umap.find name members := rfl

/-- Inside an object, the checks of the payloads of `Object<Name_tag, ...>` run
on the value of the first member named `Name_tag::name()`. -/
theorem Object.expand_check_eq (name : String) (Ts : List Payload)
    (members : List (String × Json)) (value : Json)
    (h : Umap.find name members = some value) :
    Object.expand_check name Ts (.object members) = Generic_root.expand_check Ts value := by
  induction Ts with
  | nil => rw [Object.expand_check, Generic_root.expand_check]
  | cons T Ts ih =>
    rw [Object.expand_check, Generic_root.expand_check, Json.FindMember_object, h,
      Result.bind_done]
    simp only [ih]

/-- The check of one payload in an object, by the first member of its name. -/
theorem Payload.structure_check_object (p : Payload) (members : List (String × Json)) :
    p.structure_check (.object members) =
      match p, Umap.find p.name members with
      | .Value_field name _, none => .Bad_structure ("Missing value member: " ++ name)
      | .Value_field name T, some value =>
        if Value_traits.check T value then .done ()
        else .Bad_structure ("Value of " ++ name ++ " is of the wrong type")
      | .Array name, none => .Bad_structure ("Missing array member: " ++ name)
      | .Array name, some value =>
        if value.IsArray then .done () else .Bad_structure (name ++ " is not an array")
      | .Object name _, none => .Bad_structure ("Missing object member: " ++ name)
      | .Object name Ps, some value =>
        if value.IsObject then Generic_root.expand_check Ps value
        else .Bad_structure (name ++ " is not an object") := by
  cases p with
  | Value_field name T =>
    rw [Payload.structure_check, Json.FindMember_object, Result.bind_done]
    simp only [Payload.name]
    cases Umap.find name members with
    | none => rfl
    | some value => cases h : Value_traits.check T value <;> simp [h]
  | Array name =>
    rw [Payload.structure_check, Json.FindMember_object, Result.bind_done]
    simp only [Payload.name]
    cases Umap.find name members with
    | none => rfl
    | some value => cases h : value.IsArray <;> simp [h]
  | Object name Ps =>
    rw [Payload.structure_check, Json.FindMember_object, Result.bind_done]
    simp only [Payload.name]
    cases h : Umap.find name members with
    | none => rfl
    | some value =>
      cases ho : value.IsObject
      · simp [ho]
      · simp [ho, Object.expand_check_eq name Ps members value h]

/-- The checks of a list of payloads on an object end normally when the object
conforms, and throw `Bad_structure` when it does not. -/
theorem Generic_root.expand_check_conforms (Payloads : List Payload) :
    ∀ members : List (String × Json),
      (Generic_root.expand_check Payloads (.object members) = .done () ∧
          conforms_all Payloads (.object members) = true) ∨
        ((∃ what, Generic_root.expand_check Payloads (.object members) = .Bad_structure what) ∧
          conforms_all Payloads (.object members) = false) := by
  induction Payloads using Payload.list_induction with
  | nil =>
    intro members
    left
    rw [Generic_root.expand_check, conforms_all]
    exact ⟨rfl, rfl⟩
  | cons p rest ihp ihr =>
    intro members
    have hp : (p.structure_check (.object members) = .done () ∧
          p.conforms (.object members) = true) ∨
        ((∃ what, p.structure_check (.object members) = .Bad_structure what) ∧
          p.conforms (.object members) = false) := by
      rw [Payload.structure_check_object]
      cases p with
      | Value_field name T =>
        rw [Payload.conforms, Json.member_object]
        simp only [Payload.name]
        cases Umap.find name members with
        | none => exact Or.inr ⟨⟨_, rfl⟩, rfl⟩
        | some value =>
          cases h : Value_traits.check T value
          · exact Or.inr ⟨⟨"Value of " ++ name ++ " is of the wrong type", by simp [h]⟩,
              by simp [h]⟩
          · exact Or.inl ⟨by simp [h], by simp [h]⟩
      | Array name =>
        rw [Payload.conforms, Json.member_object]
        simp only [Payload.name]
        cases Umap.find name members with
        | none => exact Or.inr ⟨⟨_, rfl⟩, rfl⟩
        | some value =>
          cases h : value.IsArray
          · exact Or.inr ⟨⟨name ++ " is not an array", by simp [h]⟩, by simp [h]⟩
          · exact Or.inl ⟨by simp [h], by simp [h]⟩
      | Object name Ps =>
        rw [Payload.conforms, Json.member_object]
        simp only [Payload.name]
        cases Umap.find name members with
        | none => exact Or.inr ⟨⟨_, rfl⟩, rfl⟩
        | some value =>
          cases value with
          | object vs =>
            simp only [Json.IsObject, if_true, Bool.true_and]
            exact ihp name Ps rfl vs
          | _ =>
            exact Or.inr ⟨⟨name ++ " is not an object", by simp [Json.IsObject]⟩,
              by simp [Json.IsObject]⟩
    rw [Generic_root.expand_check, conforms_all]
    rcases hp with ⟨h1, h2⟩ | ⟨⟨what, h1⟩, h2⟩
    · rw [h1, h2, Result.bind_done, Bool.true_and]
      exact ihr members
    · rw [h1, h2]
      exact Or.inr ⟨⟨what, rfl⟩, rfl⟩

/-- The check of one payload looks at the first member of its name only. -/
theorem Payload.structure_check_congr (p : Payload) (ms ms' : List (String × Json))
    (h : Umap.find p.name ms = Umap.find p.name ms') :
    p.structure_check (.object ms) = p.structure_check (.object ms') := by
  rw [Payload.structure_check_object, Payload.structure_check_object, h]

theorem Generic_root.expand_check_congr (Payloads : List Payload)
    (ms ms' : List (String × Json))
    (h : ∀ p ∈ Payloads, Umap.find p.name ms = Umap.find p.name ms') :
    Generic_root.expand_check Payloads (.object ms) =
      Generic_root.expand_check Payloads (.object ms') := by
  induction Payloads with
  | nil => rw [Generic_root.expand_check, Generic_root.expand_check]
  | cons p rest ih =>
    rw [Generic_root.expand_check, Generic_root.expand_check,
      Payload.structure_check_congr p ms ms' (h p (List.mem_cons_self _ _)),
      ih (fun q hq => h q (List.mem_cons_of_mem _ hq))]

/-- The constructor from a document, by cases. -/
theorem Generic_root.of_document_cases (Payloads : List Payload) (doc : Json) :
    (Generic_root.of_document Payloads doc = .done ⟨doc⟩ ∧
        doc.IsObject = true ∧ conforms_all Payloads doc = true) ∨
      ((∃ what, Generic_root.of_document Payloads doc = .Bad_structure what) ∧
        (doc.IsObject = false ∨ conforms_all Payloads doc = false)) := by
  unfold Generic_root.of_document Generic_root.structure_check
  cases doc with
  | object members =>
    simp only [Json.IsObject, Bool.not_true, Bool.false_eq_true, if_false]
    rcases Generic_root.expand_check_conforms Payloads members with ⟨h1, h2⟩ | ⟨⟨what, h1⟩, h2⟩
    · rw [h1]
      exact Or.inl ⟨rfl, trivial, h2⟩
    · rw [h1]
      exact Or.inr ⟨⟨what, rfl⟩, Or.inr h2⟩
  | _ => exact Or.inr ⟨⟨"Not a valid json", rfl⟩, Or.inl rfl⟩

theorem Umap.find_append_of_not_mem {V : Type} (k : String) (pre post : List (String × V))
    (h : k ∉ pre.map Prod.fst) : Umap.find k (pre ++ post) = Umap.find k post := by
  induction pre with
  | nil => rfl
  | cons m pre ih =>
    obtain ⟨n, v⟩ := m
    simp only [List.map_cons, List.mem_cons, not_or] at h
    rw [List.cons_append, Umap.find, if_neg (fun e => h.1 e.symm), ih h.2]

theorem Umap.find_insert_other {V : Type} (k n : String) (v : V) (pre post : List (String × V))
    (h : k ≠ n) : Umap.find k (pre ++ (n, v) :: post) = Umap.find k (pre ++ post) := by
  induction pre with
  | nil =>
    rw [List.nil_append, List.nil_append, Umap.find, if_neg (fun e => h e.symm)]
  | cons m pre ih =>
    obtain ⟨n', v'⟩ := m
    rw [List.cons_append, List.cons_append, Umap.find, Umap.find, ih]

namespace Generic_root

/-- C26. Constructing a root from a document throws `Bad_structure` exactly
when the document is not an object or does not conform to the payloads: some
declared member is missing from its parent object (the first member of the
name counts, as `FindMember` finds it), a declared `Object` member is not an
object, a declared `Array` member is not an array, or a declared `Value_field`
member fails the `check` of its type. Otherwise the root holds the document.
Members that are not declared are ignored: a member under another name, put
anywhere among the members of the document or of the parent of a declared
member, changes no check. -/
theorem of_document_bad_structure_iff (Payloads : List Payload) (doc : Json) :
    ((∃ what, of_document Payloads doc = .Bad_structure what) ↔
      (doc.IsObject = false ∨ conforms_all Payloads doc = false)) ∧
    (of_document Payloads doc = .done ⟨doc⟩ ∨
      ∃ what, of_document Payloads doc = .Bad_structure what) ∧
    (∀ (pre post : List (String × Json)) (n : String) (v : Json),
      n ∉ Payloads.map Payload.name →
        structure_check Payloads (.object (pre ++ (n, v) :: post)) =
          structure_check Payloads (.object (pre ++ post))) ∧
    (∀ (p : Payload) (pre post : List (String × Json)) (n : String) (v : Json),
      n ≠ p.name →
        p.structure_check (.object (pre ++ (n, v) :: post)) =
          p.structure_check (.object (pre ++ post))) := by
  refine ⟨?_, ?_, ?_, ?_⟩
  · constructor
    · intro hbad
      rcases of_document_cases Payloads doc with ⟨h1, _, _⟩ | ⟨_, h2⟩
      · obtain ⟨what, hw⟩ := hbad
        rw [h1] at hw
        cases hw
      · exact h2
    · intro hnot
      rcases of_document_cases Payloads doc with ⟨_, h2, h3⟩ | ⟨h1, _⟩
      · rcases hnot with h | h
        · rw [h2] at h
          cases h
        · rw [h3] at h
          cases h
      · exact h1
  · rcases of_document_cases Payloads doc with ⟨h1, _, _⟩ | ⟨h1, _⟩
    · exact Or.inl h1
    · exact Or.inr h1
  · intro pre post n v hn
    unfold structure_check
    simp only [Json.IsObject, Bool.not_true, Bool.false_eq_true, if_false]
    apply expand_check_congr
    intro p hp
    apply Umap.find_insert_other
    intro e
    exact hn (List.mem_map.mpr ⟨p, hp, e⟩)
  · intro p pre post n v hn
    apply Payload.structure_check_congr
    exact Umap.find_insert_other _ _ _ _ _ (fun e => hn e.symm)

/-- Witness of C26: the member `"note"` is not declared by the schema of the
test, `Root<City, Value_field<time_tag, int>>`. -/
theorem of_document_bad_structure_iff_witness :
    structure_check
        [.Object "city" [.Value_field "name" .string, .Value_field "state" .string,
          .Value_field "capital" .bool], .Value_field "time" .int]
        (.object ([("city", .object [("name", .string "Rome")])] ++
          ("note", .null) :: [("time", .number 2)])) =
      structure_check
        [.Object "city" [.Value_field "name" .string, .Value_field "state" .string,
          .Value_field "capital" .bool], .Value_field "time" .int]
        (.object ([("city", .object [("name", .string "Rome")])] ++ [("time", .number 2)])) :=
  (of_document_bad_structure_iff
    [.Object "city" [.Value_field "name" .string, .Value_field "state" .string,
      .Value_field "capital" .bool], .Value_field "time" .int] .null).2.2.1
    [("city", .object [("name", .string "Rome")])] [("time", .number 2)] "note" .null
    (by decide)

end Generic_root

/-! ## The default document -/

theorem Result.map_map_done {α β : Type} (x : Result α) (g : α → β) (y : α)
    (h : x = .done y) : x.map g = .done (g y) := by
  rw [h]
  rfl

/-- In-place work on the member put last, when no member before has its name. -/
theorem members_at_append (name : String) (g : Json → Result Json)
    (pre : List (String × Json)) (v : Json) (h : name ∉ pre.map Prod.fst) :
    members_at name g (pre ++ [(name, v)]) = (g v).map (fun v' => pre ++ [(name, v')]) := by
  induction pre with
  | nil =>
    rw [List.nil_append, members_at, if_pos rfl]
    rfl
  | cons m pre ih =>
    obtain ⟨n, w⟩ := m
    simp only [List.map_cons, List.mem_cons, not_or] at h
    rw [List.cons_append, members_at, if_neg (fun e => h.1 e.symm), ih h.2]
    cases g v <;> rfl

/-- The payloads of `Object<Name_tag, ...>` are built in the value of the
member named `Name_tag::name()` that `build` has just added, when no member
before has that name. -/
theorem Object.expand_build_append (name : String) (Ts : List Payload)
    (pre : List (String × Json)) (v : Json) (h : name ∉ pre.map Prod.fst) :
    Object.expand_build name Ts (.object (pre ++ [(name, v)])) =
      (Generic_root.expand_build Ts v).map (fun v' => .object (pre ++ [(name, v')])) := by
  induction Ts generalizing v with
  | nil => rw [Object.expand_build, Generic_root.expand_build]; rfl
  | cons T Ts ih =>
    rw [Object.expand_build, Generic_root.expand_build, Json.at_member,
      members_at_append name _ pre v h]
    cases hT : T.build v with
    | done v' =>
      show Object.expand_build name Ts (.object (pre ++ [(name, v')])) = _
      rw [ih v']
      rfl
    | Bad_structure what => rfl
    | assertion_failed => rfl
    | ill_formed => rfl

theorem distinct_siblings_cons (p : Payload) (rest : List Payload) :
    distinct_siblings (p :: rest) = true ↔
      p.name ∉ rest.map Payload.name ∧ p.distinct_names = true ∧
        distinct_siblings rest = true := by
  rw [distinct_siblings]
  simp [and_assoc]

/-- With different names side by side, the payloads are built one after the
other behind the members that are there, each with its default. -/
theorem Generic_root.expand_build_default (Payloads : List Payload) :
    distinct_siblings Payloads = true →
      ∀ members : List (String × Json),
        (∀ p ∈ Payloads, p.name ∉ members.map Prod.fst) →
          Generic_root.expand_build Payloads (.object members) =
            .done (.object (members ++ default_members Payloads)) := by
  induction Payloads using Payload.list_induction with
  | nil =>
    intro _ members _
    rw [Generic_root.expand_build, default_members, List.append_nil]
  | cons p rest ihp ihr =>
    intro hd members hfresh
    rw [distinct_siblings_cons] at hd
    obtain ⟨hp, hpd, hrd⟩ := hd
    have hpn : p.name ∉ members.map Prod.fst := hfresh p (List.mem_cons_self _ _)
    have hbuild : p.build (.object members) =
        .done (.object (members ++ [(p.name, p.default_json)])) := by
      cases p with
      | Value_field name T => rw [Payload.build, Payload.default_json]; rfl
      | Array name => rw [Payload.build, Payload.default_json]; rfl
      | Object name Ps =>
        rw [Payload.build, Payload.default_json]
        show Object.expand_build name Ps (.object (members ++ [(name, .object [])])) = _
        rw [Object.expand_build_append name Ps members _ hpn]
        rw [Payload.distinct_names] at hpd
        have := ihp name Ps rfl hpd [] (fun _ _ => by simp)
        rw [this]
        rfl
    rw [Generic_root.expand_build, hbuild, Result.bind_done, default_members]
    rw [ihr hrd (members ++ [(p.name, p.default_json)])]
    · rw [List.append_assoc]
      rfl
    · intro q hq
      have h1 := hfresh q (List.mem_cons_of_mem _ hq)
      simp only [List.map_append, List.map_cons, List.map_nil, List.mem_append,
        List.mem_singleton, not_or]
      refine ⟨h1, fun e => hp ?_⟩
      rw [← e]
      exact List.mem_map.mpr ⟨q, hq, rfl⟩

theorem Generic_root.new_default (Payloads : List Payload)
    (h : distinct_siblings Payloads = true) :
    Generic_root.new Payloads = .done ⟨.object (default_members Payloads)⟩ := by
  unfold Generic_root.new
  rw [Generic_root.expand_build_default Payloads h [] (fun _ _ => by simp)]
  rfl

theorem Value_traits.check_default (T : Value_type) :
    Value_traits.check T (Value_traits.stored (Value_traits.default_value T)) = true := by
  cases T <;> decide

/-- With different names side by side, the defaults conform to the payloads
that made them. -/
theorem conforms_all_default (Payloads : List Payload) :
    distinct_siblings Payloads = true →
      ∀ members : List (String × Json),
        (∀ p ∈ Payloads, p.name ∉ members.map Prod.fst) →
          conforms_all Payloads (.object (members ++ default_members Payloads)) = true := by
  induction Payloads using Payload.list_induction with
  | nil =>
    intro _ members _
    rw [conforms_all]
  | cons p rest ihp ihr =>
    intro hd members hfresh
    rw [distinct_siblings_cons] at hd
    obtain ⟨hp, hpd, hrd⟩ := hd
    have hpn : p.name ∉ members.map Prod.fst := hfresh p (List.mem_cons_self _ _)
    have hfind : Umap.find p.name (members ++ default_members (p :: rest)) =
        some p.default_json := by
      rw [Umap.find_append_of_not_mem _ _ _ hpn, default_members, Umap.find, if_pos rfl]
    have hconf : p.conforms (.object (members ++ default_members (p :: rest))) = true := by
      cases p with
      | Value_field name T =>
        rw [Payload.conforms, Json.member_object]
        simp only [Payload.name] at hfind
        rw [hfind, Payload.default_json]
        exact Value_traits.check_default T
      | Array name =>
        rw [Payload.conforms, Json.member_object]
        simp only [Payload.name] at hfind
        rw [hfind, Payload.default_json]
        rfl
      | Object name Ps =>
        rw [Payload.conforms, Json.member_object]
        simp only [Payload.name] at hfind
        rw [hfind, Payload.default_json]
        rw [Payload.distinct_names] at hpd
        have := ihp name Ps rfl hpd [] (fun _ _ => by simp)
        rw [List.nil_append] at this
        simp [Json.IsObject, this]
    rw [conforms_all, hconf, Bool.true_and]
    have := ihr hrd (members ++ [(p.name, p.default_json)]) (by
      intro q hq
      have h1 := hfresh q (List.mem_cons_of_mem _ hq)
      simp only [List.map_append, List.map_cons, List.map_nil, List.mem_append,
        List.mem_singleton, not_or]
      refine ⟨h1, fun e => hp ?_⟩
      rw [← e]
      exact List.mem_map.mpr ⟨q, hq, rfl⟩)
    rw [List.append_assoc] at this
    exact this

/-! ## Finding members through keys -/

theorem TArg.weights_append (xs ys : List TArg) :
    TArg.weights (xs ++ ys) = TArg.weights xs + TArg.weights ys := by
  induction xs with
  | nil => simp [TArg.weights]
  | cons x xs ih =>
    rw [List.cons_append, TArg.weights, TArg.weights, ih]
    omega

theorem TArg.weight_of_is_tag (t : TArg) (h : t.is_tag = true) : t.weight = 0 := by
  cases t with
  | plain ty => rw [TArg.weight]
  | key _ => simp [TArg.is_tag] at h
  | pack _ => simp [TArg.is_tag] at h

theorem TArg.weights_of_all_tags (ts : List TArg) (h : is_all_tags ts = true) :
    TArg.weights ts = 0 := by
  induction ts with
  | nil => rw [TArg.weights]
  | cons t ts ih =>
    simp only [is_all_tags, List.all_cons, Bool.and_eq_true] at h
    rw [TArg.weights, TArg.weight_of_is_tag t h.1, ih (by simpa [is_all_tags] using h.2)]

theorem TArg.weights_of_checked_pack (ts args : List TArg) (h : checked_pack ts = some args) :
    TArg.weights args = 0 := by
  unfold checked_pack at h
  by_cases ht : is_all_tags ts = true
  · rw [if_pos ht] at h
    cases h
    exact TArg.weights_of_all_tags ts ht
  · rw [if_neg ht] at h
    cases h

theorem TArg.weight_of_type (t t' : TArg) (h : t.type = some t') : t'.weight = 0 := by
  cases t with
  | plain ty =>
    cases ty with
    | tag n =>
      simp only [TArg.type, Option.some.injEq] at h
      rw [← h, TArg.weight]
    | other s => simp [TArg.type] at h
  | key _ => simp [TArg.type] at h
  | pack _ => simp [TArg.type] at h

/-- The arguments of `Key<K...>::Args` weigh no more than `K...`. -/
theorem Key_Args_weights (ks args : List TArg) (h : Key_Args ks = some args) :
    TArg.weights args < TArg.weight (.key ks) := by
  rw [TArg.weight]
  unfold Key_Args at h
  split at h
  · cases h
    simp only [TArg.weights, TArg.weight, TArg.weights_append]
    omega
  · cases h
    simp only [TArg.weights, TArg.weight, TArg.weights_append]
    omega
  · cases h
  · cases h
  · split at h
    · rw [TArg.weights_of_checked_pack _ _ h]
      omega
    · cases h
  · split at h
    · rename_i hall
      split at h
      · rename_i t' ht
        cases h
        rw [TArg.weights, TArg.weight_of_type _ _ ht]
        have := TArg.weights_of_all_tags _ hall
        rw [TArg.weights] at this
        omega
      · cases h
    · cases h
  · split at h
    · rw [TArg.weights_of_checked_pack _ _ h]
      omega
    · cases h
  · split at h
    · rename_i hall
      split at h
      · rename_i t' ht
        cases h
        rw [TArg.weights_append, TArg.weights, TArg.weights, TArg.weight_of_type _ _ ht]
        have := TArg.weights_of_all_tags _ hall
        rw [TArg.weights_append] at this
        omega
      · cases h
    · cases h
  · rw [TArg.weights_of_checked_pack _ _ h]
    omega

theorem Origin.find_tag (origin : Origin) (Name_tag : String) :
    origin.find (tag_arg Name_tag) = Finder origin Name_tag := by
  rw [tag_arg, Origin.find]

/-- The overload of `find` for a `Key<K...>` unfolds `Key<K...>::Args`. -/
theorem Origin.find_key (origin : Origin) (ks : List TArg) :
    origin.find (.key ks) =
      match Key_Args ks with
      | none => none
      | some args => Key_unfolder.do_call origin args := by
  rw [Origin.find]
  cases h : Key_Args ks with
  | none => rfl
  | some args => simp only [Key_Args_weights ks args h, dite_true]

theorem Key_unfolder.do_call_nil (origin : Origin) :
    Key_unfolder.do_call origin [] = none := by
  rw [Key_unfolder.do_call]

theorem Key_unfolder.do_call_singleton (origin : Origin) (key : TArg) :
    Key_unfolder.do_call origin [key] = origin.find key := by
  rw [Key_unfolder.do_call]

theorem Key_unfolder.do_call_cons_cons (origin : Origin) (key k2 : TArg) (rest : List TArg) :
    Key_unfolder.do_call origin (key :: k2 :: rest) =
      match origin.find key with
      | none => none
      | some proxy =>
        match proxy.origin with
        | none => none
        | some next => Key_unfolder.do_call next (k2 :: rest) := by
  rw [Key_unfolder.do_call]
  simp

theorem find_chain_cons_cons (origin : Origin) (t t2 : String) (rest : List String) :
    find_chain origin (t :: t2 :: rest) =
      match Finder origin t with
      | none => none
      | some proxy =>
        match proxy.origin with
        | none => none
        | some next => find_chain next (t2 :: rest) := by
  rw [find_chain]
  simp

/-- Unfolding a pack of name tags is the chain of `find` calls. -/
theorem Key_unfolder.do_call_tags (ts : List String) :
    ∀ origin : Origin, Key_unfolder.do_call origin (ts.map tag_arg) = find_chain origin ts := by
  induction ts with
  | nil =>
    intro origin
    rw [List.map_nil, Key_unfolder.do_call_nil, find_chain]
  | cons t ts ih =>
    intro origin
    cases ts with
    | nil =>
      rw [List.map_cons, List.map_nil, Key_unfolder.do_call_singleton, Origin.find_tag,
        find_chain]
    | cons t2 ts =>
      rw [List.map_cons, List.map_cons, Key_unfolder.do_call_cons_cons, Origin.find_tag,
        find_chain_cons_cons]
      cases hF : Finder origin t with
      | none => rfl
      | some proxy =>
        cases hp : proxy.origin with
        | none => simp only [hp]
        | some next =>
          simp only [hp]
          exact ih next

/-- A key whose `Args` are name tags finds what the chain of the tags finds. -/
theorem Origin.find_of_Args (origin : Origin) (c : TArg) (ts : List String)
    (h : c.Args = some (ts.map tag_arg)) : origin.find c = find_chain origin ts := by
  cases c with
  | plain _ => simp [TArg.Args] at h
  | pack _ => simp [TArg.Args] at h
  | key ks =>
    rw [TArg.Args] at h
    rw [Origin.find_key, h]
    exact Key_unfolder.do_call_tags ts origin

/-! ## The default document and the structure check of schemas -/

theorem default_members_names (Payloads : List Payload) :
    (default_members Payloads).map Prod.fst = Payloads.map Payload.name := by
  induction Payloads with
  | nil => rw [default_members]; rfl
  | cons p rest ih => rw [default_members, List.map_cons, List.map_cons, ih]

namespace Generic_root

/-- C29 as stated fails when two members declared side by side have the same
name: for `Root<Object<a, Value_field<x, int>>, Object<a, Value_field<y,
int>>>` the default constructor builds `{"a":{"x":0,"y":0},"a":{}}`, since
`Object::expand` looks the object up by name and finds the first `a` both
times; the second object does not hold its own declared member. -/
theorem default_document_with_equal_names :
    new [.Object "a" [.Value_field "x" .int], .Object "a" [.Value_field "y" .int]] =
      .done ⟨.object [("a", .object [("x", .number 0), ("y", .number 0)]),
        ("a", .object [])]⟩ ∧
    Json.object [("a", .object [("x", .number 0), ("y", .number 0)]), ("a", .object [])] ≠
      .object (default_members
        [.Object "a" [.Value_field "x" .int], .Object "a" [.Value_field "y" .int]]) ∧
    detail.do_stringify
        (.object [("a", .object [("x", .number 0), ("y", .number 0)]), ("a", .object [])]) =
      "\x7b\"a\":\x7b\"x\":0,\"y\":0\x7d,\"a\":\x7b\x7d\x7d" := by
  refine ⟨rfl, ?_, rfl⟩
  simp [default_members, Payload.default_json, Payload.name, Value_traits.stored,
    Value_traits.default_value]

/-- C29, amended. For a schema in which the members declared side by side
have different names at every nesting level, the default constructor
completes, and its document is the object of exactly the declared members in
declaration order, each `Value_field` with the default value of its type, each
`Array` empty, each `Object` an object of its own declared members, built the
same way. -/
theorem default_document_has_declared_members (Payloads : List Payload)
    (h : distinct_siblings Payloads = true) :
    new Payloads = .done ⟨.object (default_members Payloads)⟩ ∧
    (default_members Payloads).map Prod.fst = Payloads.map Payload.name ∧
    (∀ name T, Payload.default_json (.Value_field name T) =
      Value_traits.stored (Value_traits.default_value T)) ∧
    (∀ name, Payload.default_json (.Array name) = .array []) ∧
    (∀ name Ps, Payload.default_json (.Object name Ps) = .object (default_members Ps)) :=
  ⟨new_default Payloads h, default_members_names Payloads,
    fun _ _ => by rw [Payload.default_json], fun _ => by rw [Payload.default_json],
    fun _ _ => by rw [Payload.default_json]⟩

/-- Witness of C29: `Root<City, Value_field<time_tag, int>>` of the tests
stringifies to the text that `TEST(ROOT, STRINGIFY)` expects. -/
theorem default_document_has_declared_members_witness :
    (new [.Object "city" [.Value_field "name" .string, .Value_field "state" .string,
        .Value_field "capital" .bool], .Value_field "time" .int]).map stringify =
      .done "\x7b\"city\":\x7b\"name\":\"\",\"state\":\"\",\"capital\":false\x7d,\"time\":0\x7d" := by
  rw [(default_document_has_declared_members
    [.Object "city" [.Value_field "name" .string, .Value_field "state" .string,
      .Value_field "capital" .bool], .Value_field "time" .int] (by decide)).1]
  rfl

/-- C25 as stated fails when two members declared side by side have the same
name: the default document of `Root<Value_field<a, int>, Value_field<a,
std::string>>` is `{"a":0,"a":""}`, and the structure check of the same type
reads the first `a` for the second field and throws `Bad_structure`. -/
theorem default_document_fails_own_check :
    new [.Value_field "a" .int, .Value_field "a" .string] =
      .done ⟨.object [("a", .number 0), ("a", .string "")]⟩ ∧
    of_document [.Value_field "a" .int, .Value_field "a" .string]
        (.object [("a", .number 0), ("a", .string "")]) =
      .Bad_structure "Value of a is of the wrong type" ∧
    (∀ Parse : String → Option Json,
      Parse "\x7b\"a\":0,\"a\":\"\"\x7d" = some (.object [("a", .number 0), ("a", .string "")]) →
        of_string Parse [.Value_field "a" .int, .Value_field "a" .string]
            (detail.do_stringify (.object [("a", .number 0), ("a", .string "")])) =
          .Bad_structure "Value of a is of the wrong type") := by
  refine ⟨rfl, rfl, ?_⟩
  intro Parse hParse
  have e : detail.do_stringify (.object [("a", .number 0), ("a", .string "")]) =
      "\x7b\"a\":0,\"a\":\"\"\x7d" := rfl
  rw [e]
  unfold of_string
  rw [hParse]
  rfl

/-- C25, amended. For a schema in which the members declared side by side
have different names at every nesting level, the document of the default
instance passes the structure check of the same schema: constructing the root
from that document completes and holds it, and so does constructing it from
any text that rapidjson parses to that document, as it does the stringified
text. -/
theorem default_document_passes_own_check (Payloads : List Payload)
    (h : distinct_siblings Payloads = true) :
    ∃ r : Generic_root Payloads,
      new Payloads = .done r ∧
      of_document Payloads r.document_ = .done r ∧
      ∀ (Parse : String → Option Json) (text : String),
        Parse text = some r.document_ → of_string Parse Payloads text = .done r := by
  have hconf : conforms_all Payloads (.object (default_members Payloads)) = true := by
    have := conforms_all_default Payloads h [] (fun _ _ => by simp)
    rw [List.nil_append] at this
    exact this
  have hdoc : of_document Payloads (.object (default_members Payloads)) =
      .done ⟨.object (default_members Payloads)⟩ := by
    rcases of_document_cases Payloads (.object (default_members Payloads)) with
      ⟨h1, _, _⟩ | ⟨_, h2 | h2⟩
    · exact h1
    · cases h2
    · rw [hconf] at h2
      cases h2
  refine ⟨⟨.object (default_members Payloads)⟩, new_default Payloads h, hdoc, ?_⟩
  intro Parse text hParse
  unfold of_string
  rw [hParse]
  exact hdoc

/-- Witness of C25: `Root<City, Value_field<time_tag, int>>` of the tests. -/
theorem default_document_passes_own_check_witness :
    of_document [.Object "city" [.Value_field "name" .string, .Value_field "state" .string,
        .Value_field "capital" .bool], .Value_field "time" .int]
      (.object [("city", .object [("name", .string ""), ("state", .string ""),
        ("capital", .bool false)]), ("time", .number 0)]) =
    .done ⟨.object [("city", .object [("name", .string ""), ("state", .string ""),
        ("capital", .bool false)]), ("time", .number 0)]⟩ := by
  obtain ⟨r, h1, h2, _⟩ := default_document_passes_own_check
    [.Object "city" [.Value_field "name" .string, .Value_field "state" .string,
      .Value_field "capital" .bool], .Value_field "time" .int] (by decide)
  have e : new [.Object "city" [.Value_field "name" .string, .Value_field "state" .string,
      .Value_field "capital" .bool], .Value_field "time" .int] =
      .done ⟨.object [("city", .object [("name", .string ""), ("state", .string ""),
        ("capital", .bool false)]), ("time", .number 0)]⟩ := rfl
  rw [e] at h1
  rw [← Result.done.inj h1] at h2
  exact h2

end Generic_root

/-! ## Values of fields: `get` after `set` -/

theorem members_at_of_find (name : String) (g : Json → Result Json)
    (members : List (String × Json)) (value value' : Json)
    (hf : Umap.find name members = some value) (hg : g value = .done value') :
    ∃ members', members_at name g members = .done members' ∧
      Umap.find name members' = some value' := by
  induction members with
  | nil => simp [Umap.find] at hf
  | cons m rest ih =>
    obtain ⟨n, v⟩ := m
    rw [Umap.find] at hf
    rw [members_at]
    by_cases e : n = name
    · rw [if_pos e] at hf ⊢
      cases hf
      rw [hg]
      exact ⟨(n, value') :: rest, rfl, by rw [Umap.find, if_pos e]⟩
    · rw [if_neg e] at hf ⊢
      obtain ⟨rest', h1, h2⟩ := ih hf
      rw [h1]
      exact ⟨(n, v) :: rest', rfl, by rw [Umap.find, if_neg e, h2]⟩

/-- Writing a value at a place that is there completes, and the value is at
that place afterwards. -/
theorem Json.at_path_do_done (path : List String) (v : Json) :
    ∀ doc old : Json, doc.at_path path = some old →
      ∃ doc', Json.at_path_do (fun _ => .done v) path doc = .done doc' ∧
        Json.at_path path doc' = some v := by
  induction path with
  | nil =>
    intro doc old _
    exact ⟨v, rfl, rfl⟩
  | cons seg rest ih =>
    intro doc old h
    cases doc with
    | object members =>
      rw [Json.at_path] at h
      cases hf : Umap.find seg members with
      | none => simp [hf] at h
      | some value =>
        simp only [hf] at h
        obtain ⟨value', h1, h2⟩ := ih value old h
        obtain ⟨members', h3, h4⟩ :=
          members_at_of_find seg (Json.at_path_do (fun _ => .done v) rest) members value value'
            hf h1
        refine ⟨.object members', ?_, ?_⟩
        · rw [Json.at_path_do, Json.at_member, h3]
          rfl
        · rw [Json.at_path]
          simp only [h4]
          exact h2
    | _ => simp [Json.at_path] at h

theorem wrap_signed_32_of_range (i : Int) (h : -(2 : Int) ^ 31 ≤ i ∧ i < (2 : Int) ^ 31) :
    wrap_signed 32 i = i := by
  unfold wrap_signed
  norm_num at h ⊢
  omega

theorem wrap_signed_64_of_range (i : Int) (h : -(2 : Int) ^ 63 ≤ i ∧ i < (2 : Int) ^ 63) :
    wrap_signed 64 i = i := by
  unfold wrap_signed
  norm_num at h ⊢
  omega

theorem wrap_unsigned_32_of_range (i : Int) (h : 0 ≤ i ∧ i < (2 : Int) ^ 32) :
    wrap_unsigned 32 i = i := by
  unfold wrap_unsigned
  norm_num at h ⊢
  omega

theorem wrap_unsigned_64_of_range (i : Int) (h : 0 ≤ i ∧ i < (2 : Int) ^ 64) :
    wrap_unsigned 64 i = i := by
  unfold wrap_unsigned
  norm_num at h ⊢
  omega

/-- A value of the type of the field is converted to itself. -/
theorem Value_type.convert_of_admits (T : Value_type) (v : Cpp_value)
    (h : T.admits v = true) : T.convert v = some v := by
  cases T with
  | bool => cases v <;> first | rfl | exact absurd h (by simp [Value_type.admits])
  | string => cases v <;> first | rfl | exact absurd h (by simp [Value_type.admits])
  | c_string =>
    cases v with
    | c_string s =>
      have e : c_str s = s := by simpa [Value_type.admits] using h
      simp [Value_type.convert, e]
    | _ => exact absurd h (by simp [Value_type.admits])
  | int =>
    cases v with
    | integer i =>
      have e := wrap_signed_32_of_range i (by simpa [Value_type.admits] using h)
      simp [Value_type.convert, e]
    | _ => exact absurd h (by simp [Value_type.admits])
  | int64_t =>
    cases v with
    | integer i =>
      have e := wrap_signed_64_of_range i (by simpa [Value_type.admits] using h)
      simp [Value_type.convert, e]
    | _ => exact absurd h (by simp [Value_type.admits])
  | unsigned =>
    cases v with
    | integer i =>
      have e := wrap_unsigned_32_of_range i (by simpa [Value_type.admits] using h)
      simp [Value_type.convert, e]
    | _ => exact absurd h (by simp [Value_type.admits])
  | uint64_t =>
    cases v with
    | integer i =>
      have e := wrap_unsigned_64_of_range i (by simpa [Value_type.admits] using h)
      simp [Value_type.convert, e]
    | _ => exact absurd h (by simp [Value_type.admits])

/-- A value of the type of the field is stored as it is. -/
theorem Value_traits.set_of_admits (T : Value_type) (v : Cpp_value) (h : T.admits v = true) :
    Value_traits.set T v = .done (Value_traits.stored v) := by
  unfold Value_traits.set
  rw [Value_type.convert_of_admits T v h]

/-- The traits give back what was set, for a value of the type whose text, if
it is a string, has no NUL character. -/
theorem Value_traits.get_of_set (T : Value_type) (v : Cpp_value)
    (h : T.admits v = true) (hs : ∀ s, v = .string s → c_str s = s) :
    ∃ value, Value_traits.set T v = .done value ∧ Value_traits.get T value = .done v := by
  rw [Value_traits.set_of_admits T v h]
  refine ⟨_, rfl, ?_⟩
  cases T <;> cases v <;> simp [Value_type.admits] at h
  · rfl
  · simp [Value_traits.stored, Value_traits.get, Json.IsInt, h]
  · simp [Value_traits.stored, Value_traits.get, Json.IsUint, h]
  · simp [Value_traits.stored, Value_traits.get, Json.IsInt64, h]
  · simp [Value_traits.stored, Value_traits.get, Json.IsUint64, h]
  · rename_i s
    simp [Value_traits.stored, Value_traits.get, hs s rfl]
  · rename_i s
    simp [Value_traits.stored, Value_traits.get, h]

/-- A `std::string` with a NUL character does not come back: `get` returns the
text before the NUL. -/
theorem Value_traits.string_get_of_set (s : String) :
    Value_traits.set .string (.string s) = .done (.string s) ∧
      Value_traits.get .string (.string s) = .done (.string (c_str s)) :=
  ⟨rfl, rfl⟩

namespace Value_field_proxy

/-- Through the proxy of a value field whose place is in the document, `get`
after `set(v)` returns `v`, for a `v` of the type of the field whose text, if
it is a string, has no NUL character. -/
theorem get_after_set (name : String) (T : Value_type) (path : List String) (doc old : Json)
    (v : Cpp_value) (hp : Proxy.ref ⟨.Value_field name T, path⟩ doc = some old)
    (h : T.admits v = true) (hs : ∀ s, v = .string s → c_str s = s) :
    ∃ doc', set ⟨.Value_field name T, path⟩ v doc = .done doc' ∧
      get ⟨.Value_field name T, path⟩ doc' = .done v := by
  obtain ⟨value, h1, h2⟩ := Value_traits.get_of_set T v h hs
  obtain ⟨doc', h3, h4⟩ := Json.at_path_do_done path value doc old hp
  refine ⟨doc', ?_, ?_⟩
  · simp only [set, h1, Result.bind_done, h3]
  · simp only [get, Proxy.ref, h4, h2]

end Value_field_proxy

namespace Generic_root

/-- C27 (value at the failing input). In `Root<Value_field<val,
std::string>> r; r[val{}].set(std::string("a\0b", 3));` the document holds all
three characters, and `r[val{}].get()` returns `"a"`:
`Value_traits<std::string>::get` makes the `std::string` from the
`const char*` of `GetString()`, which ends at the first NUL. With the values of
the tests (`true`, `-56`, `22u`, `-9999999999`, `9999999999u`, `"bla"`) `get`
returns what was set. -/
theorem string_field_get_after_set_truncates :
    new [.Value_field "val" .string] = .done ⟨.object [("val", .string "")]⟩ ∧
    find (⟨.object [("val", .string "")]⟩ : Generic_root [.Value_field "val" .string])
        (tag_arg "val") = .done ⟨.Value_field "val" .string, ["val"]⟩ ∧
    Value_type.admits .string (.string "a\x00b") = true ∧
    Value_field_proxy.set ⟨.Value_field "val" .string, ["val"]⟩ (.string "a\x00b")
        (.object [("val", .string "")]) = .done (.object [("val", .string "a\x00b")]) ∧
    Value_field_proxy.get ⟨.Value_field "val" .string, ["val"]⟩
        (.object [("val", .string "a\x00b")]) = .done (.string "a") ∧
    (Value_field_proxy.set ⟨.Value_field "val" .bool, ["val"]⟩ (.bool true)
        (.object [("val", .bool false)])).bind
      (Value_field_proxy.get ⟨.Value_field "val" .bool, ["val"]⟩) = .done (.bool true) ∧
    (Value_field_proxy.set ⟨.Value_field "val" .int, ["val"]⟩ (.integer (-56))
        (.object [("val", .number 0)])).bind
      (Value_field_proxy.get ⟨.Value_field "val" .int, ["val"]⟩) = .done (.integer (-56)) ∧
    (Value_field_proxy.set ⟨.Value_field "val" .unsigned, ["val"]⟩ (.integer 22)
        (.object [("val", .number 0)])).bind
      (Value_field_proxy.get ⟨.Value_field "val" .unsigned, ["val"]⟩) = .done (.integer 22) ∧
    (Value_field_proxy.set ⟨.Value_field "val" .int64_t, ["val"]⟩ (.integer (-9999999999))
        (.object [("val", .number 0)])).bind
      (Value_field_proxy.get ⟨.Value_field "val" .int64_t, ["val"]⟩) =
        .done (.integer (-9999999999)) ∧
    (Value_field_proxy.set ⟨.Value_field "val" .uint64_t, ["val"]⟩ (.integer 9999999999)
        (.object [("val", .number 0)])).bind
      (Value_field_proxy.get ⟨.Value_field "val" .uint64_t, ["val"]⟩) =
        .done (.integer 9999999999) ∧
    (Value_field_proxy.set ⟨.Value_field "val" .string, ["val"]⟩ (.string "bla")
        (.object [("val", .string "")])).bind
      (Value_field_proxy.get ⟨.Value_field "val" .string, ["val"]⟩) = .done (.string "bla") := by
  refine ⟨rfl, ?_, rfl, rfl, ?_, rfl, ?_, ?_, ?_, ?_, ?_⟩
  · unfold find Origin.run_find
    rw [Origin.find_tag]
    rfl
  · decide
  · decide
  · decide
  · decide
  · decide
  · decide
end Generic_root

/-! ## Composed keys find what the chain of their tags finds -/

theorem TArg.segments_list_map_tag_arg (names : List String) :
    TArg.segments_list (names.map tag_arg) = names := by
  induction names with
  | nil => rw [List.map_nil, TArg.segments_list]
  | cons a l ih =>
    rw [List.map_cons, TArg.segments_list, ih, tag_arg, TArg.segments]
    rfl

theorem TArg.segments_list_append (xs ys : List TArg) :
    TArg.segments_list (xs ++ ys) = TArg.segments_list xs ++ TArg.segments_list ys := by
  induction xs with
  | nil => rw [List.nil_append, TArg.segments_list, List.nil_append]
  | cons x xs ih => rw [List.cons_append, TArg.segments_list, TArg.segments_list, ih,
      List.append_assoc]

theorem is_all_tags_append (xs ys : List TArg) :
    is_all_tags (xs ++ ys) = true ↔ is_all_tags xs = true ∧ is_all_tags ys = true := by
  simp [is_all_tags, List.all_append]

/-- A list of name tags is the list of the tags of its names. -/
theorem eq_map_tag_arg_of_is_all_tags (ts : List TArg) (h : is_all_tags ts = true) :
    ts = (TArg.segments_list ts).map tag_arg := by
  induction ts with
  | nil => rw [TArg.segments_list]; rfl
  | cons t ts ih =>
    have h' : t.is_tag = true ∧ is_all_tags ts = true := by
      simpa [is_all_tags] using h
    cases t with
    | plain ty =>
      cases ty with
      | tag n =>
        rw [TArg.segments_list, TArg.segments, List.singleton_append, List.map_cons,
          ← ih h'.2]
        rfl
      | other s => simp [TArg.is_tag] at h'
    | key _ => simp [TArg.is_tag] at h'
    | pack _ => simp [TArg.is_tag] at h'

theorem find_chain_singleton (origin : Origin) (t : String) :
    find_chain origin [t] = Finder origin t := by
  rw [find_chain]

theorem find_chain_cons_next (origin : Origin) (t t2 : String) (rest : List String) :
    find_chain origin (t :: t2 :: rest) =
      find_next (Finder origin t) (fun next => find_chain next (t2 :: rest)) := by
  rw [find_chain_cons_cons]
  rfl

theorem Key_unfolder.do_call_cons_next (origin : Origin) (key k2 : TArg) (rest : List TArg) :
    Key_unfolder.do_call origin (key :: k2 :: rest) =
      find_next (origin.find key) (fun next => Key_unfolder.do_call next (k2 :: rest)) := by
  rw [Key_unfolder.do_call_cons_cons]
  rfl

theorem find_next_assoc (p : Option Proxy) (f g : Origin → Option Proxy) :
    find_next (find_next p f) g = find_next p (fun next => find_next (f next) g) := by
  cases p with
  | none => rfl
  | some proxy =>
    simp only [find_next]
    cases proxy.origin <;> rfl

/-- A chain over two runs of tags is the chain over the second run on what the
chain over the first run returns. -/
theorem find_chain_append (xs ys : List String) (hx : xs ≠ []) (hy : ys ≠ []) :
    ∀ origin : Origin, find_chain origin (xs ++ ys) =
      find_next (find_chain origin xs) (fun next => find_chain next ys) := by
  induction xs with
  | nil => exact absurd rfl hx
  | cons x xs ih =>
    intro origin
    cases xs with
    | nil =>
      cases ys with
      | nil => exact absurd rfl hy
      | cons y ys =>
        rw [List.cons_append, List.nil_append, find_chain_cons_next, find_chain_singleton]
    | cons x2 xs =>
      rw [List.cons_append, List.cons_append, find_chain_cons_next, find_chain_cons_next,
        find_next_assoc]
      congr 1
      funext next
      exact ih (by simp) next

/-- Unfolding two runs of arguments is unfolding the second run on what
unfolding the first run returns. -/
theorem Key_unfolder.do_call_append (xs ys : List TArg) (hx : xs ≠ []) (hy : ys ≠ []) :
    ∀ origin : Origin, Key_unfolder.do_call origin (xs ++ ys) =
      find_next (Key_unfolder.do_call origin xs)
        (fun next => Key_unfolder.do_call next ys) := by
  induction xs with
  | nil => exact absurd rfl hx
  | cons x xs ih =>
    intro origin
    cases xs with
    | nil =>
      cases ys with
      | nil => exact absurd rfl hy
      | cons y ys =>
        rw [List.cons_append, List.nil_append, Key_unfolder.do_call_cons_next,
          Key_unfolder.do_call_singleton]
    | cons x2 xs =>
      rw [List.cons_append, List.cons_append, Key_unfolder.do_call_cons_next,
        Key_unfolder.do_call_cons_next, find_next_assoc]
      congr 1
      funext next
      exact ih (by simp) next

theorem TArg.segments_list_ne_nil (ks : List TArg) (h : TArg.segments_list ks ≠ []) :
    ks ≠ [] := by
  intro e
  rw [e, TArg.segments_list] at h
  exact h rfl

theorem TArg.plus_key_key_eq (k1 k2 : List TArg) (c : TArg)
    (h : TArg.plus (.key k1) (.key k2) = some c) : c = .key [.key k1, .key k2] := by
  simp only [TArg.plus, TArg.Args, Key_Args, Option.isSome_some, if_true,
    Option.some.injEq] at h
  exact h.symm

theorem TArg.plus_key_tag_eq (k : List TArg) (t : String) (c : TArg)
    (h : TArg.plus (.key k) (tag_arg t) = some c) :
    c = .key [.key k, tag_arg t] ∧
      ∃ args, Key_Args k = some args ∧
        Key_Args [.key k, tag_arg t] = checked_pack (args ++ [tag_arg t]) ∧
        is_all_tags (args ++ [tag_arg t]) = true := by
  unfold tag_arg at h ⊢
  simp only [TArg.plus, TArg.type] at h
  split at h
  · rename_i hsome
    cases h
    refine ⟨rfl, ?_⟩
    rw [TArg.Args, Key_Args] at hsome
    cases hk : Key_Args k with
    | none => simp [TArg.Args, hk] at hsome
    | some args =>
      have hkey : Key_Args [.key k, .plain (.tag t)] =
          checked_pack (args ++ [.plain (.tag t)]) := by
        rw [Key_Args]
        simp only [TArg.Args, hk, TArg.type]
      refine ⟨args, rfl, hkey, ?_⟩
      simp only [TArg.Args, hk, TArg.type, checked_pack] at hsome
      by_cases hall : is_all_tags (args ++ [.plain (.tag t)]) = true
      · exact hall
      · rw [if_neg hall] at hsome
        cases hsome
  · cases h

theorem TArg.plus_tag_key_eq (k : List TArg) (t : String) (c : TArg)
    (h : TArg.plus (tag_arg t) (.key k) = some c) :
    c = .key [tag_arg t, .key k] ∧
      ∃ args, Key_Args k = some args ∧
        Key_Args [tag_arg t, .key k] = checked_pack (tag_arg t :: args) ∧
        is_all_tags (tag_arg t :: args) = true := by
  unfold tag_arg at h ⊢
  simp only [TArg.plus, TArg.type] at h
  split at h
  · rename_i hsome
    cases h
    refine ⟨rfl, ?_⟩
    rw [TArg.Args, Key_Args] at hsome
    cases hk : Key_Args k with
    | none => simp [TArg.Args, hk, TArg.type] at hsome
    | some args =>
      have hkey : Key_Args [.plain (.tag t), .key k] =
          checked_pack (.plain (.tag t) :: args) := by
        rw [Key_Args]
        simp only [TArg.Args, hk, TArg.type]
      refine ⟨args, rfl, hkey, ?_⟩
      simp only [TArg.Args, hk, TArg.type, checked_pack] at hsome
      by_cases hall : is_all_tags (.plain (.tag t) :: args) = true
      · exact hall
      · rw [if_neg hall] at hsome
        cases hsome
  · cases h

theorem checked_pack_eq_some (ts args : List TArg) (h : checked_pack ts = some args) :
    args = ts ∧ is_all_tags ts = true := by
  unfold checked_pack at h
  by_cases ht : is_all_tags ts = true
  · rw [if_pos ht] at h
    cases h
    exact ⟨rfl, ht⟩
  · rw [if_neg ht] at h
    cases h

/-- What holds of the type `Key<K...>` of a composed key: unfolding `K...` and
unfolding `Key<K...>::Args` both are the chain over the name tags of the key,
and `Args`, when made of tags, is the pack of those tags. -/
theorem Composed.unfolds (c : TArg) (hc : Composed c) :
    ∃ ks, c = .key ks ∧ TArg.segments_list ks ≠ [] ∧
      (∀ origin : Origin,
        Key_unfolder.do_call origin ks = find_chain origin (TArg.segments_list ks)) ∧
      (∀ origin : Origin, origin.find (.key ks) = find_chain origin (TArg.segments_list ks)) ∧
      (∀ args, Key_Args ks = some args → is_all_tags args = true →
        args = (TArg.segments_list ks).map tag_arg) := by
  induction hc with
  | flat names h =>
    refine ⟨names.map tag_arg, rfl, ?_, ?_, ?_, ?_⟩
    · rw [TArg.segments_list_map_tag_arg]
      exact h
    · intro origin
      rw [TArg.segments_list_map_tag_arg]
      exact Key_unfolder.do_call_tags names origin
    · intro origin
      rw [TArg.segments_list_map_tag_arg]
      exact Origin.find_of_Args origin (flat_key names) names (TArg.Args_flat_key names)
    · intro args ha _
      rw [Key_Args_flat] at ha
      cases ha
      rw [TArg.segments_list_map_tag_arg]
  | key_key x y c _ _ h ihx ihy =>
    obtain ⟨k1, rfl, n1, t1, f1, _⟩ := ihx
    obtain ⟨k2, rfl, n2, t2, f2, _⟩ := ihy
    have hc := TArg.plus_key_key_eq k1 k2 c h
    subst hc
    have hseg : TArg.segments_list [.key k1, .key k2] =
        TArg.segments_list k1 ++ TArg.segments_list k2 := by
      simp [TArg.segments_list, TArg.segments]
    have hargs : Key_Args [.key k1, .key k2] = some (k1 ++ k2) := by rw [Key_Args]
    refine ⟨_, rfl, ?_, ?_, ?_, ?_⟩
    · rw [hseg]
      simp [n1]
    · intro origin
      rw [hseg, Key_unfolder.do_call_cons_next, f1, find_chain_append _ _ n1 n2]
      congr 1
      funext next
      rw [Key_unfolder.do_call_singleton, f2]
    · intro origin
      rw [hseg, Origin.find_key, hargs]
      show Key_unfolder.do_call origin (k1 ++ k2) = _
      rw [Key_unfolder.do_call_append k1 k2 (TArg.segments_list_ne_nil k1 n1)
        (TArg.segments_list_ne_nil k2 n2), t1, find_chain_append _ _ n1 n2]
      congr 1
      funext next
      exact t2 next
    · intro args ha hall
      rw [hargs] at ha
      cases ha
      rw [hseg, ← TArg.segments_list_append]
      exact eq_map_tag_arg_of_is_all_tags _ hall
  | key_tag x c t _ h ihx =>
    obtain ⟨k, rfl, n1, _, f1, a1⟩ := ihx
    obtain ⟨hc, args, hk, hkey, hall⟩ := TArg.plus_key_tag_eq k t c h
    subst hc
    have hargs : args = (TArg.segments_list k).map tag_arg :=
      a1 args hk ((is_all_tags_append _ _).mp hall).1
    have hseg : TArg.segments_list [.key k, tag_arg t] = TArg.segments_list k ++ [t] := by
      simp [TArg.segments_list, TArg.segments, tag_arg]
    have hA : Key_Args [.key k, tag_arg t] =
        some ((TArg.segments_list k ++ [t]).map tag_arg) := by
      rw [hkey, checked_pack, if_pos hall, hargs, List.map_append]
      rfl
    refine ⟨_, rfl, ?_, ?_, ?_, ?_⟩
    · rw [hseg]
      simp
    · intro origin
      rw [hseg, Key_unfolder.do_call_cons_next, f1, find_chain_append _ _ n1 (by simp)]
      congr 1
      funext next
      rw [Key_unfolder.do_call_singleton, Origin.find_tag, find_chain_singleton]
    · intro origin
      rw [hseg, Origin.find_key, hA]
      exact Key_unfolder.do_call_tags _ origin
    · intro args' ha _
      rw [hA] at ha
      cases ha
      rw [hseg]
  | tag_key y c t _ h ihy =>
    obtain ⟨k, rfl, n1, _, f1, a1⟩ := ihy
    obtain ⟨hc, args, hk, hkey, hall⟩ := TArg.plus_tag_key_eq k t c h
    subst hc
    have hall' : is_all_tags args = true :=
      ((is_all_tags_append [tag_arg t] args).mp hall).2
    have hargs : args = (TArg.segments_list k).map tag_arg := a1 args hk hall'
    have hseg : TArg.segments_list [tag_arg t, .key k] = t :: TArg.segments_list k := by
      simp [TArg.segments_list, TArg.segments, tag_arg]
    have hA : Key_Args [tag_arg t, .key k] =
        some ((t :: TArg.segments_list k).map tag_arg) := by
      rw [hkey, checked_pack, if_pos hall, hargs, List.map_cons]
    refine ⟨_, rfl, ?_, ?_, ?_, ?_⟩
    · rw [hseg]
      simp
    · intro origin
      rw [hseg, Key_unfolder.do_call_cons_next, Origin.find_tag]
      have := find_chain_append [t] (TArg.segments_list k) (by simp) n1 origin
      rw [List.singleton_append] at this
      rw [this, find_chain_singleton]
      congr 1
      funext next
      rw [Key_unfolder.do_call_singleton, f1]
    · intro origin
      rw [hseg, Origin.find_key, hA]
      exact Key_unfolder.do_call_tags _ origin
    · intro args' ha _
      rw [hA] at ha
      cases ha
      rw [hseg]

theorem find_chain_path (ts : List String) :
    ∀ (origin : Origin) (p : Proxy), find_chain origin ts = some p →
      p.path = origin.path ++ ts := by
  induction ts with
  | nil =>
    intro origin p h
    simp [find_chain] at h
  | cons t ts ih =>
    intro origin p h
    have hF : ∀ q, Finder origin t = some q → q.path = origin.path ++ [t] := by
      intro q hq
      unfold Finder at hq
      split at hq
      · cases hq
        rfl
      · cases hq
    cases ts with
    | nil =>
      rw [find_chain_singleton] at h
      exact hF p h
    | cons t2 ts =>
      rw [find_chain_cons_cons] at h
      cases hq : Finder origin t with
      | none => simp [hq] at h
      | some q =>
        simp only [hq] at h
        cases ho : q.origin with
        | none => simp [ho] at h
        | some next =>
          simp only [ho] at h
          have hn : next.path = q.path := by
            unfold Proxy.origin at ho
            split at ho
            · cases ho
              rfl
            · cases ho
          rw [ih next p h, hn, hF q hq, List.append_assoc]
          rfl

theorem TArg.segments_flat_key (ts : List String) : (flat_key ts).segments = ts := by
  rw [flat_key, TArg.segments, TArg.segments_list_map_tag_arg]

namespace Generic_root

/-- C28. Key-based access equals chained tag access. For a key `c` that is
flat or composed with `+`, with the name tags `t1, ..., tn` from left to right,
`find(c)` (and `operator[]`, which calls it) is well-formed exactly when
`find(t1).find(t2)...find(tn)` is, on a root and on every `Object_proxy`, and
returns the same proxy: the same payload type at the same place, the member
reached through `t1, ..., tn` from the origin. So run on a root both forms
give the same result, and what `set` writes through the proxy of one form,
`get` reads through the proxy of the other. -/
theorem find_key_eq_find_chain {Payloads : List Payload} (r : Generic_root Payloads)
    (c : TArg) (hc : Composed c) :
    (∀ origin : Origin, origin.find c = find_chain origin c.segments) ∧
    (∀ ts : List String, ts ≠ [] → ∀ origin : Origin,
      origin.find (flat_key ts) = find_chain origin ts) ∧
    r.find c = (Origin.root Payloads).run_find_chain c.segments r.document_ ∧
    (∀ p : Proxy, r.find c = .done p →
      p.path = c.segments ∧ p.ref r.document_ = r.document_.at_path c.segments ∧
        (p.ref r.document_).isSome = true) ∧
    (∀ (p q : Proxy) (name : String) (T : Value_type) (v : Cpp_value),
      r.find c = .done p →
      (Origin.root Payloads).run_find_chain c.segments r.document_ = .done q →
      p.Payload = .Value_field name T → T.admits v = true →
      (∀ s, v = .string s → c_str s = s) →
        (∃ doc', Value_field_proxy.set p v r.document_ = .done doc' ∧
          Value_field_proxy.get q doc' = .done v) ∧
        (∃ doc', Value_field_proxy.set q v r.document_ = .done doc' ∧
          Value_field_proxy.get p doc' = .done v)) := by
  have hstatic : ∀ origin : Origin, origin.find c = find_chain origin c.segments := by
    intro origin
    obtain ⟨ks, rfl, _, _, hfind, _⟩ := Composed.unfolds c hc
    rw [TArg.segments]
    exact hfind origin
  have hrun : r.find c = (Origin.root Payloads).run_find_chain c.segments r.document_ := by
    unfold find Origin.run_find Origin.run_find_chain
    rw [hstatic]
  have hdone : ∀ p : Proxy, r.find c = .done p →
      find_chain (Origin.root Payloads) c.segments = some p ∧
        ∃ old, p.ref r.document_ = some old := by
    intro p hp
    rw [hrun] at hp
    unfold Origin.run_find_chain at hp
    cases hq : find_chain (Origin.root Payloads) c.segments with
    | none => simp [hq] at hp
    | some q =>
      simp only [hq] at hp
      cases hr : q.ref r.document_ with
      | none => simp [hr] at hp
      | some old =>
        simp only [hr] at hp
        cases hp
        exact ⟨rfl, old, hr⟩
  refine ⟨hstatic, ?_, hrun, ?_, ?_⟩
  · intro ts hts origin
    have := (Composed.unfolds (flat_key ts) (Composed.flat ts hts))
    obtain ⟨ks, hks, _, _, hfind, _⟩ := this
    have h2 := hfind origin
    rw [← hks, ← TArg.segments, ← hks, TArg.segments_flat_key] at h2
    exact h2
  · intro p hp
    obtain ⟨h1, old, h2⟩ := hdone p hp
    have hpath : p.path = c.segments := by
      have := find_chain_path c.segments (Origin.root Payloads) p h1
      rw [this]
      rfl
    refine ⟨hpath, ?_, ?_⟩
    · rw [Proxy.ref, hpath]
    · rw [h2]
      rfl
  · intro p q name T v hp hq hpay hadm hs
    obtain ⟨_, old, h2⟩ := hdone p hp
    have hpq : q = p := by
      rw [← hrun, hp] at hq
      exact (Result.done.inj hq).symm
    subst hpq
    obtain ⟨P, path⟩ := q
    simp only at hpay
    subst hpay
    exact ⟨Value_field_proxy.get_after_set name T path r.document_ old v h2 hadm hs,
      Value_field_proxy.get_after_set name T path r.document_ old v h2 hadm hs⟩

/-- Witness of C28: `travel[key_city{} + key_capital{}]` of `TEST(ROOT, KEY)`, on
the default document of `Root<City, Value_field<time_tag, int>>`. -/
theorem find_key_eq_find_chain_witness :
    find (⟨.object [("city", .object [("name", .string ""), ("state", .string ""),
        ("capital", .bool false)]), ("time", .number 0)]⟩ :
        Generic_root [.Object "city" [.Value_field "name" .string,
          .Value_field "state" .string, .Value_field "capital" .bool],
          .Value_field "time" .int])
      (.key [flat_key ["city"], flat_key ["capital"]]) =
    .done ⟨.Value_field "capital" .bool, ["city", "capital"]⟩ := by
  rw [(find_key_eq_find_chain _ (.key [flat_key ["city"], flat_key ["capital"]])
    (Composed.key_key (flat_key ["city"]) (flat_key ["capital"]) _
      (Composed.flat ["city"] (by simp)) (Composed.flat ["capital"] (by simp)) rfl)).2.2.1]
  rfl

end Generic_root

/-! ## One handler, once -/

namespace Generic_resolver

variable {F A σ R G B τ : Type}

/-- Exact invocation without call-site arguments, by the handler bound at the
path of the key. -/
theorem invoke_nil_eq [Callable F A σ R] (r : Generic_resolver F) (key : Key) (x : A) (s : σ) :
    r.invoke key [] x s =
      match Key_node.bound r.root_ key.Args with
      | some f => (.returned (Callable.call f x s).1, (Callable.call f x s).2)
      | none => (.out_of_range "Key not found!", s) := by
  rw [invoke_nil, Key_node.invoke_eq]
  rfl

/-- C31. A call runs one handler once, or none. A successful `scan` (either
overload) is one call of the handler bound at the path that the walk recorded:
its result is returned and the state afterwards is the state that this one
call leaves; a successful `invoke` is one call of the handler bound at the path
of the key. A failing `scan` or `invoke` leaves the state as it was, and so
does the `scan` of a document that is not an object, which fails the assertion
of `GetObject()` before anything is looked up. With
handlers that put their label at the end of a trace, the trace after a
successful call is the trace before with the label of that handler added once,
and after a failing call the trace before; so with `[name_0, name_1]` and
`[name_0, name_1, name_2]` registered, the walk that selects the deeper handler
does not run the shallower one. -/
theorem scan_and_invoke_run_one_handler [Callable F A σ R] [Inhabited R] [Callable G B τ Unit]
    (r : Generic_resolver F) (q : Generic_resolver G) (t : Generic_resolver Traced)
    (key : Key) (doc : Json) (x : A) (s : σ) (y : B) (u : τ) (z : A) (trace : List String) :
    ((∃ path f, Key_node.select r.root_ doc = some path ∧
          Key_node.bound r.root_ path = some f ∧
          r.scan doc x s = (.returned (Callable.call f x s).1, (Callable.call f x s).2)) ∨
      r.scan doc x s = (.out_of_range "No matching key found!", s) ∨
      (doc.IsObject = false ∧ r.scan doc x s = (.assertion_failed, s))) ∧
    ((∃ path g, Key_node.select q.root_ doc = some path ∧
          Key_node.bound q.root_ path = some g ∧
          q.scan_void doc y u = (.returned (), (Callable.call g y u).2)) ∨
      q.scan_void doc y u = (.out_of_range "No matching key found!", u) ∨
      (doc.IsObject = false ∧ q.scan_void doc y u = (.assertion_failed, u))) ∧
    ((∃ f, Key_node.bound r.root_ key.Args = some f ∧
          r.invoke key [] x s = (.returned (Callable.call f x s).1, (Callable.call f x s).2)) ∨
      r.invoke key [] x s = (.out_of_range "Key not found!", s)) ∧
    ((∃ path f, Key_node.select t.root_ doc = some path ∧
          Key_node.bound t.root_ path = some f ∧
          t.scan_void doc z trace = (.returned (), trace ++ [f.label])) ∨
      t.scan_void doc z trace = (.out_of_range "No matching key found!", trace) ∨
      (doc.IsObject = false ∧ t.scan_void doc z trace = (.assertion_failed, trace))) ∧
    ((∃ f, Key_node.bound t.root_ key.Args = some f ∧
          t.invoke key [] z trace = (.returned (), trace ++ [f.label])) ∨
      t.invoke key [] z trace = (.out_of_range "Key not found!", trace)) ∧
    ((build [((⟨"name_0", ["name_1"]⟩ : Key), (⟨"01"⟩ : Traced)),
          (⟨"name_0", ["name_1", "name_2"]⟩, ⟨"012"⟩)]).scan_void
        (.object [("name_0", .object [("name_1", .object [("name_2", .number 0)])])]) z
        trace = (.returned (), trace ++ ["012"])) ∧
    ((build [((⟨"name_0", ["name_1"]⟩ : Key), (⟨"01"⟩ : Traced)),
          (⟨"name_0", ["name_1", "name_2"]⟩, ⟨"012"⟩)]).scan_void
        (.object [("name_0", .object [("name_1", .number 0)])]) z
        trace = (.returned (), trace ++ ["01"])) := by
  have hscan_void : ∀ {H C υ : Type} [Callable H C υ Unit] (p : Generic_resolver H) (c : C)
      (v : υ),
      (∃ path g, Key_node.select p.root_ doc = some path ∧
          Key_node.bound p.root_ path = some g ∧
          p.scan_void doc c v = (.returned (), (Callable.call g c v).2)) ∨
        p.scan_void doc c v = (.out_of_range "No matching key found!", v) ∨
        (doc.IsObject = false ∧ p.scan_void doc c v = (.assertion_failed, v)) := by
    intro H C υ _ p c v
    unfold scan_void
    rw [Key_node.scan_void_eq_select]
    by_cases ho : doc.IsObject = true
    · rw [if_pos ho]
      cases hs : Key_node.select p.root_ doc with
      | none => exact Or.inr (Or.inl rfl)
      | some path =>
        obtain ⟨g, hg⟩ := Key_node.select_bound p.root_ doc path hs
        exact Or.inl ⟨path, g, rfl, hg, by simp [hg]⟩
    · rw [if_neg ho]
      exact Or.inr (Or.inr ⟨by simpa using ho, rfl⟩)
  have hinvoke : ∀ {H C υ ρ : Type} [Callable H C υ ρ] (p : Generic_resolver H) (c : C)
      (v : υ),
      (∃ f, Key_node.bound p.root_ key.Args = some f ∧
          p.invoke key [] c v =
            (.returned (Callable.call f c v).1, (Callable.call f c v).2)) ∨
        p.invoke key [] c v = (.out_of_range "Key not found!", v) := by
    intro H C υ ρ _ p c v
    rw [invoke_nil_eq]
    cases hb : Key_node.bound p.root_ key.Args with
    | none => exact Or.inr rfl
    | some f => exact Or.inl ⟨f, rfl, rfl⟩
  refine ⟨?_, hscan_void q y u, hinvoke r x s, hscan_void t z trace, hinvoke t z trace,
    rfl, rfl⟩
  unfold scan
  rw [Key_node.scan_eq_select]
  by_cases ho : doc.IsObject = true
  · rw [if_pos ho]
    cases hs : Key_node.select r.root_ doc with
    | none => exact Or.inr (Or.inl rfl)
    | some path =>
      obtain ⟨f, hf⟩ := Key_node.select_bound r.root_ doc path hs
      exact Or.inl ⟨path, f, rfl, hf, by simp [hf]⟩
  · rw [if_neg ho]
    exact Or.inr (Or.inr ⟨by simpa using ho, rfl⟩)

end Generic_resolver

/-! ## Members that the trie does not know, and the order of members -/

namespace detail.Key_node

variable {F A σ R : Type}

/-- The walk over two runs of members takes what it selects in the first run,
and goes on to the second run when it selects nothing there. -/
theorem select_loop_append (n : Key_node F) (pre post : List (String × Json)) :
    select_loop n (pre ++ post) =
      match select_loop n pre with
      | some path => some path
      | none => select_loop n post := by
  induction pre with
  | nil => rw [List.nil_append, select_loop]
  | cons m pre ih =>
    obtain ⟨name, value⟩ := m
    rw [List.cons_append, select_loop, select_loop, ih]
    cases Umap.find name n.children_ with
    | none => rfl
    | some child =>
      simp only
      cases value.IsObject
      · simp only [Bool.false_eq_true, if_false]
        cases child.activable_ <;> simp
      · simp only [if_true]
        cases select child value with
        | some p => rfl
        | none => cases child.activable_ <;> simp

theorem select_loop_singleton (n : Key_node F) (name : String) (value : Json) :
    select_loop n [(name, value)] =
      match Umap.find name n.children_ with
      | none => none
      | some child =>
        if value.IsObject then
          match select child value with
          | some path => some (name :: path)
          | none => if child.activable_ then some [name] else none
        else if child.activable_ then some [name] else none := by
  rw [select_loop]
  cases Umap.find name n.children_ with
  | none => simp only; rw [select_loop]
  | some child => simp only [select_loop]

theorem select_loop_absent (n : Key_node F) (name : String) (value : Json)
    (h : Umap.find name n.children_ = none) : select_loop n [(name, value)] = none := by
  rw [select_loop_singleton, h]

theorem select_loop_cons_eq (n : Key_node F) (m : String × Json)
    (post : List (String × Json)) :
    select_loop n (m :: post) =
      match select_loop n [m] with
      | some path => some path
      | none => select_loop n post :=
  select_loop_append n [m] post

/-- A member under a name that is not a child of the node does not count,
wherever it stands. -/
theorem select_loop_insert_absent (n : Key_node F) (pre post : List (String × Json))
    (name : String) (value : Json) (h : Umap.find name n.children_ = none) :
    select_loop n (pre ++ (name, value) :: post) = select_loop n (pre ++ post) := by
  rw [select_loop_append, select_loop_append n pre post, select_loop_cons_eq,
    select_loop_absent n name value h]

/-- The walk through a member depends on its value only through `IsObject()`
and the walk of the child in it. -/
theorem select_loop_member_congr (n child : Key_node F) (pre post : List (String × Json))
    (name : String) (value value' : Json) (hc : Umap.find name n.children_ = some child)
    (ho : value.IsObject = value'.IsObject) (hs : select child value = select child value') :
    select_loop n (pre ++ (name, value) :: post) =
      select_loop n (pre ++ (name, value') :: post) := by
  have h1 : select_loop n [(name, value)] = select_loop n [(name, value')] := by
    rw [select_loop_singleton, select_loop_singleton, hc]
    simp only [ho, hs]
  rw [select_loop_append, select_loop_append n pre, select_loop_cons_eq,
    select_loop_cons_eq n (name, value'), h1]

/-- An inserted member of that kind leaves the walk as it is. -/
theorem select_of_Inserted (n : Key_node F) (doc doc' : Json) (h : Inserted n doc doc') :
    doc.IsObject = doc'.IsObject ∧ select n doc = select n doc' := by
  induction h with
  | here n pre post name value h =>
    refine ⟨rfl, ?_⟩
    rw [select_object, select_object, select_loop_insert_absent n pre post name value h]
  | inside n child pre post name value value' hc _ ih =>
    refine ⟨rfl, ?_⟩
    rw [select_object, select_object,
      select_loop_member_congr n child pre post name value value' hc ih.1 ih.2]

end detail.Key_node

namespace Generic_resolver

variable {F A σ R G B τ : Type}

/-- C32. Members whose name is not a child of the trie node in charge are
irrelevant. When `doc'` is `doc` with one member more, at any position of the
document or of an object that the walk enters, under a name that the trie
node in charge of that object does not have among its children, whatever the
value of the member, then `scan` (both overloads) selects the same node and
gives the same outcome and the same state on `doc'` as on `doc`: inserting the
member changes nothing, nor does deleting it. -/
theorem scan_ignores_unknown_members [Callable F A σ R] [Inhabited R] [Callable G B τ Unit]
    (r : Generic_resolver F) (q : Generic_resolver G) (doc doc' ref ref' : Json)
    (h : Key_node.Inserted r.root_ doc doc') (hq : Key_node.Inserted q.root_ ref ref')
    (x : A) (s : σ) (y : B) (u : τ) :
    Key_node.select r.root_ doc' = Key_node.select r.root_ doc ∧
    r.scan doc' x s = r.scan doc x s ∧
    q.scan_void ref' y u = q.scan_void ref y u := by
  have h1 := (Key_node.select_of_Inserted r.root_ doc doc' h).2
  have h2 := (Key_node.select_of_Inserted q.root_ ref ref' hq).2
  have h3 := (Key_node.select_of_Inserted r.root_ doc doc' h).1
  have h4 := (Key_node.select_of_Inserted q.root_ ref ref' hq).1
  refine ⟨h1.symm, ?_, ?_⟩
  · unfold scan
    rw [Key_node.scan_eq_select, Key_node.scan_eq_select, h1, h3]
  · unfold scan_void
    rw [Key_node.scan_void_eq_select, Key_node.scan_void_eq_select, h2, h4]

/-- Witness of C32: with `[name_0, name_1]` registered, a member `other` whose
value holds the registered name `name_1` is put into the object under
`name_0`, where the node in charge has the one child `name_1`. -/
theorem scan_ignores_unknown_members_witness :
    (build [((⟨"name_0", ["name_1"]⟩ : Key), (default : Work))]).scan
        (.object ([] ++ ("name_0", .object ([] ++
          ("other", .object [("name_1", .number 0)]) :: [("name_1", .number 0)])) :: []))
        (4 : Int) () =
      (build [((⟨"name_0", ["name_1"]⟩ : Key), (default : Work))]).scan
        (.object ([] ++ ("name_0", .object ([] ++ [("name_1", .number 0)])) :: []))
        (4 : Int) () :=
  (@scan_ignores_unknown_members Work Int Unit Int (Unit → Unit → Unit × Unit) Unit Unit _ _ _
    (build [((⟨"name_0", ["name_1"]⟩ : Key), (default : Work))]) empty _ _ _ _
    (Key_node.Inserted.inside _
      (.mk false default [("name_1", .mk true default [])]) [] [] "name_0" _ _ rfl
      (Key_node.Inserted.here _ [] [("name_1", .number 0)] "other"
        (.object [("name_1", .number 0)]) rfl))
    (Key_node.Inserted.here _ [] [] "x" .null rfl) 4 () () ()).2.1

end Generic_resolver

namespace detail.Key_node

variable {F G A B σ τ R : Type}

/-- Every selection comes from one member: the walk selects nothing in the
members before it, and the path is what the walk selects in that member. -/
theorem select_loop_earliest (n : Key_node F) (ms : List (String × Json)) (path : List String)
    (h : select_loop n ms = some path) :
    ∃ pre m post, ms = pre ++ m :: post ∧ select_loop n pre = none ∧
      select_loop n [m] = some path ∧ ∃ rest, path = m.1 :: rest := by
  induction ms with
  | nil => simp [select_loop] at h
  | cons m ms ih =>
    rw [select_loop_cons_eq] at h
    cases hm : select_loop n [m] with
    | some p =>
      simp only [hm, Option.some.injEq] at h
      subst h
      refine ⟨[], m, ms, rfl, by rw [select_loop], hm, ?_⟩
      obtain ⟨name, value⟩ := m
      rw [select_loop_singleton] at hm
      cases hc : Umap.find name n.children_ with
      | none => simp [hc] at hm
      | some child =>
        simp only [hc] at hm
        by_cases ho : value.IsObject = true
        · simp only [ho, if_true] at hm
          cases hs : select child value with
          | some q =>
            simp only [hs, Option.some.injEq] at hm
            exact ⟨q, hm.symm⟩
          | none =>
            simp only [hs] at hm
            by_cases ha : child.activable_ = true
            · simp only [ha, if_true, Option.some.injEq] at hm
              exact ⟨[], hm.symm⟩
            · simp [ha] at hm
        · simp only [ho, Bool.false_eq_true, if_false] at hm
          by_cases ha : child.activable_ = true
          · simp only [ha, if_true, Option.some.injEq] at hm
            exact ⟨[], hm.symm⟩
          · simp [ha] at hm
    | none =>
      simp only [hm] at h
      obtain ⟨pre, m', post, he, hpre, hsel, hrest⟩ := ih h
      refine ⟨m :: pre, m', post, by rw [he]; rfl, ?_, hsel, hrest⟩
      rw [select_loop_cons_eq, hm]
      exact hpre

/-- The member that the walk selects in is the first one in which it selects. -/
theorem select_loop_first_success (n : Key_node F) (pre post : List (String × Json))
    (m : String × Json) (path : List String) (hpre : select_loop n pre = none)
    (hm : select_loop n [m] = some path) :
    select_loop n (pre ++ m :: post) = some path := by
  rw [select_loop_append, hpre, select_loop_cons_eq, hm]

end detail.Key_node

namespace Generic_resolver

variable {F A σ R G B τ : Type}

/-- C33. The order of the members of the document decides, the order of the
registrations does not. With handlers `a` at `[a]` and `b` at `[b]`,
registered in either order, the scan of `{a:0, b:0}` calls `a` and the scan of
`{b:0, a:0}` calls `b`. In general, at every trie node, when the walk selects a
path in the members of an object, there is a first member in which a walk
selects, the walk selects nothing in the members before it, and the path is
the one selected in that member and starts with its name; and a member in
which the walk selects, after members in which it selects nothing, is the one
whose path is taken, whatever comes after it; `scan` calls the handler bound
at that path. -/
theorem scan_order_of_members_decides [Callable F A σ R] [Inhabited R] (r : Generic_resolver F)
    (pre post : List (String × Json)) (m : String × Json) (path : List String)
    (z : A) (trace : List String) (x : A) (s : σ) :
    (build [((⟨"a", []⟩ : Key), (⟨"a"⟩ : Traced)), (⟨"b", []⟩, ⟨"b"⟩)]).scan_void
        (.object [("a", .number 0), ("b", .number 0)]) z trace =
      (.returned (), trace ++ ["a"]) ∧
    (build [((⟨"a", []⟩ : Key), (⟨"a"⟩ : Traced)), (⟨"b", []⟩, ⟨"b"⟩)]).scan_void
        (.object [("b", .number 0), ("a", .number 0)]) z trace =
      (.returned (), trace ++ ["b"]) ∧
    (build [((⟨"b", []⟩ : Key), (⟨"b"⟩ : Traced)), (⟨"a", []⟩, ⟨"a"⟩)]).scan_void
        (.object [("a", .number 0), ("b", .number 0)]) z trace =
      (.returned (), trace ++ ["a"]) ∧
    (build [((⟨"b", []⟩ : Key), (⟨"b"⟩ : Traced)), (⟨"a", []⟩, ⟨"a"⟩)]).scan_void
        (.object [("b", .number 0), ("a", .number 0)]) z trace =
      (.returned (), trace ++ ["b"]) ∧
    (build [((⟨"a", []⟩ : Key), (⟨"a"⟩ : Traced)), (⟨"b", []⟩, ⟨"b"⟩)]).scan_void
        (.object [("a", .number 0), ("b", .number 0)]) z trace ≠
      (build [((⟨"a", []⟩ : Key), (⟨"a"⟩ : Traced)), (⟨"b", []⟩, ⟨"b"⟩)]).scan_void
        (.object [("b", .number 0), ("a", .number 0)]) z trace ∧
    (∀ ms : List (String × Json), Key_node.select_loop r.root_ ms = some path →
      ∃ pre' m' post', ms = pre' ++ m' :: post' ∧ Key_node.select_loop r.root_ pre' = none ∧
        Key_node.select_loop r.root_ [m'] = some path ∧ ∃ rest, path = m'.1 :: rest) ∧
    (Key_node.select_loop r.root_ pre = none → Key_node.select_loop r.root_ [m] = some path →
      Key_node.select r.root_ (.object (pre ++ m :: post)) = some path ∧
      ∃ f, Key_node.bound r.root_ path = some f ∧
        r.scan (.object (pre ++ m :: post)) x s =
          (.returned (Callable.call f x s).1, (Callable.call f x s).2)) := by
  refine ⟨rfl, rfl, rfl, rfl, ?_, ?_, ?_⟩
  · have e1 : (build [((⟨"a", []⟩ : Key), (⟨"a"⟩ : Traced)), (⟨"b", []⟩, ⟨"b"⟩)]).scan_void
        (.object [("a", .number 0), ("b", .number 0)]) z trace =
        (.returned (), trace ++ ["a"]) := rfl
    have e2 : (build [((⟨"a", []⟩ : Key), (⟨"a"⟩ : Traced)), (⟨"b", []⟩, ⟨"b"⟩)]).scan_void
        (.object [("b", .number 0), ("a", .number 0)]) z trace =
        (.returned (), trace ++ ["b"]) := rfl
    rw [e1, e2]
    simp
  · intro ms hms
    exact Key_node.select_loop_earliest r.root_ ms path hms
  · intro hpre hm
    have hsel := Key_node.select_loop_first_success r.root_ pre post m path hpre hm
    obtain ⟨_, f, hf⟩ := Key_node.select_loop_bound r.root_ _ path hsel
    refine ⟨by rw [Key_node.select_object]; exact hsel, f, hf, ?_⟩
    exact Key_node.scan_object_of_select r.root_ _ path f hsel hf x s

/-- Witness of C33: `Work` registered at `[a]`; after the member `c`, in which
the walk selects nothing, the member `a` is the one selected, before `a` again. -/
theorem scan_order_of_members_decides_witness :
    Key_node.select (build [((⟨"a", []⟩ : Key), (default : Work))]).root_
      (.object ([("c", .number 0)] ++ ("a", .number 1) :: [("a", .number 2)])) = some ["a"] :=
  ((@scan_order_of_members_decides Work Int Unit Int _ _
    (build [((⟨"a", []⟩ : Key), (default : Work))]) [("c", .number 0)] [("a", .number 2)]
    ("a", .number 1) ["a"] 0 [] 4 ()).2.2.2.2.2.2 rfl rfl).1

/-- C35. With two members of the same name in one object the scan need not
take the deepest registered path that is present: with handlers `a` at `[a]`
and `ab` at `[a, b]`, the scan of `{a:0, a:{b:0}}` stops at the first member
`a`, whose value is not an object, and calls `a`, although `[a, b]` is
registered and present through the second member `a`. (With the two members
the other way round it calls `ab`.) -/
theorem scan_duplicate_names_not_deepest [Inhabited F] [Callable F A σ R] [Inhabited R]
    (ha hab : F) (x : A) (s : σ) (z : A) (trace : List String) :
    (build [(⟨"a", []⟩, ha), (⟨"a", ["b"]⟩, hab)]).scan
        (.object [("a", .number 0), ("a", .object [("b", .number 0)])]) x s =
      (Outcome.returned (Callable.call ha x s).1, (Callable.call ha x s).2) ∧
    Key_node.select (build [(⟨"a", []⟩, ha), (⟨"a", ["b"]⟩, hab)]).root_
        (.object [("a", .number 0), ("a", .object [("b", .number 0)])]) = some ["a"] ∧
    registered [((⟨"a", []⟩ : Key), ha), (⟨"a", ["b"]⟩, hab)] ["a", "b"] = some hab ∧
    present ["a", "b"] (.object [("a", .number 0), ("a", .object [("b", .number 0)])]) = true ∧
    ["a"] <+: ["a", "b"] ∧
    (Json.object [("a", .number 0), ("a", .object [("b", .number 0)])]).distinct_names = false ∧
    (build [((⟨"a", []⟩ : Key), (⟨"a"⟩ : Traced)), (⟨"a", ["b"]⟩, ⟨"ab"⟩)]).scan_void
        (.object [("a", .number 0), ("a", .object [("b", .number 0)])]) z trace =
      (.returned (), trace ++ ["a"]) ∧
    (build [((⟨"a", []⟩ : Key), (⟨"a"⟩ : Traced)), (⟨"a", ["b"]⟩, ⟨"ab"⟩)]).scan_void
        (.object [("a", .object [("b", .number 0)]), ("a", .number 0)]) z trace =
      (.returned (), trace ++ ["ab"]) :=
  ⟨rfl, rfl, rfl, rfl, ⟨["b"], rfl⟩, by decide, rfl, rfl⟩

end Generic_resolver

/-! ## The two overloads of `scan` search alike -/

namespace detail.Key_node

variable {F G A B σ τ R : Type}

theorem shape_nil (n : Key_node F) : shape n [] = some n.activable_ := rfl

theorem shape_cons (n : Key_node F) (seg : String) (rest : List String) :
    shape n (seg :: rest) =
      match Umap.find seg n.children_ with
      | none => none
      | some child => shape child rest := by
  unfold shape
  rw [flags_cons]
  cases Umap.find seg n.children_ <;> rfl

/-- Two tries of the same shape have, under each name, either no child or
children of the same shape. -/
theorem find_of_shape_eq (n : Key_node F) (m : Key_node G)
    (h : ∀ path, shape n path = shape m path) (name : String) :
    (Umap.find name n.children_ = none ∧ Umap.find name m.children_ = none) ∨
      ∃ c c', Umap.find name n.children_ = some c ∧ Umap.find name m.children_ = some c' ∧
        c.activable_ = c'.activable_ ∧ ∀ path, shape c path = shape c' path := by
  have h1 := h [name]
  rw [shape_cons, shape_cons] at h1
  cases hn : Umap.find name n.children_ with
  | none =>
    cases hm : Umap.find name m.children_ with
    | none => exact Or.inl ⟨rfl, rfl⟩
    | some c' =>
      rw [hn, hm] at h1
      simp [shape_nil] at h1
  | some c =>
    cases hm : Umap.find name m.children_ with
    | none =>
      rw [hn, hm] at h1
      simp [shape_nil] at h1
    | some c' =>
      refine Or.inr ⟨c, c', rfl, rfl, ?_, ?_⟩
      · rw [hn, hm] at h1
        simpa [shape_nil] using h1
      · intro path
        have h2 := h (name :: path)
        rw [shape_cons, shape_cons, hn, hm] at h2
        exact h2

/-- The walk takes the same way through two tries of the same shape. -/
theorem select_loop_of_shape_eq (n : Key_node F) (m : Key_node G)
    (h : ∀ path, shape n path = shape m path) (ms : List (String × Json)) :
    select_loop n ms = select_loop m ms := by
  induction ms using Json.members_induction generalizing n m with
  | nil => simp [select_loop]
  | cons name value rest ihv ihr =>
    rw [select_loop, select_loop]
    rcases find_of_shape_eq n m h name with ⟨hn, hm⟩ | ⟨c, c', hn, hm, ha, hc⟩
    · simp only [hn, hm]
      exact ihr n m h
    · simp only [hn, hm]
      cases value with
      | object vs =>
        simp only [Json.IsObject, if_true, select_object]
        rw [ihv vs rfl c c' hc, ha, ihr n m h]
      | _ =>
        simp only [Json.IsObject, Bool.false_eq_true, if_false]
        rw [ha, ihr n m h]

theorem select_of_shape_eq (n : Key_node F) (m : Key_node G)
    (h : ∀ path, shape n path = shape m path) (doc : Json) : select n doc = select m doc := by
  cases doc with
  | object ms => rw [select_object, select_object, select_loop_of_shape_eq n m h]
  | _ => simp [select]

/-- The flag `found` that the value-returning `do_scan` leaves. -/
theorem do_scan_found [Callable F A σ R] [Inhabited R] (n : Key_node F) (doc : Json)
    (x : A) (s : σ) :
    (do_scan n doc false x s : R × Bool × σ).2.1 = (select n doc).isSome := by
  cases doc with
  | object ms =>
    rw [do_scan_object, do_scan_loop_eq, select_object]
    cases hs : select_loop n ms with
    | none => rfl
    | some path =>
      obtain ⟨_, f, hf⟩ := select_loop_bound n ms path hs
      simp [hf]
  | _ => simp [do_scan, select]

/-- The flag `found` that the `void` overload of `do_scan` leaves. -/
theorem do_scan_void_found [Callable G B τ Unit] (m : Key_node G) (doc : Json)
    (y : B) (u : τ) :
    (do_scan_void m doc false y u).1 = (select m doc).isSome := by
  cases doc with
  | object ms =>
    rw [do_scan_void_object, do_scan_void_loop_eq, do_scan_loop_eq, select_object]
    cases hs : select_loop m ms with
    | none => rfl
    | some path =>
      obtain ⟨_, f, hf⟩ := select_loop_bound m ms path hs
      simp [hf]
  | _ => simp [do_scan_void, select]

end detail.Key_node

namespace Generic_resolver

variable {F A σ R G B τ : Type}

/-- The shape of a resolver built by `add` calls is given by the keys. -/
theorem shape_build [Inhabited F] (adds : List (Key × F)) (path : List String) :
    Key_node.shape (build adds).root_ path =
      if path = [] then some false
      else if ∃ a ∈ adds, a.1.Args = path then some true
      else if ∃ a ∈ adds, path <+: a.1.Args then some false else none := by
  unfold Key_node.shape
  rw [flags_build]
  by_cases hp : path = []
  · simp [hp]
  · simp only [hp, if_false]
    cases hr : registered adds path with
    | some f =>
      have : ∃ a ∈ adds, a.1.Args = path := by
        by_contra hne
        have := (registered_eq_none adds path).mpr (by
          intro a ha e
          exact hne ⟨a, ha, e⟩)
        rw [hr] at this
        cases this
      simp [this]
    | none =>
      have hnone := (registered_eq_none adds path).mp hr
      have : ¬ ∃ a ∈ adds, a.1.Args = path := by
        rintro ⟨a, ha, e⟩
        exact hnone a ha e
      simp only [this, if_false]
      by_cases hpre : ∃ a ∈ adds, path <+: a.1.Args
      · simp [hpre]
      · simp [hpre]

/-- Resolvers built by `add` calls with the same keys in the same order have
the same shape, whatever the handlers and their type. -/
theorem shape_build_congr [Inhabited F] [Inhabited G] (adds : List (Key × F))
    (adds' : List (Key × G)) (h : adds.map Prod.fst = adds'.map Prod.fst)
    (path : List String) :
    Key_node.shape (build adds).root_ path = Key_node.shape (build adds').root_ path := by
  have hex : ∀ P : Key → Prop, (∃ a ∈ adds, P a.1) ↔ (∃ a ∈ adds', P a.1) := by
    intro P
    have h1 : (∃ a ∈ adds, P a.1) ↔ ∃ k ∈ adds.map Prod.fst, P k := by simp
    have h2 : (∃ a ∈ adds', P a.1) ↔ ∃ k ∈ adds'.map Prod.fst, P k := by simp
    rw [h1, h2, h]
  rw [shape_build, shape_build]
  simp only [hex (fun k => k.Args = path), hex (fun k => path <+: k.Args)]

/-- C34. The overload of `scan` for handlers returning `void` and the one for
handlers returning a value implement the same search. On tries of the same
shape (a node at the same paths, activable at the same paths; the handlers
and their types may differ) and the same document, the two overloads of
`do_scan` leave the same flag `found`, the two overloads of `scan` both succeed
or both throw the no-match error, and on success both call the handler bound
at the same path, the node that the walk stopped at. (On a document that is
not an object both overloads fail the assertion of `GetObject()`.) -/
theorem void_and_value_scan_agree [Callable F A σ R] [Inhabited R] [Callable G B τ Unit]
    (r : Generic_resolver F) (q : Generic_resolver G)
    (h : ∀ path, Key_node.shape r.root_ path = Key_node.shape q.root_ path)
    (doc : Json) (x : A) (s : σ) (y : B) (u : τ) :
    Key_node.select r.root_ doc = Key_node.select q.root_ doc ∧
    (Key_node.do_scan r.root_ doc false x s : R × Bool × σ).2.1 =
      (Key_node.do_scan_void q.root_ doc false y u).1 ∧
    ((∃ v, (r.scan doc x s).1 = .returned v) ↔ (q.scan_void doc y u).1 = .returned ()) ∧
    ((r.scan doc x s).1 = .out_of_range "No matching key found!" ↔
      (q.scan_void doc y u).1 = .out_of_range "No matching key found!") ∧
    ((∃ path f g, Key_node.select r.root_ doc = some path ∧
        Key_node.select q.root_ doc = some path ∧
        Key_node.bound r.root_ path = some f ∧ Key_node.bound q.root_ path = some g ∧
        r.scan doc x s = (.returned (Callable.call f x s).1, (Callable.call f x s).2) ∧
        q.scan_void doc y u = (.returned (), (Callable.call g y u).2)) ∨
      (Key_node.select r.root_ doc = none ∧ Key_node.select q.root_ doc = none ∧
        r.scan doc x s = (.out_of_range "No matching key found!", s) ∧
        q.scan_void doc y u = (.out_of_range "No matching key found!", u)) ∨
      (doc.IsObject = false ∧ r.scan doc x s = (.assertion_failed, s) ∧
        q.scan_void doc y u = (.assertion_failed, u))) := by
  have hsel := Key_node.select_of_shape_eq r.root_ q.root_ h doc
  have hcases : (∃ path f g, Key_node.select r.root_ doc = some path ∧
        Key_node.select q.root_ doc = some path ∧
        Key_node.bound r.root_ path = some f ∧ Key_node.bound q.root_ path = some g ∧
        r.scan doc x s = (.returned (Callable.call f x s).1, (Callable.call f x s).2) ∧
        q.scan_void doc y u = (.returned (), (Callable.call g y u).2)) ∨
      (Key_node.select r.root_ doc = none ∧ Key_node.select q.root_ doc = none ∧
        r.scan doc x s = (.out_of_range "No matching key found!", s) ∧
        q.scan_void doc y u = (.out_of_range "No matching key found!", u)) ∨
      (doc.IsObject = false ∧ r.scan doc x s = (.assertion_failed, s) ∧
        q.scan_void doc y u = (.assertion_failed, u)) := by
    unfold scan scan_void
    rw [Key_node.scan_eq_select, Key_node.scan_void_eq_select]
    by_cases ho : doc.IsObject = true
    · rw [if_pos ho, if_pos ho]
      cases hs : Key_node.select r.root_ doc with
      | none =>
        rw [hs] at hsel
        rw [← hsel]
        exact Or.inr (Or.inl ⟨rfl, rfl, rfl, rfl⟩)
      | some path =>
        rw [hs] at hsel
        obtain ⟨f, hf⟩ := Key_node.select_bound r.root_ doc path hs
        obtain ⟨g, hg⟩ := Key_node.select_bound q.root_ doc path hsel.symm
        rw [← hsel]
        exact Or.inl ⟨path, f, g, rfl, rfl, hf, hg, by simp [hf], by simp [hg]⟩
    · rw [if_neg ho, if_neg ho]
      exact Or.inr (Or.inr ⟨by simpa using ho, rfl, rfl⟩)
  refine ⟨hsel, ?_, ?_, ?_, hcases⟩
  · rw [Key_node.do_scan_found, Key_node.do_scan_void_found, hsel]
  · rcases hcases with ⟨_, f, g, _, _, _, _, h1, h2⟩ | ⟨_, _, h1, h2⟩ | ⟨_, h1, h2⟩
    · rw [h1, h2]
      exact ⟨fun _ => rfl, fun _ => ⟨_, rfl⟩⟩
    · rw [h1, h2]
      constructor
      · rintro ⟨v, hv⟩
        cases hv
      · intro hv
        cases hv
    · rw [h1, h2]
      constructor
      · rintro ⟨v, hv⟩
        cases hv
      · intro hv
        cases hv
  · rcases hcases with ⟨_, f, g, _, _, _, _, h1, h2⟩ | ⟨_, _, h1, h2⟩ | ⟨_, h1, h2⟩
    · rw [h1, h2]
      constructor
      · intro hv
        cases hv
      · intro hv
        cases hv
    · rw [h1, h2]
      exact ⟨fun _ => rfl, fun _ => rfl⟩
    · rw [h1, h2]
      constructor
      · intro hv
        cases hv
      · intro hv
        cases hv

/-- Witness of C34: the keys of `TEST(RESOLVER, BEST_MATCH)` registered with
`Work` (returning `int`) and with handlers returning `void`; on
`{"name_0":{"name_1":0}}` both stop at `[name_0, name_1]`. -/
theorem void_and_value_scan_agree_witness :
    Key_node.select
        (build [((⟨"name_0", ["name_1", "name_2"]⟩ : Key), (default : Work)),
          (⟨"name_0", ["name_1"]⟩, default)]).root_
        (.object [("name_0", .object [("name_1", .number 0)])]) =
      Key_node.select
        (build [((⟨"name_0", ["name_1", "name_2"]⟩ : Key), (⟨"012"⟩ : Traced)),
          (⟨"name_0", ["name_1"]⟩, ⟨"01"⟩)]).root_
        (.object [("name_0", .object [("name_1", .number 0)])]) :=
  (@void_and_value_scan_agree Work Int Unit Int Traced Int (List String) _ _ _
    (build [((⟨"name_0", ["name_1", "name_2"]⟩ : Key), (default : Work)),
      (⟨"name_0", ["name_1"]⟩, default)])
    (build [((⟨"name_0", ["name_1", "name_2"]⟩ : Key), (⟨"012"⟩ : Traced)),
      (⟨"name_0", ["name_1"]⟩, ⟨"01"⟩)])
    (shape_build_congr _ _ rfl)
    (.object [("name_0", .object [("name_1", .number 0)])]) 4 () 4 []).1

end Generic_resolver

/-! ## The payload that `find` names -/

theorem Payload_finder_of_Array (Name_tag : String) (Payloads : List Payload)
    (h : Payloads.any Payload.is_Array = true) :
    Payload_finder Name_tag Payloads = .incomplete := by
  induction Payloads with
  | nil => simp at h
  | cons p rest ih =>
    cases p with
    | Array name => rw [Payload_finder]
    | Object name Ps =>
      have hr : rest.any Payload.is_Array = true := by
        simpa [Payload.is_Array] using h
      rw [Payload_finder, ih hr]
    | Value_field name T =>
      have hr : rest.any Payload.is_Array = true := by
        simpa [Payload.is_Array] using h
      rw [Payload_finder, ih hr]

theorem Payload_finder_no_Array (Name_tag : String) (Payloads : List Payload)
    (h : Payloads.any Payload.is_Array = false) :
    Payload_finder Name_tag Payloads =
      match Payloads.find? (fun p => p.name == Name_tag) with
      | some p => .member p
      | none => .No_result := by
  induction Payloads with
  | nil => rw [Payload_finder]; rfl
  | cons p rest ih =>
    cases p with
    | Array name => simp [Payload.is_Array] at h
    | Object name Ps =>
      have hr : rest.any Payload.is_Array = false := by
        simpa [Payload.is_Array] using h
      rw [Payload_finder, ih hr, List.find?_cons]
      generalize List.find? (fun p => p.name == Name_tag) rest = found
      by_cases e : Name_tag = name
      · subst e
        cases found <;> simp [Payload.name]
      · have e' : (name == Name_tag) = false := by
          simpa using fun h' => e h'.symm
        cases found <;> simp [Payload.name, e', e]
    | Value_field name T =>
      have hr : rest.any Payload.is_Array = false := by
        simpa [Payload.is_Array] using h
      rw [Payload_finder, ih hr, List.find?_cons]
      generalize List.find? (fun p => p.name == Name_tag) rest = found
      by_cases e : Name_tag = name
      · subst e
        cases found <;> simp [Payload.name]
      · have e' : (name == Name_tag) = false := by
          simpa using fun h' => e h'.symm
        cases found <;> simp [Payload.name, e', e]

/-- C37 (value at the failing input). `Payload_finder` has partial
specialisations for a first payload `Object<...>` and `Value_field<...>` only,
and names the `type` of the rest of the list in both branches of its
`std::conditional`. So for the schema of `TEST(ROOT, ARRAY)`,
`Root<Value_field<value_tag, unsigned>, Object<node_tag, Array<array_tag>>>`,
`Payload_finder<array_tag, Array<array_tag>>` is an incomplete type and
`json[node_tag{}][array_tag{}]` does not compile, although `array` is declared;
and with an `Array` anywhere in the list, before or after the payload looked
for, `Payload_finder` names no type: neither the first payload with the tag nor
`No_result`. For a list without an `Array` it is the first payload in
declaration order with the tag, and `No_result` when there is none. -/
theorem Payload_finder_incomplete_with_Array :
    Payload_finder "array" [.Array "array"] = .incomplete ∧
    find_chain (Origin.root [.Value_field "value" .unsigned, .Object "node" [.Array "array"]])
      ["node"] = some ⟨.Object "node" [.Array "array"], ["node"]⟩ ∧
    find_chain (Origin.root [.Value_field "value" .unsigned, .Object "node" [.Array "array"]])
      ["node", "array"] = none ∧
    Payload_finder "b" [.Array "a", .Value_field "b" .int] = .incomplete ∧
    Payload_finder "b" [.Value_field "b" .int, .Array "a"] = .incomplete ∧
    Payload_finder "c" [.Value_field "b" .int, .Array "a"] = .incomplete ∧
    (∀ (Name_tag : String) (Payloads : List Payload),
      Payload_finder Name_tag Payloads =
        if Payloads.any Payload.is_Array then .incomplete
        else match Payloads.find? (fun p => p.name == Name_tag) with
          | some p => .member p
          | none => .No_result) := by
  refine ⟨rfl, rfl, rfl, rfl, rfl, rfl, ?_⟩
  intro Name_tag Payloads
  by_cases h : Payloads.any Payload.is_Array = true
  · rw [if_pos h]
    exact Payload_finder_of_Array Name_tag Payloads h
  · rw [if_neg h]
    exact Payload_finder_no_Array Name_tag Payloads (by simpa using h)

/-! ## Conformity is kept by `set` -/

namespace Generic_root

end Generic_root

end jsontype
